import Mathlib

/-!
# Verification of a fine-grained reactive dependency-tracking engine

Shallow embedding of `src/mini-vue.js`: a Vue3-style reactivity core with
`effect` / `track` / `trigger` / `reactive` / `computed` / `queueJob`.

The JavaScript source uses global mutable state (targetMap, activeEffect,
effectStack, queue, isFlushing).  We embed it as explicit state passing over
a `State` record whose components are association lists (JS `Map` / `Set`
insertion-ordered semantics).  User functions passed to `effect` / `computed`
are embedded as a small program type `Prog` whose operations are exactly the
interactions the engine offers (reactive reads/writes, invoking another
effect handle, reading a computed's `.value`, raising a failure).  All
engine entry points are fuel-indexed so that everything is executable and
total; fuel exhaustion is an error distinct from a user-thrown failure.

A ghost `trace` field records instrumentation events (track, cleanup,
dispatch, effect runs, scheduler firings, flush runs); no engine decision
ever reads the trace.
-/

namespace MiniVue

/-- Property keys (JS property names). -/
abbrev Key := String

/-- Target identity: raw JS objects are compared by reference; we give each
raw object an address. -/
abbrev Addr := Nat

/-- Effect identity (the `effectFn` closures are compared by reference). -/
abbrev EffectId := Nat

/-- Raw stored values: primitives, references to raw objects, or `undefined`. -/
inductive Value where
  | num (n : Int)
  | objV (a : Addr)
  | undef
deriving DecidableEq, Repr

/-- A reactive wrapper (a `Proxy` produced by `reactive`): it remembers the
raw target it wraps, plus its own identity `pid` (each `new Proxy` call
yields a distinct proxy object). -/
structure Wrapper where
  raw : Addr
  pid : Nat
deriving DecidableEq, Repr

/-- Values as returned through the reactive layer: either a primitive or a
(freshly allocated) wrapper over a nested object. -/
inductive RVal where
  | prim (v : Value)
  | wrapped (w : Wrapper)
deriving DecidableEq, Repr

/-- Ghost instrumentation events. -/
inductive Ev where
  /-- `track(a, k)` registered effect `e` as a subscriber of `(a, k)`. -/
  | trackEv (e : EffectId) (a : Addr) (k : Key)
  /-- `cleanup(e)` ran (start of a run of effect `e`). -/
  | cleanupEv (e : EffectId)
  /-- the dispatch loop of a `trigger(a, k)` call delivered to subscriber `e`. -/
  | dispatchEv (a : Addr) (k : Key) (e : EffectId)
  /-- a `trigger(a, k)` call was entered. -/
  | triggerEv (a : Addr) (k : Key)
  /-- effect `e`'s handle was invoked (its `fn` is about to run). -/
  | runEv (e : EffectId)
  /-- the flush loop ran queued job `e`. -/
  | flushRunEv (e : EffectId)
  /-- computed `c`'s invalidation scheduler fired. -/
  | schedEv (c : Addr)
  /-- computed `c`'s `.value` getter was entered. -/
  | creadEv (c : Addr)
  /-- computed `c` was dirty at a `.value` read and recomputes. -/
  | recompEv (c : Addr)
deriving DecidableEq, Repr

/-- Abnormal outcomes of running engine code. -/
inductive Err where
  /-- a user function raised a failure (JS `throw`). -/
  | thrown
  /-- interpreter fuel ran out (not a behavior of the JS code). -/
  | outOfFuel
  /-- an unregistered effect or computed was named (not reachable from the API). -/
  | missing
deriving DecidableEq, Repr

/-- Embedded user functions: the bodies passed to `effect` and `computed`,
expressed by the interactions they can have with the engine. -/
inductive Prog where
  | skip
  | seq (p q : Prog)
  /-- a reactive read `proxy[k]` on a wrapper of raw target `a`. -/
  | readP (a : Addr) (k : Key)
  /-- a reactive write `proxy[k] = v` on a wrapper of raw target `a`. -/
  | writeP (a : Addr) (k : Key) (v : Value)
  /-- reactively read `(a, k)` and branch on its truthiness. -/
  | branch (a : Addr) (k : Key) (p q : Prog)
  /-- invoke another effect handle. -/
  | invokeP (e : EffectId)
  /-- read `.value` of the computed at address `c`. -/
  | readC (c : Addr)
  /-- raise a failure (JS `throw`). -/
  | failP
deriving DecidableEq, Repr

/-- The per-effect record: `effectFn.deps` / `effectFn.options` plus the
body.  `sched = some c` is the invalidation scheduler that `computed`
installs for the computed instance at address `c`; `sched = none` means no
custom scheduler (default queue dispatch). -/
structure EffectRec where
  prog : Prog
  isLazy : Bool
  sched : Option Addr
  deps : List (Addr × Key)
deriving DecidableEq, Repr

/-- A computed instance: cached value, dirty flag, internal lazy effect. -/
structure CompRec where
  cval : RVal
  dirty : Bool
  eid : EffectId
deriving DecidableEq, Repr

/-- The global state of the engine (the JS module's top-level mutable
bindings, plus the raw object heap and ghost instrumentation). -/
structure State where
  /-- raw objects: address → (key → stored value). -/
  heap : List (Addr × List (Key × Value)) := []
  /-- `targetMap : WeakMap<target, Map<key, Set<effectFn>>>`. -/
  targetMap : List (Addr × List (Key × List EffectId)) := []
  /-- registry of all effect closures created so far. -/
  effects : List (EffectId × EffectRec) := []
  nextEffectId : EffectId := 0
  /-- registry of computed instances, keyed by the `computedRef` identity. -/
  computeds : List (Addr × CompRec) := []
  /-- allocator for fresh object identities (computed refs). -/
  nextAddr : Addr := 0
  /-- `activeEffect`. -/
  activeEffect : Option EffectId := none
  /-- `effectStack`, top first (JS pushes/pops at the array end). -/
  effectStack : List EffectId := []
  /-- `queue` (a JS `Set`: insertion order, no duplicates). -/
  queue : List EffectId := []
  /-- `isFlushing`. -/
  isFlushing : Bool := false
  /-- ghost: whether a microtask requested by `Promise.resolve().then` is
  pending (host event-loop state, not a module binding). -/
  microtaskPending : Bool := false
  /-- allocator for proxy identities. -/
  nextWrapperId : Nat := 0
  /-- ghost event trace, chronological. -/
  trace : List Ev := []
deriving DecidableEq, Repr

/-! ## Association-list primitives (JS `Map` with in-place value updates) -/

/-- Lookup in an association list (first match). -/
def look {κ β : Type} [DecidableEq κ] : List (κ × β) → κ → Option β
  | [], _ => none
  | (x, y) :: t, a => if x = a then some y else look t a

/-- Insert-or-replace, keeping the entry position (JS `map.set`). -/
def ins {κ β : Type} [DecidableEq κ] : List (κ × β) → κ → β → List (κ × β)
  | [], a, b => [(a, b)]
  | (x, y) :: t, a, b => if x = a then (a, b) :: t else (x, y) :: ins t a b

/-- Update the value at a key if present, in place; no-op if absent. -/
def updF {κ β : Type} [DecidableEq κ] : List (κ × β) → κ → (β → β) → List (κ × β)
  | [], _, _ => []
  | (x, y) :: t, a, f => if x = a then (a, f y) :: t else (x, y) :: updF t a f

/-! ## Small state operations -/

/-- Append a ghost event. -/
def emit (ev : Ev) (s : State) : State :=
  { s with trace := s.trace ++ [ev] }

/-- Raw property read `target[key]` (no tracking). -/
def heapGet (s : State) (a : Addr) (k : Key) : Value :=
  ((look s.heap a).bind fun fields => look fields k).getD (Value.undef)

/-- Raw property write `Reflect.set(target, key, value)`. -/
def heapSet (s : State) (a : Addr) (k : Key) (v : Value) : State :=
  { s with heap := ins s.heap a (ins ((look s.heap a).getD []) k v) }

/-- The dependency set for `(a, k)` (absent entries read as empty). -/
def depSet (s : State) (a : Addr) (k : Key) : List EffectId :=
  ((look s.targetMap a).bind fun dm => look dm k).getD []

/-- `effectFn.deps` of effect `e` (empty if unregistered). -/
def depsOf (s : State) (e : EffectId) : List (Addr × Key) :=
  ((look s.effects e).map EffectRec.deps).getD []

/-- `effectFn.options.scheduler` of effect `e`. -/
def schedOf (s : State) (e : EffectId) : Option Addr :=
  ((look s.effects e).map EffectRec.sched).getD none

/-- Whether an effect id names a created effect closure. -/
def registered (s : State) (e : EffectId) : Prop :=
  (look s.effects e).isSome

instance (s : State) (e : EffectId) : Decidable (registered s e) := by
  unfold registered; infer_instance

/-- `track(target, key)`: no-op without an active effect; otherwise add the
active effect to the `(a, k)` dependency set (created on demand) and push
that dependency onto the active effect's own `deps` list. -/
def track (a : Addr) (k : Key) (s : State) : State :=
  match s.activeEffect with
  | none => s
  | some e =>
    let dm := (look s.targetMap a).getD []
    let dep := (look dm k).getD []
    let dep' := if e ∈ dep then dep else dep ++ [e]
    let s' := { s with
      targetMap := ins s.targetMap a (ins dm k dep'),
      effects := updF s.effects e fun r => { r with deps := r.deps ++ [(a, k)] } }
    emit (.trackEv e a k) s'

/-- Remove effect `e` from the dependency set at `(a, k)` (JS `dep.delete`). -/
def removeDep (tm : List (Addr × List (Key × List EffectId))) (a : Addr) (k : Key)
    (e : EffectId) : List (Addr × List (Key × List EffectId)) :=
  updF tm a fun dm => updF dm k fun dep => dep.erase e

/-- `cleanup(effectFn)`: remove `e` from every dependency set it recorded,
then clear its `deps` list. -/
def cleanup (e : EffectId) (s : State) : State :=
  let prs := depsOf s e
  let s' := { s with
    targetMap := prs.foldl (fun tm ak => removeDep tm ak.1 ak.2 e) s.targetMap,
    effects := updF s.effects e fun r => { r with deps := [] } }
  emit (.cleanupEv e) s'

/-- `queueJob(job)`: dedup-add to the queue; if no flush is underway, mark
flushing and request a microtask. -/
def queueJob (j : EffectId) (s : State) : State :=
  let q := if j ∈ s.queue then s.queue else s.queue ++ [j]
  if s.isFlushing then { s with queue := q }
  else { s with queue := q, isFlushing := true, microtaskPending := true }

/-- `reactive(target)`: allocate a fresh proxy over the raw target. -/
def reactiveWrap (a : Addr) (s : State) : Wrapper × State :=
  (⟨a, s.nextWrapperId⟩, { s with nextWrapperId := s.nextWrapperId + 1 })

/-- The proxy `get` handler: raw read, then `track`, then lazily wrap
object-typed results in a fresh proxy. -/
def reactiveGet (w : Wrapper) (k : Key) (s : State) : RVal × State :=
  let result := heapGet s w.raw k
  let s1 := track w.raw k s
  match result with
  | .objV a =>
    let (w', s2) := reactiveWrap a s1
    (.wrapped w', s2)
  | v => (.prim v, s1)

/-- JS truthiness of a reactive-layer value (`0`, `undefined` falsy). -/
def truthy : RVal → Bool
  | .prim (.num n) => n ≠ 0
  | .prim (.objV _) => true
  | .prim .undef => false
  | .wrapped _ => true

/-! ## The fueled mutual interpreter

Every entry point takes fuel and returns the outcome together with the
state as mutated so far — a raised failure does *not* roll state back,
exactly as in JS.  All cross-calls decrease fuel. -/

mutual

/-- Run an embedded user-function body. -/
def runProg : Nat → Prog → State → (Except Err RVal) × State
  | 0, _, s => (.error .outOfFuel, s)
  | n + 1, p, s =>
    match p with
    | .skip => (.ok (.prim .undef), s)
    | .seq p₁ p₂ =>
      match runProg n p₁ s with
      | (.ok _, s1) => runProg n p₂ s1
      | (.error err, s1) => (.error err, s1)
    | .readP a k =>
      let (v, s1) := reactiveGet ⟨a, 0⟩ k s
      (.ok v, s1)
    | .writeP a k v =>
      match reactiveSet n ⟨a, 0⟩ k v s with
      | (.ok _, s1) => (.ok (.prim v), s1)
      | (.error err, s1) => (.error err, s1)
    | .branch a k p₁ p₂ =>
      let (v, s1) := reactiveGet ⟨a, 0⟩ k s
      if truthy v then runProg n p₁ s1 else runProg n p₂ s1
    | .invokeP e => runEffect n e s
    | .readC c => computedGetValue n c s
    | .failP => (.error .thrown, s)

/-- Invoke an effect handle (`effectFn()`): cleanup, activate (push), run the
body, then deactivate (pop) and restore the previous active effect.  The JS
body has no `try`/`finally`: on a failure the pop and restore are skipped. -/
def runEffect : Nat → EffectId → State → (Except Err RVal) × State
  | 0, _, s => (.error .outOfFuel, s)
  | n + 1, e, s =>
    match look s.effects e with
    | none => (.error .missing, s)
    | some r =>
      let s0 := emit (.runEv e) s
      let s1 := cleanup e s0
      let s2 := { s1 with activeEffect := some e, effectStack := e :: s1.effectStack }
      match runProg n r.prog s2 with
      | (.ok v, s3) =>
        let st := s3.effectStack.tail
        (.ok v, { s3 with effectStack := st, activeEffect := st.head? })
      | (.error err, s3) => (.error err, s3)

/-- Read `computedRef.value`: recompute via the internal effect if dirty,
then track the computed itself, then return the cached value. -/
def computedGetValue : Nat → Addr → State → (Except Err RVal) × State
  | 0, _, s => (.error .outOfFuel, s)
  | n + 1, c, s =>
    match look s.computeds c with
    | none => (.error .missing, s)
    | some cr =>
      let s0 := emit (.creadEv c) s
      if cr.dirty then
        let s0b := emit (.recompEv c) s0
        match runEffect n cr.eid s0b with
        | (.ok v, s1) =>
          let s2 := { s1 with
            computeds := updF s1.computeds c fun r => { r with cval := v, dirty := false } }
          let s3 := track c "value" s2
          (.ok v, s3)
        | (.error err, s1) => (.error err, s1)
      else
        let s3 := track c "value" s0
        (.ok cr.cval, s3)

/-- The proxy `set` handler: read the old value raw, store the new value,
and call `trigger` only if the new value differs from the old. -/
def reactiveSet : Nat → Wrapper → Key → Value → State → (Except Err Unit) × State
  | 0, _, _, _, s => (.error .outOfFuel, s)
  | n + 1, w, k, v, s =>
    let oldValue := heapGet s w.raw k
    let s1 := heapSet s w.raw k v
    if v = oldValue then (.ok (), s1) else trigger (n + 1) w.raw k s1

/-- `trigger(target, key)`: look up the dependency set; if present, iterate
over a snapshot of it, handing each subscriber to its custom scheduler or to
the default queue. -/
def trigger : Nat → Addr → Key → State → (Except Err Unit) × State
  | 0, _, _, s => (.error .outOfFuel, s)
  | n + 1, a, k, s =>
    let s0 := emit (.triggerEv a k) s
    match look s0.targetMap a with
    | none => (.ok (), s0)
    | some dm =>
      match look dm k with
      | none => (.ok (), s0)
      | some dep => dispatchList n a k dep s0

/-- Iterate the snapshot taken by `trigger`: per subscriber, either fire its
custom scheduler (computed invalidation: set dirty, re-trigger the computed)
or enqueue it on the default queue. -/
def dispatchList : Nat → Addr → Key → List EffectId → State → (Except Err Unit) × State
  | 0, _, _, _, s => (.error .outOfFuel, s)
  | _ + 1, _, _, [], s => (.ok (), s)
  | n + 1, a, k, e :: rest, s =>
    let s0 := emit (.dispatchEv a k e) s
    match look s0.effects e with
    | none => (.error .missing, s0)
    | some r =>
      match r.sched with
      | some c =>
        let s1 := { s0 with
          computeds := updF s0.computeds c fun cr => { cr with dirty := true } }
        let s1b := emit (.schedEv c) s1
        match trigger n c "value" s1b with
        | (.ok _, s2) => dispatchList n a k rest s2
        | (.error err, s2) => (.error err, s2)
      | none => dispatchList n a k rest (queueJob e s0)

end

/-- The flush callback body (`queue.forEach(j => j()); queue.clear();
isFlushing = false`): JS `Set.forEach` visits insertion order and also
reaches elements added during the iteration, so we repeatedly run the first
not-yet-visited queue entry.  A job failure aborts the callback: the queue
is not cleared and `isFlushing` is not reset. -/
def flushGo : Nat → List EffectId → State → (Except Err Unit) × State
  | 0, _, s => (.error .outOfFuel, s)
  | n + 1, visited, s =>
    match s.queue.find? (fun j => !(visited.contains j)) with
    | none => (.ok (), { s with queue := [], isFlushing := false })
    | some j =>
      let s0 := emit (.flushRunEv j) s
      match runEffect n j s0 with
      | (.ok _, s1) => flushGo n (j :: visited) s1
      | (.error err, s1) => (.error err, s1)

/-- Top-level actions: the API surface plus the host's microtask drain. -/
inductive Act where
  /-- a reactive write from non-effect code. -/
  | writeA (a : Addr) (k : Key) (v : Value)
  /-- a reactive read from non-effect code. -/
  | readA (a : Addr) (k : Key)
  /-- the pending microtask fires (runs the flush callback, if one was
  requested). -/
  | flushMicro
  /-- manually invoke an effect handle. -/
  | invokeA (e : EffectId)
  /-- read `.value` of a computed. -/
  | readCA (c : Addr)
  /-- `effect(fn, {lazy})`: register, then run immediately unless lazy. -/
  | mkEffectA (p : Prog) (isLazy : Bool)
  /-- `computed(getter)`: a lazy effect with the invalidation scheduler. -/
  | mkComputedA (g : Prog)
deriving DecidableEq, Repr

/-- Run one top-level action (one event-loop turn). -/
def runAct (n : Nat) : Act → State → (Except Err Unit) × State
  | .writeA a k v, s => reactiveSet n ⟨a, 0⟩ k v s
  | .readA a k, s =>
    let (_, s1) := reactiveGet ⟨a, 0⟩ k s
    (.ok (), s1)
  | .flushMicro, s =>
    if s.microtaskPending then flushGo n [] { s with microtaskPending := false }
    else (.ok (), s)
  | .invokeA e, s =>
    match runEffect n e s with
    | (.ok _, s1) => (.ok (), s1)
    | (.error err, s1) => (.error err, s1)
  | .readCA c, s =>
    match computedGetValue n c s with
    | (.ok _, s1) => (.ok (), s1)
    | (.error err, s1) => (.error err, s1)
  | .mkEffectA p lz, s =>
    let e := s.nextEffectId
    let s1 := { s with
      effects := s.effects ++ [(e, ⟨p, lz, none, []⟩)],
      nextEffectId := e + 1 }
    if lz then (.ok (), s1)
    else
      match runEffect n e s1 with
      | (.ok _, s2) => (.ok (), s2)
      | (.error err, s2) => (.error err, s2)
  | .mkComputedA g, s =>
    let c := s.nextAddr
    let e := s.nextEffectId
    (.ok (), { s with
      effects := s.effects ++ [(e, ⟨g, true, some c, []⟩)],
      nextEffectId := e + 1,
      computeds := s.computeds ++ [(c, ⟨.prim .undef, true, e⟩)],
      nextAddr := c + 1 })

/-- Run a script of top-level actions; each action is its own event-loop
turn, so a failure escaping one action does not cancel later ones. -/
def runScript (n : Nat) : List Act → State → State
  | [], s => s
  | a :: rest, s => runScript n rest (runAct n a s).2

/-! ## Derived state observations, invariants, and trace vocabulary -/

/-- The dirty flag of the computed at `c`, if one exists. -/
def dirtyOf (s : State) (c : Addr) : Option Bool :=
  (look s.computeds c).map CompRec.dirty

/-- The cached value of the computed at `c`. -/
def cvalOf (s : State) (c : Addr) : Option RVal :=
  (look s.computeds c).map CompRec.cval

/-- The internal effect of the computed at `c`. -/
def eidAt (s : State) (c : Addr) : Option EffectId :=
  (look s.computeds c).map CompRec.eid

/-- Well-formedness of engine state: unique map keys, dependency sets and
`deps` lists mutually consistent, active effect on top of the stack, queue
deduplicated and holding only scheduler-less registered effects, allocators
ahead of all allocated ids, computed records tied to their internal effects. -/
structure WF (s : State) : Prop where
  tmKeys : (s.targetMap.map Prod.fst).Nodup
  dmKeys : ∀ td ∈ s.targetMap, (td.2.map Prod.fst).Nodup
  effKeys : (s.effects.map Prod.fst).Nodup
  compKeys : (s.computeds.map Prod.fst).Nodup
  depNodup : ∀ td ∈ s.targetMap, ∀ kd ∈ td.2, kd.2.Nodup
  depFwd : ∀ td ∈ s.targetMap, ∀ kd ∈ td.2, ∀ e ∈ kd.2,
    registered s e ∧ (td.1, kd.1) ∈ depsOf s e
  depBwd : ∀ er ∈ s.effects, ∀ ak ∈ er.2.deps, er.1 ∈ depSet s ak.1 ak.2
  aeTop : s.activeEffect = s.effectStack.head?
  stackReg : ∀ e ∈ s.effectStack, registered s e
  queueNodup : s.queue.Nodup
  queueOk : ∀ j ∈ s.queue, registered s j ∧ schedOf s j = none
  effBound : ∀ er ∈ s.effects, er.1 < s.nextEffectId
  compBound : ∀ ce ∈ s.computeds, ce.1 < s.nextAddr
  compOk : ∀ ce ∈ s.computeds, registered s ce.2.eid ∧ schedOf s ce.2.eid = some ce.1

/-- The events appended between an earlier and a later state. -/
def newTrace (s s' : State) : List Ev :=
  s'.trace.drop s.trace.length

/-- Occurrence count of one event in a trace. -/
def countEv (ev : Ev) (tr : List Ev) : Nat :=
  tr.count ev

/-- The `(target, key)` pairs that `track` recorded for effect `e` in a
trace segment, in order (duplicates possible, as in `deps.push`). -/
def trackedPairs (e : EffectId) (tr : List Ev) : List (Addr × Key) :=
  tr.filterMap fun ev =>
    match ev with
    | .trackEv e' a k => if e' = e then some (a, k) else none
    | _ => none

/-- Detector for flush-loop job events. -/
def isFR : Ev → Bool
  | .flushRunEv _ => true
  | _ => false

/-- Detector for the events a `trigger` call can emit. -/
def isDT : Ev → Bool
  | .triggerEv _ _ => true
  | .dispatchEv _ _ _ => true
  | .schedEv _ => true
  | _ => false

/-- The immutable signature of an effect record (everything but `deps`). -/
def effSig (r : EffectRec) : Prog × Bool × Option Addr :=
  (r.prog, r.isLazy, r.sched)

/-- Facts preserved by every internal step of the engine (everything except
top-level registration of new effects/computeds): the trace only grows, the
effect and computed registries keep their keys and immutable fields, the
allocators are untouched, an in-progress flush stays marked in progress,
and no new microtask is requested while a flush is marked in progress. -/
structure Sim (s s' : State) : Prop where
  tr : s.trace <+: s'.trace
  effKeysEq : s'.effects.map Prod.fst = s.effects.map Prod.fst
  effSigEq : ∀ e, (look s'.effects e).map effSig = (look s.effects e).map effSig
  compKeysEq : s'.computeds.map Prod.fst = s.computeds.map Prod.fst
  compEidEq : ∀ c, eidAt s' c = eidAt s c
  nextEffEq : s'.nextEffectId = s.nextEffectId
  nextAddrEq : s'.nextAddr = s.nextAddr
  flMono : s.isFlushing = true → s'.isFlushing = true
  pendStable : s.isFlushing = true → s'.microtaskPending = s.microtaskPending

/-- Cluster shape: what every step inside the six mutually recursive engine
functions preserves — `Sim`, plus: the queue only grows (by appending), and
no flush-loop job events are emitted. -/
structure CS (s s' : State) : Prop where
  sim : Sim s s'
  q : s.queue <+: s'.queue
  fr : s'.trace.countP isFR = s.trace.countP isFR

/-- Reading the dependency set out of a raw target map (for fold lemmas). -/
def tmGet (tm : List (Addr × List (Key × List EffectId))) (a : Addr) (k : Key) :
    List EffectId :=
  ((look tm a).bind fun dm => look dm k).getD []

/-- The state after `effect(fn, options)` registers the new effect closure
(before its immediate first run, if any). -/
def regEff (s : State) (p : Prog) (lz : Bool) (sc : Option Addr) : State :=
  { s with effects := s.effects ++ [(s.nextEffectId, ⟨p, lz, sc, []⟩)],
           nextEffectId := s.nextEffectId + 1 }

/-- The state after `computed(getter)` registers the internal lazy effect
and the computed record. -/
def regComp (s : State) (g : Prog) : State :=
  { s with effects := s.effects ++ [(s.nextEffectId, ⟨g, true, some s.nextAddr, []⟩)],
           nextEffectId := s.nextEffectId + 1,
           computeds := s.computeds ++ [(s.nextAddr, ⟨.prim .undef, true, s.nextEffectId⟩)],
           nextAddr := s.nextAddr + 1 }

/-- What a `trigger`-cluster step preserves, plus: all events it emits are
dispatch-cluster events. -/
structure TF (s s' : State) : Prop where
  tm : s'.targetMap = s.targetMap
  eff : s'.effects = s.effects
  hp : s'.heap = s.heap
  stk : s'.effectStack = s.effectStack
  ae : s'.activeEffect = s.activeEffect
  tr : s.trace <+: s'.trace
  ev : ∀ x ∈ newTrace s s', isDT x = true

def DepsDelta (e : EffectId) (s s' : State) : Prop :=
  s.trace <+: s'.trace ∧
  depsOf s' e = depsOf s e ++ trackedPairs e (newTrace s s') ∧
  ∀ a k, e ∈ depSet s' a k ↔ (e ∈ depSet s a k ∨ (a, k) ∈ trackedPairs e (newTrace s s'))

/-- Between two states, computed `c` only goes clean-to-dirty when its
scheduler fired (a `schedEv`), and only goes dirty-to-clean when its value was
read (a `creadEv`). -/
def DirtyInv (c : Addr) (s s' : State) : Prop :=
  s.trace <+: s'.trace ∧
  (dirtyOf s c = some false → Ev.schedEv c ∉ newTrace s s' → dirtyOf s' c = some false) ∧
  (dirtyOf s c = some true → Ev.creadEv c ∉ newTrace s s' → dirtyOf s' c = some true)

/-- A failed flush leaves the scheduler wedged: the flushing flag is stuck and
no microtask is pending, so no future flush can start. -/
def Wedged (s : State) : Prop := s.isFlushing = true ∧ s.microtaskPending = false

/-- Demo heap: object 1 holds primitive fields and a nested object 2. -/
def demoHeap : List (Addr × List (Key × Value)) :=
  [(1, [("cond", .num 1), ("a", .num 10), ("b", .num 20), ("x", .num 5), ("nested", .objV 2)]),
   (2, [("y", .num 7)])]

def demoState : State :=
  { heap := demoHeap
    nextAddr := 10 }

/-- Effect 0 branches on `cond`, reading `a` or `b`. -/
def branchState : State :=
  { heap := demoHeap
    nextAddr := 10
    effects := [(0, ⟨Prog.branch 1 "cond" (.readP 1 "a") (.readP 1 "b"), false, none, []⟩)]
    nextEffectId := 1 }

/-- Effect 0 reads `x` and then throws. -/
def failState : State :=
  { heap := demoHeap
    nextAddr := 10
    effects := [(0, ⟨Prog.seq (.readP 1 "x") .failP, false, none, []⟩)]
    nextEffectId := 1 }

/-- Outer effect 0 (currently active) and inner effect 1. -/
def nestState : State :=
  { heap := demoHeap
    nextAddr := 10
    effects := [(0, ⟨Prog.invokeP 1, false, none, []⟩), (1, ⟨Prog.readP 1 "x", false, none, []⟩)]
    nextEffectId := 2
    activeEffect := some 0
    effectStack := [0] }

/-- Computed 10 over `a`, clean with cached value 10, internal effect 0. -/
def compCleanState : State :=
  { heap := demoHeap
    nextAddr := 11
    effects := [(0, ⟨Prog.readP 1 "a", true, some 10, []⟩)]
    nextEffectId := 1
    computeds := [(10, ⟨.prim (.num 10), false, 0⟩)] }

/-- One effect subscribed to `a` and `b`, then two writes in one extent. -/
def queueActs : List Act :=
  [.mkEffectA (.seq (.readP 1 "a") (.readP 1 "b")) false,
   .writeA 1 "a" (.num 1), .writeA 1 "b" (.num 2)]

/-- The first turns of the wedge scenario: a failing effect and a healthy one,
both subscribed to `x`, then a write that queues both. -/
def wedgePrefixActs : List Act :=
  [.mkEffectA (.seq (.readP 1 "x") .failP) false,
   .mkEffectA (.readP 1 "x") false,
   .writeA 1 "x" (.num 6)]

/-- The wedge scenario in full: the flush fails on job 0, then the program
writes `x` again and drains the microtask queue again. -/
def wedgeActs : List Act :=
  wedgePrefixActs ++ [.flushMicro, .writeA 1 "x" (.num 7), .flushMicro]

/-- State after the failing flush of the wedge scenario. -/
def wedgedState : State := (runAct 20 .flushMicro (runScript 20 wedgePrefixActs demoState)).2

end MiniVue


namespace MiniVue

/-! ## Association-list lemmas -/

section Alist

variable {κ β : Type} [DecidableEq κ]

theorem look_cons_eq {x : κ} {y : β} {t : List (κ × β)} {a : κ} (h : x = a) :
    look ((x, y) :: t) a = some y := by simp [look, h]

theorem look_cons_ne {x : κ} {y : β} {t : List (κ × β)} {a : κ} (h : x ≠ a) :
    look ((x, y) :: t) a = look t a := by simp [look, h]

theorem ins_cons_eq {x : κ} {y : β} {t : List (κ × β)} {a : κ} {b : β} (h : x = a) :
    ins ((x, y) :: t) a b = (a, b) :: t := by simp [ins, h]

theorem ins_cons_ne {x : κ} {y : β} {t : List (κ × β)} {a : κ} {b : β} (h : x ≠ a) :
    ins ((x, y) :: t) a b = (x, y) :: ins t a b := by simp [ins, h]

theorem updF_cons_eq {x : κ} {y : β} {t : List (κ × β)} {a : κ} {f : β → β} (h : x = a) :
    updF ((x, y) :: t) a f = (a, f y) :: t := by simp [updF, h]

theorem updF_cons_ne {x : κ} {y : β} {t : List (κ × β)} {a : κ} {f : β → β} (h : x ≠ a) :
    updF ((x, y) :: t) a f = (x, y) :: updF t a f := by simp [updF, h]

theorem look_ins_self (l : List (κ × β)) (a : κ) (b : β) :
    look (ins l a b) a = some b := by
  induction l with
  | nil => simp [ins, look]
  | cons hd t ih =>
    obtain ⟨x, y⟩ := hd
    by_cases h : x = a
    · rw [ins_cons_eq h, look_cons_eq rfl]
    · rw [ins_cons_ne h, look_cons_ne h, ih]

theorem look_ins_ne (l : List (κ × β)) (a a' : κ) (b : β)
    (h : a' ≠ a) : look (ins l a b) a' = look l a' := by
  induction l with
  | nil => simp [ins, look, Ne.symm h]
  | cons hd t ih =>
    obtain ⟨x, y⟩ := hd
    by_cases hh : x = a
    · rw [ins_cons_eq hh, look_cons_ne (Ne.symm h),
        look_cons_ne (show x ≠ a' by rw [hh]; exact Ne.symm h)]
    · by_cases hx : x = a'
      · rw [ins_cons_ne hh, look_cons_eq hx, look_cons_eq hx]
      · rw [ins_cons_ne hh, look_cons_ne hx, look_cons_ne hx, ih]

theorem look_updF_self (l : List (κ × β)) (a : κ) (f : β → β) :
    look (updF l a f) a = (look l a).map f := by
  induction l with
  | nil => simp [updF, look]
  | cons hd t ih =>
    obtain ⟨x, y⟩ := hd
    by_cases h : x = a
    · rw [updF_cons_eq h, look_cons_eq rfl, look_cons_eq h]; rfl
    · rw [updF_cons_ne h, look_cons_ne h, look_cons_ne h, ih]

theorem look_updF_ne (l : List (κ × β)) (a a' : κ) (f : β → β)
    (h : a' ≠ a) : look (updF l a f) a' = look l a' := by
  induction l with
  | nil => simp [updF]
  | cons hd t ih =>
    obtain ⟨x, y⟩ := hd
    by_cases hh : x = a
    · rw [updF_cons_eq hh, look_cons_ne (Ne.symm h),
        look_cons_ne (show x ≠ a' by rw [hh]; exact Ne.symm h)]
    · by_cases hx : x = a'
      · rw [updF_cons_ne hh, look_cons_eq hx, look_cons_eq hx]
      · rw [updF_cons_ne hh, look_cons_ne hx, look_cons_ne hx, ih]

theorem updF_keys (l : List (κ × β)) (a : κ) (f : β → β) :
    (updF l a f).map Prod.fst = l.map Prod.fst := by
  induction l with
  | nil => simp [updF]
  | cons hd t ih =>
    obtain ⟨x, y⟩ := hd
    by_cases h : x = a
    · rw [updF_cons_eq h, h]; rfl
    · rw [updF_cons_ne h, List.map_cons, List.map_cons, ih]

theorem ins_keys_of_mem (l : List (κ × β)) (a : κ) (b : β)
    (h : a ∈ l.map Prod.fst) : (ins l a b).map Prod.fst = l.map Prod.fst := by
  induction l with
  | nil => simp at h
  | cons hd t ih =>
    obtain ⟨x, y⟩ := hd
    by_cases hh : x = a
    · rw [ins_cons_eq hh, hh]; rfl
    · have h' : a ∈ t.map Prod.fst := by
        simp only [List.map_cons, List.mem_cons] at h
        rcases h with h | h
        · exact absurd h.symm hh
        · exact h
      rw [ins_cons_ne hh, List.map_cons, List.map_cons, ih h']

theorem ins_keys_of_not_mem (l : List (κ × β)) (a : κ) (b : β)
    (h : a ∉ l.map Prod.fst) : (ins l a b).map Prod.fst = l.map Prod.fst ++ [a] := by
  induction l with
  | nil => simp [ins]
  | cons hd t ih =>
    obtain ⟨x, y⟩ := hd
    simp only [List.map_cons, List.mem_cons] at h
    push_neg at h
    rw [ins_cons_ne (Ne.symm h.1), List.map_cons, List.map_cons, ih h.2, List.cons_append]

theorem look_eq_some_of_mem {l : List (κ × β)} {x : κ × β}
    (hnd : (l.map Prod.fst).Nodup) (hm : x ∈ l) : look l x.1 = some x.2 := by
  induction l with
  | nil => simp at hm
  | cons hd t ih =>
    obtain ⟨u, v⟩ := hd
    simp only [List.map_cons, List.nodup_cons] at hnd
    rcases List.mem_cons.mp hm with hm' | hm'
    · rw [hm']
      exact look_cons_eq rfl
    · have hne : u ≠ x.1 := by
        intro he
        exact hnd.1 (he ▸ (List.mem_map_of_mem Prod.fst hm'))
      rw [look_cons_ne hne, ih hnd.2 hm']

theorem mem_of_look_eq_some {l : List (κ × β)} {a : κ} {b : β}
    (h : look l a = some b) : (a, b) ∈ l := by
  induction l with
  | nil => simp [look] at h
  | cons hd t ih =>
    obtain ⟨x, y⟩ := hd
    by_cases hh : x = a
    · rw [look_cons_eq hh, Option.some.injEq] at h
      rw [← hh, ← h]
      exact List.mem_cons_self _ _
    · rw [look_cons_ne hh] at h
      exact List.mem_cons_of_mem _ (ih h)

theorem mem_ins {l : List (κ × β)} {a : κ} {b : β} {x : κ × β}
    (hnd : (l.map Prod.fst).Nodup) :
    x ∈ ins l a b ↔ x = (a, b) ∨ (x ∈ l ∧ x.1 ≠ a) := by
  induction l with
  | nil =>
    simp only [ins, List.mem_singleton, List.not_mem_nil, false_and, or_false]
  | cons hd t ih =>
    obtain ⟨u, v⟩ := hd
    simp only [List.map_cons, List.nodup_cons] at hnd
    by_cases hh : u = a
    · rw [ins_cons_eq hh]
      constructor
      · intro h
        rcases List.mem_cons.mp h with h1 | h1
        · left; exact h1
        · right
          refine ⟨List.mem_cons_of_mem _ h1, fun hx => ?_⟩
          rw [← hh] at hx
          exact hnd.1 (hx ▸ (List.mem_map_of_mem Prod.fst h1))
      · intro h
        rcases h with h | h
        · exact h ▸ List.mem_cons_self _ _
        · rcases List.mem_cons.mp h.1 with h1 | h1
          · rw [h1] at h
            exact absurd hh h.2
          · exact List.mem_cons_of_mem _ h1
    · rw [ins_cons_ne hh]
      constructor
      · intro h
        rcases List.mem_cons.mp h with h1 | h1
        · right
          refine ⟨h1 ▸ List.mem_cons_self _ _, ?_⟩
          rw [h1]; exact hh
        · rcases (ih hnd.2).mp h1 with h2 | h2
          · left; exact h2
          · right; exact ⟨List.mem_cons_of_mem _ h2.1, h2.2⟩
      · intro h
        rcases h with h | h
        · exact List.mem_cons_of_mem _ ((ih hnd.2).mpr (Or.inl h))
        · rcases List.mem_cons.mp h.1 with h1 | h1
          · exact h1 ▸ List.mem_cons_self _ _
          · exact List.mem_cons_of_mem _ ((ih hnd.2).mpr (Or.inr ⟨h1, h.2⟩))

theorem mem_updF {l : List (κ × β)} {a : κ} {f : β → β} {x : κ × β}
    (hnd : (l.map Prod.fst).Nodup) :
    x ∈ updF l a f ↔ (x ∈ l ∧ x.1 ≠ a) ∨ (∃ b, look l a = some b ∧ x = (a, f b)) := by
  induction l with
  | nil => simp [updF, look]
  | cons hd t ih =>
    obtain ⟨u, v⟩ := hd
    simp only [List.map_cons, List.nodup_cons] at hnd
    by_cases hh : u = a
    · rw [updF_cons_eq hh, look_cons_eq hh]
      constructor
      · intro h
        rcases List.mem_cons.mp h with h1 | h1
        · right; exact ⟨v, rfl, h1⟩
        · left
          refine ⟨List.mem_cons_of_mem _ h1, fun hx => ?_⟩
          rw [← hh] at hx
          exact hnd.1 (hx ▸ (List.mem_map_of_mem Prod.fst h1))
      · intro h
        rcases h with h | h
        · rcases List.mem_cons.mp h.1 with h1 | h1
          · rw [h1] at h
            exact absurd hh h.2
          · exact List.mem_cons_of_mem _ h1
        · rcases h with ⟨b, hb, hx⟩
          rw [Option.some.injEq] at hb
          subst hb
          exact hx ▸ List.mem_cons_self _ _
    · rw [updF_cons_ne hh, look_cons_ne hh]
      constructor
      · intro h
        rcases List.mem_cons.mp h with h1 | h1
        · left
          refine ⟨h1 ▸ List.mem_cons_self _ _, ?_⟩
          rw [h1]; exact hh
        · rcases (ih hnd.2).mp h1 with h2 | h2
          · left; exact ⟨List.mem_cons_of_mem _ h2.1, h2.2⟩
          · right; exact h2
      · intro h
        rcases h with h | h
        · rcases List.mem_cons.mp h.1 with h1 | h1
          · exact h1 ▸ List.mem_cons_self _ _
          · exact List.mem_cons_of_mem _ ((ih hnd.2).mpr (Or.inl ⟨h1, h.2⟩))
        · exact List.mem_cons_of_mem _ ((ih hnd.2).mpr (Or.inr h))

end Alist

/-! ## Derived observations and the well-formedness invariant -/





theorem wf_iff_parts (s : State) : WF s ↔
    (s.targetMap.map Prod.fst).Nodup ∧
    (∀ td ∈ s.targetMap, (td.2.map Prod.fst).Nodup) ∧
    (s.effects.map Prod.fst).Nodup ∧
    (s.computeds.map Prod.fst).Nodup ∧
    (∀ td ∈ s.targetMap, ∀ kd ∈ td.2, kd.2.Nodup) ∧
    (∀ td ∈ s.targetMap, ∀ kd ∈ td.2, ∀ e ∈ kd.2,
      registered s e ∧ (td.1, kd.1) ∈ depsOf s e) ∧
    (∀ er ∈ s.effects, ∀ ak ∈ er.2.deps, er.1 ∈ depSet s ak.1 ak.2) ∧
    s.activeEffect = s.effectStack.head? ∧
    (∀ e ∈ s.effectStack, registered s e) ∧
    s.queue.Nodup ∧
    (∀ j ∈ s.queue, registered s j ∧ schedOf s j = none) ∧
    (∀ er ∈ s.effects, er.1 < s.nextEffectId) ∧
    (∀ ce ∈ s.computeds, ce.1 < s.nextAddr) ∧
    (∀ ce ∈ s.computeds, registered s ce.2.eid ∧ schedOf s ce.2.eid = some ce.1) := by
  constructor
  · intro h
    exact ⟨h.tmKeys, h.dmKeys, h.effKeys, h.compKeys, h.depNodup, h.depFwd, h.depBwd,
      h.aeTop, h.stackReg, h.queueNodup, h.queueOk, h.effBound, h.compBound, h.compOk⟩
  · intro h
    exact ⟨h.1, h.2.1, h.2.2.1, h.2.2.2.1, h.2.2.2.2.1, h.2.2.2.2.2.1, h.2.2.2.2.2.2.1,
      h.2.2.2.2.2.2.2.1, h.2.2.2.2.2.2.2.2.1, h.2.2.2.2.2.2.2.2.2.1,
      h.2.2.2.2.2.2.2.2.2.2.1, h.2.2.2.2.2.2.2.2.2.2.2.1,
      h.2.2.2.2.2.2.2.2.2.2.2.2.1, h.2.2.2.2.2.2.2.2.2.2.2.2.2⟩

instance (s : State) : Decidable (WF s) :=
  decidable_of_iff _ (wf_iff_parts s).symm

/-- Membership in a dependency set coincides with the effect's recorded
`deps` pairs (invariant 1 of the data model, as a state invariant). -/
theorem WF.mem_depSet_iff {s : State} (h : WF s) (a : Addr) (k : Key) (e : EffectId) :
    e ∈ depSet s a k ↔ (a, k) ∈ depsOf s e := by
  constructor
  · intro hm
    unfold depSet at hm
    cases htm : look s.targetMap a with
    | none => rw [htm] at hm; simp at hm
    | some dm =>
      rw [htm] at hm
      simp only [Option.some_bind] at hm
      cases hdm : look dm k with
      | none => rw [hdm] at hm; simp at hm
      | some dep =>
        rw [hdm] at hm
        simp only [Option.getD_some] at hm
        exact (h.depFwd _ (mem_of_look_eq_some htm) _ (mem_of_look_eq_some hdm) e hm).2
  · intro hp
    unfold depsOf at hp
    cases heff : look s.effects e with
    | none => rw [heff] at hp; simp at hp
    | some r =>
      rw [heff] at hp
      simp only [Option.map_some', Option.getD_some] at hp
      exact h.depBwd _ (mem_of_look_eq_some heff) _ hp

/-- Dependency sets never contain an effect twice (invariant 2). -/
theorem WF.depSet_nodup {s : State} (h : WF s) (a : Addr) (k : Key) :
    (depSet s a k).Nodup := by
  unfold depSet
  cases htm : look s.targetMap a with
  | none => simp
  | some dm =>
    simp only [Option.some_bind]
    cases hdm : look dm k with
    | none => simp
    | some dep =>
      simp only [Option.getD_some]
      exact h.depNodup _ (mem_of_look_eq_some htm) _ (mem_of_look_eq_some hdm)

/-- Members of dependency sets are registered effects. -/
theorem WF.depSet_registered {s : State} (h : WF s) {a : Addr} {k : Key} {e : EffectId}
    (hm : e ∈ depSet s a k) : registered s e := by
  unfold depSet at hm
  cases htm : look s.targetMap a with
  | none => rw [htm] at hm; simp at hm
  | some dm =>
    rw [htm] at hm
    simp only [Option.some_bind] at hm
    cases hdm : look dm k with
    | none => rw [hdm] at hm; simp at hm
    | some dep =>
      rw [hdm] at hm
      simp only [Option.getD_some] at hm
      exact (h.depFwd _ (mem_of_look_eq_some htm) _ (mem_of_look_eq_some hdm) e hm).1

/-- The active effect, when set, is a registered effect. -/
theorem WF.active_registered {s : State} (h : WF s) {e : EffectId}
    (ha : s.activeEffect = some e) : registered s e := by
  rw [h.aeTop] at ha
  cases hs : s.effectStack with
  | nil => rw [hs] at ha; simp at ha
  | cons x t =>
    rw [hs] at ha
    simp only [List.head?_cons, Option.some.injEq] at ha
    exact h.stackReg e (hs ▸ ha ▸ List.mem_cons_self x t)

/-! ## Trace utilities -/






theorem newTrace_eq {s s' : State} (h : s.trace <+: s'.trace) :
    s'.trace = s.trace ++ newTrace s s' := by
  obtain ⟨t, ht⟩ := h
  rw [← ht]
  unfold newTrace
  rw [← ht, List.drop_left]

theorem newTrace_comp {s s' s'' : State} (h1 : s.trace <+: s'.trace)
    (h2 : s'.trace <+: s''.trace) :
    newTrace s s'' = newTrace s s' ++ newTrace s' s'' := by
  have e2 := newTrace_eq h2
  rw [newTrace_eq h1] at e2
  show s''.trace.drop s.trace.length = _
  rw [e2, List.append_assoc, List.drop_left]

theorem trackedPairs_append (e : EffectId) (t1 t2 : List Ev) :
    trackedPairs e (t1 ++ t2) = trackedPairs e t1 ++ trackedPairs e t2 := by
  unfold trackedPairs
  exact List.filterMap_append _ _ _

theorem countEv_append (ev : Ev) (t1 t2 : List Ev) :
    countEv ev (t1 ++ t2) = countEv ev t1 + countEv ev t2 := by
  unfold countEv
  exact List.count_append _ _ _

theorem trackedPairs_eq_nil_of_all_isDT {e : EffectId} {tr : List Ev}
    (h : ∀ ev ∈ tr, isDT ev = true) : trackedPairs e tr = [] := by
  induction tr with
  | nil => rfl
  | cons ev t ih =>
    have hev := h ev (List.mem_cons_self _ _)
    have ht := fun x hx => h x (List.mem_cons_of_mem _ hx)
    cases ev <;> simp [isDT] at hev <;> simp [trackedPairs] at *
    all_goals exact ih ht

theorem not_cleanup_mem_of_all_isDT {e : EffectId} {tr : List Ev}
    (h : ∀ ev ∈ tr, isDT ev = true) : Ev.cleanupEv e ∉ tr := by
  intro hm
  have := h _ hm
  simp [isDT] at this

/-! ## The simulation relation preserved by all engine-internal steps -/



theorem Sim.simRefl (s : State) : Sim s s :=
  ⟨List.prefix_refl _, Eq.refl _, fun _ => Eq.refl _, Eq.refl _, fun _ => Eq.refl _,
    Eq.refl _, Eq.refl _, id, fun _ => Eq.refl _⟩

theorem Sim.simTrans {s1 s2 s3 : State} (h1 : Sim s1 s2) (h2 : Sim s2 s3) : Sim s1 s3 := by
  refine ⟨h1.tr.trans h2.tr, h2.effKeysEq.trans h1.effKeysEq,
    fun e => (h2.effSigEq e).trans (h1.effSigEq e),
    h2.compKeysEq.trans h1.compKeysEq,
    fun c => (h2.compEidEq c).trans (h1.compEidEq c),
    h2.nextEffEq.trans h1.nextEffEq, h2.nextAddrEq.trans h1.nextAddrEq,
    fun h => h2.flMono (h1.flMono h), fun h => ?_⟩
  rw [h2.pendStable (h1.flMono h), h1.pendStable h]

theorem effSig_eq_elim {o1 o2 : Option EffectRec}
    (h : o1.map effSig = o2.map effSig) :
    o1.isSome = o2.isSome ∧ o1.map EffectRec.sched = o2.map EffectRec.sched ∧
      o1.map EffectRec.prog = o2.map EffectRec.prog ∧
      o1.map EffectRec.isLazy = o2.map EffectRec.isLazy := by
  cases o1 with
  | none =>
    cases o2 with
    | none => simp
    | some r => simp [effSig] at h
  | some r =>
    cases o2 with
    | none => simp [effSig] at h
    | some r' =>
      simp only [Option.map_some', Option.some.injEq, effSig, Prod.mk.injEq] at h
      simp [h.1, h.2.1, h.2.2]

theorem Sim.registered_iff {s s' : State} (h : Sim s s') (e : EffectId) :
    registered s' e ↔ registered s e := by
  unfold registered
  rw [(effSig_eq_elim (h.effSigEq e)).1]

theorem Sim.schedOf_eq {s s' : State} (h : Sim s s') (e : EffectId) :
    schedOf s' e = schedOf s e := by
  unfold schedOf
  rw [(effSig_eq_elim (h.effSigEq e)).2.1]

theorem Sim.progOf_eq {s s' : State} (h : Sim s s') (e : EffectId) :
    (look s'.effects e).map EffectRec.prog = (look s.effects e).map EffectRec.prog :=
  (effSig_eq_elim (h.effSigEq e)).2.2.1

theorem Sim.dirty_isSome_eq {s s' : State} (h : Sim s s') (c : Addr) :
    (dirtyOf s' c).isSome = (dirtyOf s c).isSome := by
  unfold dirtyOf
  rw [Option.isSome_map', Option.isSome_map']
  have := congrArg Option.isSome (h.compEidEq c)
  unfold eidAt at this
  rw [Option.isSome_map', Option.isSome_map'] at this
  exact this

theorem look_updF_map {κ β γ : Type} [DecidableEq κ] (l : List (κ × β)) (a : κ) (f : β → β)
    (g : β → γ) (h : ∀ b, g (f b) = g b) (x : κ) :
    (look (updF l a f) x).map g = (look l x).map g := by
  by_cases hx : x = a
  · subst hx
    rw [look_updF_self]
    cases look l x <;> simp [h]
  · rw [look_updF_ne _ _ _ _ hx]

/-! ### Projection lemmas for the primitive operations -/

@[simp] theorem emit_heap (ev : Ev) (s : State) : (emit ev s).heap = s.heap := rfl
@[simp] theorem emit_targetMap (ev : Ev) (s : State) : (emit ev s).targetMap = s.targetMap := rfl
@[simp] theorem emit_effects (ev : Ev) (s : State) : (emit ev s).effects = s.effects := rfl
@[simp] theorem emit_computeds (ev : Ev) (s : State) : (emit ev s).computeds = s.computeds := rfl
@[simp] theorem emit_nextEffectId (ev : Ev) (s : State) : (emit ev s).nextEffectId = s.nextEffectId := rfl
@[simp] theorem emit_nextAddr (ev : Ev) (s : State) : (emit ev s).nextAddr = s.nextAddr := rfl
@[simp] theorem emit_activeEffect (ev : Ev) (s : State) : (emit ev s).activeEffect = s.activeEffect := rfl
@[simp] theorem emit_effectStack (ev : Ev) (s : State) : (emit ev s).effectStack = s.effectStack := rfl
@[simp] theorem emit_queue (ev : Ev) (s : State) : (emit ev s).queue = s.queue := rfl
@[simp] theorem emit_isFlushing (ev : Ev) (s : State) : (emit ev s).isFlushing = s.isFlushing := rfl
@[simp] theorem emit_microtaskPending (ev : Ev) (s : State) : (emit ev s).microtaskPending = s.microtaskPending := rfl
@[simp] theorem emit_nextWrapperId (ev : Ev) (s : State) : (emit ev s).nextWrapperId = s.nextWrapperId := rfl
@[simp] theorem emit_trace (ev : Ev) (s : State) : (emit ev s).trace = s.trace ++ [ev] := rfl

@[simp] theorem heapSet_targetMap (s : State) (a : Addr) (k : Key) (v : Value) :
    (heapSet s a k v).targetMap = s.targetMap := rfl
@[simp] theorem heapSet_effects (s : State) (a : Addr) (k : Key) (v : Value) :
    (heapSet s a k v).effects = s.effects := rfl
@[simp] theorem heapSet_computeds (s : State) (a : Addr) (k : Key) (v : Value) :
    (heapSet s a k v).computeds = s.computeds := rfl
@[simp] theorem heapSet_nextEffectId (s : State) (a : Addr) (k : Key) (v : Value) :
    (heapSet s a k v).nextEffectId = s.nextEffectId := rfl
@[simp] theorem heapSet_nextAddr (s : State) (a : Addr) (k : Key) (v : Value) :
    (heapSet s a k v).nextAddr = s.nextAddr := rfl
@[simp] theorem heapSet_activeEffect (s : State) (a : Addr) (k : Key) (v : Value) :
    (heapSet s a k v).activeEffect = s.activeEffect := rfl
@[simp] theorem heapSet_effectStack (s : State) (a : Addr) (k : Key) (v : Value) :
    (heapSet s a k v).effectStack = s.effectStack := rfl
@[simp] theorem heapSet_queue (s : State) (a : Addr) (k : Key) (v : Value) :
    (heapSet s a k v).queue = s.queue := rfl
@[simp] theorem heapSet_isFlushing (s : State) (a : Addr) (k : Key) (v : Value) :
    (heapSet s a k v).isFlushing = s.isFlushing := rfl
@[simp] theorem heapSet_microtaskPending (s : State) (a : Addr) (k : Key) (v : Value) :
    (heapSet s a k v).microtaskPending = s.microtaskPending := rfl
@[simp] theorem heapSet_trace (s : State) (a : Addr) (k : Key) (v : Value) :
    (heapSet s a k v).trace = s.trace := rfl

theorem track_eq_of_none {s : State} (h : s.activeEffect = none) (a : Addr) (k : Key) :
    track a k s = s := by
  unfold track
  rw [h]

theorem track_eq_of_some {s : State} {e : EffectId} (h : s.activeEffect = some e)
    (a : Addr) (k : Key) :
    track a k s = emit (.trackEv e a k) { s with
      targetMap := ins s.targetMap a
        (ins ((look s.targetMap a).getD []) k
          (if e ∈ (look ((look s.targetMap a).getD []) k).getD []
            then (look ((look s.targetMap a).getD []) k).getD []
            else (look ((look s.targetMap a).getD []) k).getD [] ++ [e])),
      effects := updF s.effects e fun r => { r with deps := r.deps ++ [(a, k)] } } := by
  unfold track
  rw [h]

@[simp] theorem track_heap (a : Addr) (k : Key) (s : State) : (track a k s).heap = s.heap := by
  cases h : s.activeEffect with
  | none => rw [track_eq_of_none h]
  | some e =>
    rw [track_eq_of_some h]
    rfl
@[simp] theorem track_computeds (a : Addr) (k : Key) (s : State) :
    (track a k s).computeds = s.computeds := by
  cases h : s.activeEffect with
  | none => rw [track_eq_of_none h]
  | some e =>
    rw [track_eq_of_some h]
    rfl
@[simp] theorem track_nextEffectId (a : Addr) (k : Key) (s : State) :
    (track a k s).nextEffectId = s.nextEffectId := by
  cases h : s.activeEffect with
  | none => rw [track_eq_of_none h]
  | some e =>
    rw [track_eq_of_some h]
    rfl
@[simp] theorem track_nextAddr (a : Addr) (k : Key) (s : State) :
    (track a k s).nextAddr = s.nextAddr := by
  cases h : s.activeEffect with
  | none => rw [track_eq_of_none h]
  | some e =>
    rw [track_eq_of_some h]
    rfl
@[simp] theorem track_activeEffect (a : Addr) (k : Key) (s : State) :
    (track a k s).activeEffect = s.activeEffect := by
  cases h : s.activeEffect with
  | none =>
    rw [track_eq_of_none h]
    exact h
  | some e =>
    rw [track_eq_of_some h]
    exact h
@[simp] theorem track_effectStack (a : Addr) (k : Key) (s : State) :
    (track a k s).effectStack = s.effectStack := by
  cases h : s.activeEffect with
  | none => rw [track_eq_of_none h]
  | some e =>
    rw [track_eq_of_some h]
    rfl
@[simp] theorem track_queue (a : Addr) (k : Key) (s : State) : (track a k s).queue = s.queue := by
  cases h : s.activeEffect with
  | none => rw [track_eq_of_none h]
  | some e =>
    rw [track_eq_of_some h]
    rfl
@[simp] theorem track_isFlushing (a : Addr) (k : Key) (s : State) :
    (track a k s).isFlushing = s.isFlushing := by
  cases h : s.activeEffect with
  | none => rw [track_eq_of_none h]
  | some e =>
    rw [track_eq_of_some h]
    rfl
@[simp] theorem track_microtaskPending (a : Addr) (k : Key) (s : State) :
    (track a k s).microtaskPending = s.microtaskPending := by
  cases h : s.activeEffect with
  | none => rw [track_eq_of_none h]
  | some e =>
    rw [track_eq_of_some h]
    rfl

theorem track_effKeys (a : Addr) (k : Key) (s : State) :
    (track a k s).effects.map Prod.fst = s.effects.map Prod.fst := by
  cases h : s.activeEffect with
  | none => rw [track_eq_of_none h]
  | some e =>
    rw [track_eq_of_some h]
    simp only [emit_effects]
    exact updF_keys _ _ _

theorem track_effSig (a : Addr) (k : Key) (s : State) (e' : EffectId) :
    (look (track a k s).effects e').map effSig = (look s.effects e').map effSig := by
  cases h : s.activeEffect with
  | none => rw [track_eq_of_none h]
  | some e =>
    rw [track_eq_of_some h]
    simp only [emit_effects]
    exact look_updF_map s.effects e (fun r => { r with deps := r.deps ++ [(a, k)] }) effSig
      (fun r => Eq.refl _) e'

theorem cleanup_heap (e : EffectId) (s : State) : (cleanup e s).heap = s.heap := rfl
theorem cleanup_computeds (e : EffectId) (s : State) : (cleanup e s).computeds = s.computeds := rfl
theorem cleanup_nextEffectId (e : EffectId) (s : State) :
    (cleanup e s).nextEffectId = s.nextEffectId := rfl
theorem cleanup_nextAddr (e : EffectId) (s : State) : (cleanup e s).nextAddr = s.nextAddr := rfl
theorem cleanup_activeEffect (e : EffectId) (s : State) :
    (cleanup e s).activeEffect = s.activeEffect := rfl
theorem cleanup_effectStack (e : EffectId) (s : State) :
    (cleanup e s).effectStack = s.effectStack := rfl
theorem cleanup_queue (e : EffectId) (s : State) : (cleanup e s).queue = s.queue := rfl
theorem cleanup_isFlushing (e : EffectId) (s : State) :
    (cleanup e s).isFlushing = s.isFlushing := rfl
theorem cleanup_microtaskPending (e : EffectId) (s : State) :
    (cleanup e s).microtaskPending = s.microtaskPending := rfl
theorem cleanup_trace (e : EffectId) (s : State) :
    (cleanup e s).trace = s.trace ++ [Ev.cleanupEv e] := rfl

theorem cleanup_effKeys (e : EffectId) (s : State) :
    (cleanup e s).effects.map Prod.fst = s.effects.map Prod.fst := by
  show (updF s.effects e _).map Prod.fst = _
  exact updF_keys _ _ _

theorem cleanup_effSig (e : EffectId) (s : State) (e' : EffectId) :
    (look (cleanup e s).effects e').map effSig = (look s.effects e').map effSig := by
  show (look (updF s.effects e fun r => { r with deps := [] }) e').map effSig = _
  exact look_updF_map s.effects e (fun r => { r with deps := [] }) effSig
    (fun r => Eq.refl _) e'

theorem queueJob_queue (j : EffectId) (s : State) :
    (queueJob j s).queue = if j ∈ s.queue then s.queue else s.queue ++ [j] := by
  unfold queueJob
  by_cases hf : s.isFlushing <;> simp [hf]

theorem queueJob_isFlushing (j : EffectId) (s : State) :
    (queueJob j s).isFlushing = true := by
  unfold queueJob
  by_cases hf : s.isFlushing <;> simp [hf]

theorem queueJob_microtaskPending (j : EffectId) (s : State) :
    (queueJob j s).microtaskPending =
      (if s.isFlushing then s.microtaskPending else true) := by
  unfold queueJob
  by_cases hf : s.isFlushing <;> simp [hf]

theorem queueJob_heap (j : EffectId) (s : State) : (queueJob j s).heap = s.heap := by
  unfold queueJob
  by_cases hf : s.isFlushing <;> simp [hf]
theorem queueJob_targetMap (j : EffectId) (s : State) :
    (queueJob j s).targetMap = s.targetMap := by
  unfold queueJob
  by_cases hf : s.isFlushing <;> simp [hf]
theorem queueJob_effects (j : EffectId) (s : State) : (queueJob j s).effects = s.effects := by
  unfold queueJob
  by_cases hf : s.isFlushing <;> simp [hf]
theorem queueJob_computeds (j : EffectId) (s : State) :
    (queueJob j s).computeds = s.computeds := by
  unfold queueJob
  by_cases hf : s.isFlushing <;> simp [hf]
theorem queueJob_nextEffectId (j : EffectId) (s : State) :
    (queueJob j s).nextEffectId = s.nextEffectId := by
  unfold queueJob
  by_cases hf : s.isFlushing <;> simp [hf]
theorem queueJob_nextAddr (j : EffectId) (s : State) :
    (queueJob j s).nextAddr = s.nextAddr := by
  unfold queueJob
  by_cases hf : s.isFlushing <;> simp [hf]
theorem queueJob_activeEffect (j : EffectId) (s : State) :
    (queueJob j s).activeEffect = s.activeEffect := by
  unfold queueJob
  by_cases hf : s.isFlushing <;> simp [hf]
theorem queueJob_effectStack (j : EffectId) (s : State) :
    (queueJob j s).effectStack = s.effectStack := by
  unfold queueJob
  by_cases hf : s.isFlushing <;> simp [hf]
theorem queueJob_trace (j : EffectId) (s : State) : (queueJob j s).trace = s.trace := by
  unfold queueJob
  by_cases hf : s.isFlushing <;> simp [hf]


theorem CS.csRefl (s : State) : CS s s :=
  ⟨Sim.simRefl s, List.prefix_refl _, Eq.refl _⟩

theorem CS.csTrans {s1 s2 s3 : State} (h1 : CS s1 s2) (h2 : CS s2 s3) : CS s1 s3 :=
  ⟨h1.sim.simTrans h2.sim, h1.q.trans h2.q, h2.fr.trans h1.fr⟩

theorem CS.csEmitOp (ev : Ev) (hev : isFR ev = false) (s : State) : CS s (emit ev s) := by
  refine ⟨⟨⟨[ev], Eq.refl _⟩, Eq.refl _, fun _ => Eq.refl _, Eq.refl _, fun _ => Eq.refl _,
    Eq.refl _, Eq.refl _, id, fun _ => Eq.refl _⟩, List.prefix_refl _, ?_⟩
  show List.countP isFR (s.trace ++ [ev]) = List.countP isFR s.trace
  rw [List.countP_append]
  simp [List.countP_cons, hev]

theorem CS.csHeapSetOp (s : State) (a : Addr) (k : Key) (v : Value) : CS s (heapSet s a k v) :=
  ⟨⟨List.prefix_refl _, Eq.refl _, fun _ => Eq.refl _, Eq.refl _, fun _ => Eq.refl _,
    Eq.refl _, Eq.refl _, id, fun _ => Eq.refl _⟩, List.prefix_refl _, Eq.refl _⟩

theorem CS.csWrapBump (s : State) (n : Nat) : CS s { s with nextWrapperId := n } :=
  ⟨⟨List.prefix_refl _, Eq.refl _, fun _ => Eq.refl _, Eq.refl _, fun _ => Eq.refl _,
    Eq.refl _, Eq.refl _, id, fun _ => Eq.refl _⟩, List.prefix_refl _, Eq.refl _⟩

theorem CS.stackSet (s : State) (x : Option EffectId) (l : List EffectId) :
    CS s { s with activeEffect := x, effectStack := l } :=
  ⟨⟨List.prefix_refl _, Eq.refl _, fun _ => Eq.refl _, Eq.refl _, fun _ => Eq.refl _,
    Eq.refl _, Eq.refl _, id, fun _ => Eq.refl _⟩, List.prefix_refl _, Eq.refl _⟩

theorem CS.csTrackOp (a : Addr) (k : Key) (s : State) : CS s (track a k s) := by
  refine ⟨⟨?_, track_effKeys a k s, track_effSig a k s, ?_, ?_, ?_, ?_, ?_, ?_⟩, ?_, ?_⟩
  · cases h : s.activeEffect with
    | none => rw [track_eq_of_none h]
    | some e =>
      rw [track_eq_of_some h]
      exact ⟨[Ev.trackEv e a k], Eq.refl _⟩
  · rw [track_computeds]
  · intro c
    unfold eidAt
    rw [track_computeds]
  · rw [track_nextEffectId]
  · rw [track_nextAddr]
  · rw [track_isFlushing]; exact id
  · rw [track_microtaskPending]; intro; rfl
  · rw [track_queue]
  · cases h : s.activeEffect with
    | none => rw [track_eq_of_none h]
    | some e =>
      rw [track_eq_of_some h]
      show List.countP isFR (_ ++ [Ev.trackEv e a k]) = _
      rw [List.countP_append]
      simp [List.countP_cons, isFR]

theorem CS.csCleanupOp (e : EffectId) (s : State) : CS s (cleanup e s) := by
  refine ⟨⟨⟨[Ev.cleanupEv e], (cleanup_trace e s).symm⟩, cleanup_effKeys e s,
    cleanup_effSig e s, ?_, ?_, ?_, ?_, ?_, ?_⟩, ?_, ?_⟩
  · rw [cleanup_computeds]
  · intro c
    unfold eidAt
    rw [cleanup_computeds]
  · rw [cleanup_nextEffectId]
  · rw [cleanup_nextAddr]
  · rw [cleanup_isFlushing]; exact id
  · rw [cleanup_microtaskPending]; intro; rfl
  · rw [cleanup_queue]
  · rw [cleanup_trace, List.countP_append]
    simp [List.countP_cons, isFR]

theorem CS.csQueueJobOp (j : EffectId) (s : State) : CS s (queueJob j s) := by
  refine ⟨⟨?_, ?_, ?_, ?_, ?_, ?_, ?_, ?_, ?_⟩, ?_, ?_⟩
  · rw [queueJob_trace]
  · rw [queueJob_effects]
  · intro e
    rw [queueJob_effects]
  · rw [queueJob_computeds]
  · intro c
    unfold eidAt
    rw [queueJob_computeds]
  · rw [queueJob_nextEffectId]
  · rw [queueJob_nextAddr]
  · rw [queueJob_isFlushing]; intro; rfl
  · rw [queueJob_microtaskPending]
    intro h
    rw [if_pos h]
  · rw [queueJob_queue]
    split
    · exact List.prefix_refl _
    · exact ⟨[j], Eq.refl _⟩
  · rw [queueJob_trace]

theorem CS.csUpdCompDirty (s : State) (c : Addr) (b : Bool) :
    CS s { s with computeds := updF s.computeds c fun cr => { cr with dirty := b } } := by
  refine ⟨⟨List.prefix_refl _, Eq.refl _, fun _ => Eq.refl _, ?_, ?_,
    Eq.refl _, Eq.refl _, id, fun _ => Eq.refl _⟩, List.prefix_refl _, Eq.refl _⟩
  · exact updF_keys _ _ _
  · intro c'
    unfold eidAt
    exact look_updF_map s.computeds c (fun cr => { cr with dirty := b }) CompRec.eid
      (fun cr => Eq.refl _) c'

theorem CS.csUpdCompVal (s : State) (c : Addr) (v : RVal) :
    CS s { s with computeds := updF s.computeds c fun cr => { cr with cval := v, dirty := false } } := by
  refine ⟨⟨List.prefix_refl _, Eq.refl _, fun _ => Eq.refl _, ?_, ?_,
    Eq.refl _, Eq.refl _, id, fun _ => Eq.refl _⟩, List.prefix_refl _, Eq.refl _⟩
  · exact updF_keys _ _ _
  · intro c'
    unfold eidAt
    exact look_updF_map s.computeds c (fun cr => { cr with cval := v, dirty := false }) CompRec.eid
      (fun cr => Eq.refl _) c'

theorem CS.csReactiveGetOp (w : Wrapper) (k : Key) (s : State) :
    CS s (reactiveGet w k s).2 := by
  unfold reactiveGet
  cases heapGet s w.raw k with
  | num n => exact CS.csTrackOp _ _ _
  | undef => exact CS.csTrackOp _ _ _
  | objV a =>
    simp only [reactiveWrap]
    exact (CS.csTrackOp _ _ _).csTrans (CS.csWrapBump _ _)

/-! ## Cluster shape holds across every engine-internal call -/

theorem csAll : ∀ n : Nat,
    (∀ p s, CS s (runProg n p s).2) ∧
    (∀ e s, CS s (runEffect n e s).2) ∧
    (∀ c s, CS s (computedGetValue n c s).2) ∧
    (∀ w k v s, CS s (reactiveSet n w k v s).2) ∧
    (∀ a k s, CS s (trigger n a k s).2) ∧
    (∀ a k l s, CS s (dispatchList n a k l s).2) := by
  intro n
  induction n with
  | zero =>
    refine ⟨fun p s => ?_, fun e s => ?_, fun c s => ?_, fun w k v s => ?_,
      fun a k s => ?_, fun a k l s => ?_⟩
    all_goals exact CS.csRefl s
  | succ n ih =>
    obtain ⟨ihProg, ihEff, ihCgv, ihSet, ihTrig, ihDisp⟩ := ih
    have hdisp : ∀ a k l s, CS s (dispatchList (n + 1) a k l s).2 := by
      intro a k l s
      cases l with
      | nil => exact CS.csRefl s
      | cons e rest =>
        have hemit : CS s (emit (.dispatchEv a k e) s) := CS.csEmitOp (.dispatchEv a k e) rfl s
        show CS s (match look (emit (.dispatchEv a k e) s).effects e with
          | none => ((Except.error Err.missing : Except Err Unit), emit (.dispatchEv a k e) s)
          | some r =>
            match r.sched with
            | some c =>
              match trigger n c "value" (emit (.schedEv c)
                { emit (.dispatchEv a k e) s with
                  computeds := updF (emit (.dispatchEv a k e) s).computeds c
                    fun cr => { cr with dirty := true } }) with
              | (.ok _, s2) => dispatchList n a k rest s2
              | (.error err, s2) => (.error err, s2)
            | none => dispatchList n a k rest (queueJob e (emit (.dispatchEv a k e) s))).2
        cases hl : look (emit (.dispatchEv a k e) s).effects e with
        | none => exact hemit
        | some r =>
          obtain ⟨pg, lz, sc, dp⟩ := r
          show CS s (match sc with
            | some c =>
              match trigger n c "value" (emit (.schedEv c)
                { emit (.dispatchEv a k e) s with
                  computeds := updF (emit (.dispatchEv a k e) s).computeds c
                    fun cr => { cr with dirty := true } }) with
              | (.ok _, s2) => dispatchList n a k rest s2
              | (.error err, s2) => (.error err, s2)
            | none => dispatchList n a k rest (queueJob e (emit (.dispatchEv a k e) s))).2
          cases sc with
          | some c =>
            show CS s (match trigger n c "value" (emit (.schedEv c)
                { emit (.dispatchEv a k e) s with
                  computeds := updF (emit (.dispatchEv a k e) s).computeds c
                    fun cr => { cr with dirty := true } }) with
              | (.ok _, s2) => dispatchList n a k rest s2
              | (.error err, s2) => (.error err, s2)).2
            have h2 : CS s (emit (.schedEv c)
                { emit (.dispatchEv a k e) s with
                  computeds := updF (emit (.dispatchEv a k e) s).computeds c
                    fun cr => { cr with dirty := true } }) :=
              (hemit.csTrans (CS.csUpdCompDirty (emit (.dispatchEv a k e) s) c true)).csTrans
                (CS.csEmitOp (.schedEv c) rfl _)
            cases htr : trigger n c "value" (emit (.schedEv c)
                { emit (.dispatchEv a k e) s with
                  computeds := updF (emit (.dispatchEv a k e) s).computeds c
                    fun cr => { cr with dirty := true } }) with
            | mk r2 s2 =>
              have h3 : CS s s2 := by
                have := ihTrig c "value" (emit (.schedEv c)
                  { emit (.dispatchEv a k e) s with
                    computeds := updF (emit (.dispatchEv a k e) s).computeds c
                      fun cr => { cr with dirty := true } })
                rw [htr] at this
                exact h2.csTrans this
              cases r2 with
              | ok u => exact h3.csTrans (ihDisp a k rest s2)
              | error err => exact h3
          | none =>
            show CS s (dispatchList n a k rest (queueJob e (emit (.dispatchEv a k e) s))).2
            exact (hemit.csTrans (CS.csQueueJobOp e _)).csTrans (ihDisp a k rest _)
    have htrig : ∀ a k s, CS s (trigger (n + 1) a k s).2 := by
      intro a k s
      have hemit : CS s (emit (.triggerEv a k) s) := CS.csEmitOp (.triggerEv a k) rfl s
      show CS s (match look (emit (.triggerEv a k) s).targetMap a with
        | none => ((Except.ok () : Except Err Unit), emit (.triggerEv a k) s)
        | some dm =>
          match look dm k with
          | none => (Except.ok (), emit (.triggerEv a k) s)
          | some dep => dispatchList n a k dep (emit (.triggerEv a k) s)).2
      cases h1 : look (emit (.triggerEv a k) s).targetMap a with
      | none => exact hemit
      | some dm =>
        show CS s (match look dm k with
          | none => ((Except.ok () : Except Err Unit), emit (.triggerEv a k) s)
          | some dep => dispatchList n a k dep (emit (.triggerEv a k) s)).2
        cases h2 : look dm k with
        | none => exact hemit
        | some dep =>
          show CS s (dispatchList n a k dep (emit (.triggerEv a k) s)).2
          exact hemit.csTrans (ihDisp a k dep _)
    refine ⟨?_, ?_, ?_, ?_, htrig, hdisp⟩
    · intro p s
      cases p with
      | skip => exact CS.csRefl s
      | seq p q =>
        show CS s (match runProg n p s with
          | (.ok _, s1) => runProg n q s1
          | (.error err, s1) => (.error err, s1)).2
        cases hp : runProg n p s with
        | mk r1 s1 =>
          have h1 : CS s s1 := by
            have := ihProg p s
            rw [hp] at this
            exact this
          cases r1 with
          | ok v => exact h1.csTrans (ihProg q s1)
          | error err => exact h1
      | readP a k =>
        show CS s (match reactiveGet ⟨a, 0⟩ k s with
          | (v, s1) => ((Except.ok v : Except Err RVal), s1)).2
        cases hg : reactiveGet ⟨a, 0⟩ k s with
        | mk v s1 =>
          have := CS.csReactiveGetOp ⟨a, 0⟩ k s
          rw [hg] at this
          exact this
      | writeP a k v =>
        show CS s (match reactiveSet n ⟨a, 0⟩ k v s with
          | (.ok _, s1) => ((Except.ok (RVal.prim v) : Except Err RVal), s1)
          | (.error err, s1) => (.error err, s1)).2
        cases hw : reactiveSet n ⟨a, 0⟩ k v s with
        | mk r1 s1 =>
          have h1 : CS s s1 := by
            have := ihSet ⟨a, 0⟩ k v s
            rw [hw] at this
            exact this
          cases r1 with
          | ok u => exact h1
          | error err => exact h1
      | branch a k p q =>
        show CS s (match reactiveGet ⟨a, 0⟩ k s with
          | (v, s1) => if truthy v then runProg n p s1 else runProg n q s1).2
        cases hg : reactiveGet ⟨a, 0⟩ k s with
        | mk v s1 =>
          have h1 : CS s s1 := by
            have := CS.csReactiveGetOp ⟨a, 0⟩ k s
            rw [hg] at this
            exact this
          by_cases ht : truthy v
          · show CS s ((if truthy v then runProg n p s1 else runProg n q s1)).2
            rw [if_pos ht]
            exact h1.csTrans (ihProg p s1)
          · show CS s ((if truthy v then runProg n p s1 else runProg n q s1)).2
            rw [if_neg ht]
            exact h1.csTrans (ihProg q s1)
      | invokeP e => exact ihEff e s
      | readC c => exact ihCgv c s
      | failP => exact CS.csRefl s
    · intro e s
      show CS s (match look s.effects e with
        | none => ((Except.error Err.missing : Except Err RVal), s)
        | some r =>
          match runProg n r.prog { cleanup e (emit (.runEv e) s) with
              activeEffect := some e,
              effectStack := e :: (cleanup e (emit (.runEv e) s)).effectStack } with
          | (.ok v, s3) => (.ok v, { s3 with
              effectStack := s3.effectStack.tail,
              activeEffect := s3.effectStack.tail.head? })
          | (.error err, s3) => (.error err, s3)).2
      cases hl : look s.effects e with
      | none => exact CS.csRefl s
      | some r =>
        show CS s (match runProg n r.prog { cleanup e (emit (.runEv e) s) with
              activeEffect := some e,
              effectStack := e :: (cleanup e (emit (.runEv e) s)).effectStack } with
          | (.ok v, s3) => ((.ok v : Except Err RVal), { s3 with
              effectStack := s3.effectStack.tail,
              activeEffect := s3.effectStack.tail.head? })
          | (.error err, s3) => (.error err, s3)).2
        have h2 : CS s { cleanup e (emit (.runEv e) s) with
            activeEffect := some e,
            effectStack := e :: (cleanup e (emit (.runEv e) s)).effectStack } :=
          ((CS.csEmitOp (.runEv e) rfl s).csTrans
            (CS.csCleanupOp e (emit (.runEv e) s))).csTrans
            (CS.stackSet (cleanup e (emit (.runEv e) s)) (some e)
              (e :: (cleanup e (emit (.runEv e) s)).effectStack))
        cases hp : runProg n r.prog { cleanup e (emit (.runEv e) s) with
            activeEffect := some e,
            effectStack := e :: (cleanup e (emit (.runEv e) s)).effectStack } with
        | mk r1 s3 =>
          have h3 : CS s s3 := by
            have := ihProg r.prog { cleanup e (emit (.runEv e) s) with
              activeEffect := some e,
              effectStack := e :: (cleanup e (emit (.runEv e) s)).effectStack }
            rw [hp] at this
            exact h2.csTrans this
          cases r1 with
          | ok v =>
            exact h3.csTrans (CS.stackSet s3 s3.effectStack.tail.head? s3.effectStack.tail)
          | error err => exact h3
    · intro c s
      show CS s (match look s.computeds c with
        | none => ((Except.error Err.missing : Except Err RVal), s)
        | some cr =>
          if cr.dirty then
            match runEffect n cr.eid (emit (.recompEv c) (emit (.creadEv c) s)) with
            | (.ok v, s1) => (.ok v, track c "value" { s1 with
                computeds := updF s1.computeds c fun r => { r with cval := v, dirty := false } })
            | (.error err, s1) => (.error err, s1)
          else (.ok cr.cval, track c "value" (emit (.creadEv c) s))).2
      cases hl : look s.computeds c with
      | none => exact CS.csRefl s
      | some cr =>
        have h0 : CS s (emit (.creadEv c) s) := CS.csEmitOp (.creadEv c) rfl s
        by_cases hd : cr.dirty
        · show CS s ((if cr.dirty then
            match runEffect n cr.eid (emit (.recompEv c) (emit (.creadEv c) s)) with
            | (.ok v, s1) => ((.ok v : Except Err RVal), track c "value" { s1 with
                computeds := updF s1.computeds c fun r => { r with cval := v, dirty := false } })
            | (.error err, s1) => (.error err, s1)
          else (.ok cr.cval, track c "value" (emit (.creadEv c) s)))).2
          rw [if_pos hd]
          have h1 := h0.csTrans (CS.csEmitOp (.recompEv c) rfl (emit (.creadEv c) s))
          cases hr : runEffect n cr.eid (emit (.recompEv c) (emit (.creadEv c) s)) with
          | mk r1 s1 =>
            have h2 : CS s s1 := by
              have := ihEff cr.eid (emit (.recompEv c) (emit (.creadEv c) s))
              rw [hr] at this
              exact h1.csTrans this
            cases r1 with
            | ok v =>
              exact (h2.csTrans (CS.csUpdCompVal s1 c v)).csTrans (CS.csTrackOp c "value" _)
            | error err => exact h2
        · show CS s ((if cr.dirty then
            match runEffect n cr.eid (emit (.recompEv c) (emit (.creadEv c) s)) with
            | (.ok v, s1) => ((.ok v : Except Err RVal), track c "value" { s1 with
                computeds := updF s1.computeds c fun r => { r with cval := v, dirty := false } })
            | (.error err, s1) => (.error err, s1)
          else (.ok cr.cval, track c "value" (emit (.creadEv c) s)))).2
          rw [if_neg hd]
          exact h0.csTrans (CS.csTrackOp c "value" _)
    · intro w k v s
      show CS s (if v = heapGet s w.raw k
        then ((Except.ok () : Except Err Unit), heapSet s w.raw k v)
        else trigger (n + 1) w.raw k (heapSet s w.raw k v)).2
      by_cases he : v = heapGet s w.raw k
      · rw [if_pos he]
        exact CS.csHeapSetOp s w.raw k v
      · rw [if_neg he]
        exact (CS.csHeapSetOp s w.raw k v).csTrans (htrig w.raw k (heapSet s w.raw k v))

/-- Shorthand corollaries of `csAll`. -/
theorem cs_runProg (n : Nat) (p : Prog) (s : State) : CS s (runProg n p s).2 :=
  (csAll n).1 p s
theorem cs_runEffect (n : Nat) (e : EffectId) (s : State) : CS s (runEffect n e s).2 :=
  (csAll n).2.1 e s
theorem cs_cgv (n : Nat) (c : Addr) (s : State) : CS s (computedGetValue n c s).2 :=
  (csAll n).2.2.1 c s
theorem cs_reactiveSet (n : Nat) (w : Wrapper) (k : Key) (v : Value) (s : State) :
    CS s (reactiveSet n w k v s).2 :=
  (csAll n).2.2.2.1 w k v s
theorem cs_trigger (n : Nat) (a : Addr) (k : Key) (s : State) : CS s (trigger n a k s).2 :=
  (csAll n).2.2.2.2.1 a k s
theorem cs_dispatchList (n : Nat) (a : Addr) (k : Key) (l : List EffectId) (s : State) :
    CS s (dispatchList n a k l s).2 :=
  (csAll n).2.2.2.2.2 a k l s

/-! ## Characterization of `track` and `cleanup` on the dependency state -/

theorem depSet_def2 (s : State) (a : Addr) (k : Key) :
    depSet s a k = (look ((look s.targetMap a).getD []) k).getD [] := by
  unfold depSet
  cases look s.targetMap a with
  | none => simp [look]
  | some dm => simp

theorem track_depSet_self {s : State} {e : EffectId} (hae : s.activeEffect = some e)
    (a : Addr) (k : Key) :
    depSet (track a k s) a k =
      (if e ∈ depSet s a k then depSet s a k else depSet s a k ++ [e]) := by
  rw [depSet_def2 s a k, track_eq_of_some hae]
  unfold depSet
  simp only [emit_targetMap]
  rw [look_ins_self]
  simp only [Option.some_bind]
  rw [look_ins_self]
  rfl

theorem track_depSet_ne {s : State} (a : Addr) (k : Key) {a' : Addr} {k' : Key}
    (hne : ¬(a' = a ∧ k' = k)) :
    depSet (track a k s) a' k' = depSet s a' k' := by
  cases hae : s.activeEffect with
  | none => rw [track_eq_of_none hae]
  | some e =>
    rw [depSet_def2 s a' k', track_eq_of_some hae]
    unfold depSet
    simp only [emit_targetMap]
    by_cases ha : a' = a
    · subst ha
      have hk : k' ≠ k := fun hk => hne ⟨rfl, hk⟩
      rw [look_ins_self]
      simp only [Option.some_bind]
      rw [look_ins_ne _ _ _ _ hk]
    · rw [look_ins_ne _ _ _ _ ha]
      cases look s.targetMap a' with
      | none => simp [look]
      | some dm => simp

theorem track_depsOf_self {s : State} {e : EffectId} (hae : s.activeEffect = some e)
    (hreg : registered s e) (a : Addr) (k : Key) :
    depsOf (track a k s) e = depsOf s e ++ [(a, k)] := by
  rw [track_eq_of_some hae]
  unfold depsOf
  simp only [emit_effects]
  rw [look_updF_self]
  unfold registered at hreg
  cases hl : look s.effects e with
  | none => rw [hl] at hreg; simp at hreg
  | some r => simp [hl]

theorem track_depsOf_ne {s : State} (a : Addr) (k : Key) {e' : EffectId}
    (hne : ∀ e, s.activeEffect = some e → e' ≠ e) :
    depsOf (track a k s) e' = depsOf s e' := by
  cases hae : s.activeEffect with
  | none => rw [track_eq_of_none hae]
  | some e =>
    rw [track_eq_of_some hae]
    unfold depsOf
    simp only [emit_effects]
    rw [look_updF_ne _ _ _ _ (hne e hae)]

theorem cleanup_depsOf_self (e : EffectId) (s : State) :
    depsOf (cleanup e s) e = [] := by
  unfold cleanup depsOf
  simp only [emit_effects]
  rw [look_updF_self]
  cases look s.effects e <;> simp

theorem cleanup_depsOf_ne (e : EffectId) (s : State) {e' : EffectId} (hne : e' ≠ e) :
    depsOf (cleanup e s) e' = depsOf s e' := by
  unfold cleanup depsOf
  simp only [emit_effects]
  rw [look_updF_ne _ _ _ _ hne]


theorem depSet_eq_tmGet (s : State) (a : Addr) (k : Key) :
    depSet s a k = tmGet s.targetMap a k := rfl

theorem tmGet_removeDep (tm : List (Addr × List (Key × List EffectId))) (a0 : Addr) (k0 : Key)
    (e : EffectId) (a : Addr) (k : Key) :
    tmGet (removeDep tm a0 k0 e) a k =
      (if a = a0 ∧ k = k0 then (tmGet tm a k).erase e else tmGet tm a k) := by
  unfold removeDep tmGet
  by_cases ha : a = a0
  · subst ha
    rw [look_updF_self]
    cases hl : look tm a with
    | none => simp
    | some dm =>
      simp only [Option.map_some', Option.some_bind]
      by_cases hk : k = k0
      · subst hk
        rw [look_updF_self]
        cases hl2 : look dm k with
        | none => simp
        | some dep => simp
      · rw [look_updF_ne _ _ _ _ hk]
        simp [hk]
  · rw [look_updF_ne _ _ _ _ ha]
    simp [ha]

theorem tmGet_foldl_removeDep (e : EffectId) :
    ∀ (prs : List (Addr × Key)) (tm : List (Addr × List (Key × List EffectId))),
    (∀ a k, (tmGet tm a k).Nodup) →
    ∀ a k, tmGet (prs.foldl (fun t ak => removeDep t ak.1 ak.2 e) tm) a k =
      (if (a, k) ∈ prs then (tmGet tm a k).erase e else tmGet tm a k) := by
  intro prs
  induction prs with
  | nil =>
    intro tm hnd a k
    simp
  | cons hd rest ih =>
    intro tm hnd a k
    have hnd' : ∀ a k, (tmGet (removeDep tm hd.1 hd.2 e) a k).Nodup := by
      intro a k
      rw [tmGet_removeDep]
      split
      · exact (hnd a k).erase e
      · exact hnd a k
    rw [List.foldl_cons, ih (removeDep tm hd.1 hd.2 e) hnd' a k, tmGet_removeDep]
    by_cases hmem : (a, k) ∈ rest
    · rw [if_pos hmem, if_pos (List.mem_cons_of_mem _ hmem)]
      by_cases hh : a = hd.1 ∧ k = hd.2
      · rw [if_pos hh]
        exact List.erase_of_not_mem fun hm => ((hnd a k).mem_erase_iff.mp hm).1 rfl
      · rw [if_neg hh]
    · rw [if_neg hmem]
      by_cases hh : a = hd.1 ∧ k = hd.2
      · rw [if_pos hh, if_pos]
        exact List.mem_cons.mpr (Or.inl (by obtain ⟨u, v⟩ := hd; rw [hh.1, hh.2]))
      · rw [if_neg hh, if_neg]
        intro hm
        rcases List.mem_cons.mp hm with hm' | hm'
        · apply hh
          obtain ⟨u, v⟩ := hd
          exact ⟨congrArg Prod.fst hm', congrArg Prod.snd hm'⟩
        · exact hmem hm'

theorem cleanup_depSet {s : State} (hnd : ∀ a k, (depSet s a k).Nodup)
    (e : EffectId) (a : Addr) (k : Key) :
    depSet (cleanup e s) a k =
      (if (a, k) ∈ depsOf s e then (depSet s a k).erase e else depSet s a k) := by
  show tmGet ((depsOf s e).foldl (fun t ak => removeDep t ak.1 ak.2 e) s.targetMap) a k = _
  rw [tmGet_foldl_removeDep e (depsOf s e) s.targetMap (fun a k => hnd a k) a k]
  rfl

/-! ## Preservation of well-formedness -/

theorem WF.wfEmitOp {s : State} (h : WF s) (ev : Ev) : WF (emit ev s) :=
  ⟨h.tmKeys, h.dmKeys, h.effKeys, h.compKeys, h.depNodup, h.depFwd, h.depBwd,
    h.aeTop, h.stackReg, h.queueNodup, h.queueOk, h.effBound, h.compBound, h.compOk⟩

theorem WF.wfHeapSetOp {s : State} (h : WF s) (a : Addr) (k : Key) (v : Value) :
    WF (heapSet s a k v) :=
  ⟨h.tmKeys, h.dmKeys, h.effKeys, h.compKeys, h.depNodup, h.depFwd, h.depBwd,
    h.aeTop, h.stackReg, h.queueNodup, h.queueOk, h.effBound, h.compBound, h.compOk⟩

theorem WF.wfWrapBump {s : State} (h : WF s) (n : Nat) : WF { s with nextWrapperId := n } :=
  ⟨h.tmKeys, h.dmKeys, h.effKeys, h.compKeys, h.depNodup, h.depFwd, h.depBwd,
    h.aeTop, h.stackReg, h.queueNodup, h.queueOk, h.effBound, h.compBound, h.compOk⟩

/-- Transfer WF along componentwise equalities (queue replaced by explicit facts). -/
theorem WF.of_eqs {s s' : State} (h : WF s)
    (htm : s'.targetMap = s.targetMap) (heff : s'.effects = s.effects)
    (hcomp : s'.computeds = s.computeds) (hae : s'.activeEffect = s.activeEffect)
    (hst : s'.effectStack = s.effectStack)
    (hne : s'.nextEffectId = s.nextEffectId) (hna : s'.nextAddr = s.nextAddr)
    (hqn : s'.queue.Nodup)
    (hqo : ∀ x ∈ s'.queue, registered s x ∧ schedOf s x = none) : WF s' := by
  have hreg : ∀ e, registered s' e ↔ registered s e := by
    intro e
    unfold registered
    rw [heff]
  have hdepsOf : ∀ e, depsOf s' e = depsOf s e := by
    intro e
    unfold depsOf
    rw [heff]
  have hdepSet : ∀ a k, depSet s' a k = depSet s a k := by
    intro a k
    unfold depSet
    rw [htm]
  have hsched : ∀ e, schedOf s' e = schedOf s e := by
    intro e
    unfold schedOf
    rw [heff]
  refine ⟨?_, ?_, ?_, ?_, ?_, ?_, ?_, ?_, ?_, hqn, ?_, ?_, ?_, ?_⟩
  · rw [htm]; exact h.tmKeys
  · rw [htm]; exact h.dmKeys
  · rw [heff]; exact h.effKeys
  · rw [hcomp]; exact h.compKeys
  · rw [htm]; exact h.depNodup
  · rw [htm]
    intro td htd kd hkd e he
    have := h.depFwd td htd kd hkd e he
    exact ⟨(hreg e).mpr this.1, (hdepsOf e) ▸ this.2⟩
  · rw [heff]
    intro er her ak hak
    rw [hdepSet]
    exact h.depBwd er her ak hak
  · rw [hae, hst]; exact h.aeTop
  · rw [hst]
    intro e he
    exact (hreg e).mpr (h.stackReg e he)
  · intro x hx
    obtain ⟨h1, h2⟩ := hqo x hx
    exact ⟨(hreg x).mpr h1, (hsched x).trans h2⟩
  · rw [heff, hne]; exact h.effBound
  · rw [hcomp, hna]; exact h.compBound
  · rw [hcomp]
    intro ce hce
    have := h.compOk ce hce
    exact ⟨(hreg _).mpr this.1, (hsched _).trans this.2⟩

theorem WF.wfQueueJobOp {s : State} (h : WF s) {j : EffectId} (hreg : registered s j)
    (hsched : schedOf s j = none) : WF (queueJob j s) := by
  refine WF.of_eqs h (queueJob_targetMap j s) (queueJob_effects j s) (queueJob_computeds j s)
    (queueJob_activeEffect j s) (queueJob_effectStack j s) (queueJob_nextEffectId j s)
    (queueJob_nextAddr j s) ?_ ?_
  · rw [queueJob_queue]
    split
    · exact h.queueNodup
    · next hmem =>
      exact List.Nodup.append h.queueNodup (List.nodup_singleton j)
        (fun x hx hx2 => hmem ((List.mem_singleton.mp hx2) ▸ hx))
  · intro x hx
    rw [queueJob_queue] at hx
    have hx' : x ∈ s.queue ∨ x = j := by
      by_cases hmem : j ∈ s.queue
      · rw [if_pos hmem] at hx; exact Or.inl hx
      · rw [if_neg hmem] at hx
        rcases List.mem_append.mp hx with hx | hx
        · exact Or.inl hx
        · exact Or.inr (List.mem_singleton.mp hx)
    rcases hx' with hx' | hx'
    · exact h.queueOk x hx'
    · rw [hx']
      exact ⟨hreg, hsched⟩

theorem WF.stackPush {s : State} (h : WF s) {e : EffectId} (hreg : registered s e) :
    WF { s with activeEffect := some e, effectStack := e :: s.effectStack } := by
  refine ⟨h.tmKeys, h.dmKeys, h.effKeys, h.compKeys, h.depNodup, h.depFwd, h.depBwd,
    rfl, ?_, h.queueNodup, h.queueOk, h.effBound, h.compBound, h.compOk⟩
  intro x hx
  rcases List.mem_cons.mp hx with hx | hx
  · rw [hx]; exact hreg
  · exact h.stackReg x hx

theorem WF.stackPop {s : State} (h : WF s) :
    WF { s with activeEffect := s.effectStack.tail.head?,
                effectStack := s.effectStack.tail } := by
  refine ⟨h.tmKeys, h.dmKeys, h.effKeys, h.compKeys, h.depNodup, h.depFwd, h.depBwd,
    rfl, ?_, h.queueNodup, h.queueOk, h.effBound, h.compBound, h.compOk⟩
  intro x hx
  exact h.stackReg x (List.mem_of_mem_tail hx)

theorem mem_updF_source {κ β : Type} [DecidableEq κ] {l : List (κ × β)} {a : κ} {f : β → β}
    {x : κ × β} (hx : x ∈ updF l a f) : ∃ y ∈ l, y.1 = x.1 := by
  induction l with
  | nil => simp [updF] at hx
  | cons hd t ih =>
    obtain ⟨u, v⟩ := hd
    by_cases hh : u = a
    · rw [updF_cons_eq hh] at hx
      rcases List.mem_cons.mp hx with hx | hx
      · exact ⟨(u, v), List.mem_cons_self _ _, by rw [hx, hh]⟩
      · exact ⟨x, List.mem_cons_of_mem _ hx, rfl⟩
    · rw [updF_cons_ne hh] at hx
      rcases List.mem_cons.mp hx with hx | hx
      · exact ⟨(u, v), List.mem_cons_self _ _, by rw [hx]⟩
      · obtain ⟨y, hy, hy2⟩ := ih hx
        exact ⟨y, List.mem_cons_of_mem _ hy, hy2⟩

/-- WF is preserved by updating computed records with the dirty flag. -/
theorem WF.wfUpdCompDirty {s : State} (h : WF s) (c : Addr) (b : Bool) :
    WF { s with computeds := updF s.computeds c fun cr => { cr with dirty := b } } := by
  refine ⟨h.tmKeys, h.dmKeys, h.effKeys, ?_, h.depNodup, h.depFwd, h.depBwd,
    h.aeTop, h.stackReg, h.queueNodup, h.queueOk, h.effBound, ?_, ?_⟩
  · show (updF s.computeds c _).map Prod.fst |>.Nodup
    rw [updF_keys]
    exact h.compKeys
  · intro ce hce
    rcases (mem_updF h.compKeys).mp hce with h1 | h1
    · exact h.compBound ce h1.1
    · obtain ⟨cr, hcr, hce2⟩ := h1
      rw [hce2]
      exact h.compBound (c, cr) (mem_of_look_eq_some hcr)
  · intro ce hce
    rcases (mem_updF h.compKeys).mp hce with h1 | h1
    · exact h.compOk ce h1.1
    · obtain ⟨cr, hcr, hce2⟩ := h1
      rw [hce2]
      exact h.compOk (c, cr) (mem_of_look_eq_some hcr)

/-- WF is preserved by caching a computed value and clearing its dirty flag. -/
theorem WF.wfUpdCompVal {s : State} (h : WF s) (c : Addr) (v : RVal) :
    WF { s with computeds := updF s.computeds c fun cr => { cr with cval := v, dirty := false } } := by
  refine ⟨h.tmKeys, h.dmKeys, h.effKeys, ?_, h.depNodup, h.depFwd, h.depBwd,
    h.aeTop, h.stackReg, h.queueNodup, h.queueOk, h.effBound, ?_, ?_⟩
  · show (updF s.computeds c _).map Prod.fst |>.Nodup
    rw [updF_keys]
    exact h.compKeys
  · intro ce hce
    rcases (mem_updF h.compKeys).mp hce with h1 | h1
    · exact h.compBound ce h1.1
    · obtain ⟨cr, hcr, hce2⟩ := h1
      rw [hce2]
      exact h.compBound (c, cr) (mem_of_look_eq_some hcr)
  · intro ce hce
    rcases (mem_updF h.compKeys).mp hce with h1 | h1
    · exact h.compOk ce h1.1
    · obtain ⟨cr, hcr, hce2⟩ := h1
      rw [hce2]
      exact h.compOk (c, cr) (mem_of_look_eq_some hcr)

/-- WF is preserved by `track`. -/
theorem WF.wfTrackOp {s : State} (h : WF s) (a : Addr) (k : Key) : WF (track a k s) := by
  cases hae : s.activeEffect with
  | none => rw [track_eq_of_none hae]; exact h
  | some e =>
    have hrege : registered s e := h.active_registered hae
    have hregstab : ∀ x, registered (track a k s) x ↔ registered s x :=
      fun x => (CS.csTrackOp a k s).sim.registered_iff x
    have hschedstab : ∀ x, schedOf (track a k s) x = schedOf s x :=
      fun x => (CS.csTrackOp a k s).sim.schedOf_eq x
    have hdepsOfE : depsOf (track a k s) e = depsOf s e ++ [(a, k)] :=
      track_depsOf_self hae hrege a k
    have hdepsOfNe : ∀ x, x ≠ e → depsOf (track a k s) x = depsOf s x := by
      intro x hx
      refine track_depsOf_ne a k (fun e' he' => ?_)
      rw [hae] at he'
      cases he'
      exact hx
    have hdepsOfMono : ∀ x p, p ∈ depsOf s x → p ∈ depsOf (track a k s) x := by
      intro x p hp
      by_cases hx : x = e
      · subst hx
        rw [hdepsOfE]
        exact List.mem_append.mpr (Or.inl hp)
      · rw [hdepsOfNe x hx]
        exact hp
    have hdsSelf := track_depSet_self hae a k
    have hdsMono : ∀ x a' k', x ∈ depSet s a' k' → x ∈ depSet (track a k s) a' k' := by
      intro x a' k' hx
      by_cases hp : a' = a ∧ k' = k
      · obtain ⟨h1, h2⟩ := hp
        subst h1
        subst h2
        rw [hdsSelf]
        split
        · exact hx
        · exact List.mem_append.mpr (Or.inl hx)
      · rw [track_depSet_ne a k hp]
        exact hx
    have htm : (track a k s).targetMap =
        ins s.targetMap a
          (ins ((look s.targetMap a).getD []) k
            (if e ∈ (look ((look s.targetMap a).getD []) k).getD []
              then (look ((look s.targetMap a).getD []) k).getD []
              else (look ((look s.targetMap a).getD []) k).getD [] ++ [e])) := by
      rw [track_eq_of_some hae]
      rfl
    have heff : (track a k s).effects =
        updF s.effects e fun r => { r with deps := r.deps ++ [(a, k)] } := by
      rw [track_eq_of_some hae]
      rfl
    have hdepeq : (look ((look s.targetMap a).getD []) k).getD [] = depSet s a k :=
      (depSet_def2 s a k).symm
    have hdmnd : (((look s.targetMap a).getD []).map Prod.fst).Nodup := by
      cases hl : look s.targetMap a with
      | none => simp
      | some dm0 =>
        simp only [Option.getD_some]
        exact h.dmKeys (a, dm0) (mem_of_look_eq_some hl)
    have hdmdepnd : ∀ kd ∈ (look s.targetMap a).getD [], kd.2.Nodup := by
      cases hl : look s.targetMap a with
      | none => simp
      | some dm0 =>
        simp only [Option.getD_some]
        exact h.depNodup (a, dm0) (mem_of_look_eq_some hl)
    have hdmfwd : ∀ kd ∈ (look s.targetMap a).getD [], ∀ x ∈ kd.2,
        registered s x ∧ (a, kd.1) ∈ depsOf s x := by
      cases hl : look s.targetMap a with
      | none => simp
      | some dm0 =>
        simp only [Option.getD_some]
        exact h.depFwd (a, dm0) (mem_of_look_eq_some hl)
    refine ⟨?_, ?_, ?_, ?_, ?_, ?_, ?_, ?_, ?_, ?_, ?_, ?_, ?_, ?_⟩
    · rw [htm]
      by_cases hmem : a ∈ s.targetMap.map Prod.fst
      · rw [ins_keys_of_mem _ _ _ hmem]
        exact h.tmKeys
      · rw [ins_keys_of_not_mem _ _ _ hmem]
        exact List.Nodup.append h.tmKeys (List.nodup_singleton a)
          (fun x hx hx2 => hmem ((List.mem_singleton.mp hx2) ▸ hx))
    · rw [htm]
      intro td htd
      rcases (mem_ins h.tmKeys).mp htd with h1 | h1
      · rw [h1]
        show ((ins ((look s.targetMap a).getD []) k _).map Prod.fst).Nodup
        by_cases hmem : k ∈ ((look s.targetMap a).getD []).map Prod.fst
        · rw [ins_keys_of_mem _ _ _ hmem]
          exact hdmnd
        · rw [ins_keys_of_not_mem _ _ _ hmem]
          exact List.Nodup.append hdmnd (List.nodup_singleton k)
            (fun x hx hx2 => hmem ((List.mem_singleton.mp hx2) ▸ hx))
      · exact h.dmKeys td h1.1
    · rw [heff, updF_keys]
      exact h.effKeys
    · rw [track_computeds]
      exact h.compKeys
    · rw [htm]
      intro td htd kd hkd
      rcases (mem_ins h.tmKeys).mp htd with h1 | h1
      · rw [h1] at hkd
        rcases (mem_ins hdmnd).mp hkd with h2 | h2
        · rw [h2]
          show ((if e ∈ (look ((look s.targetMap a).getD []) k).getD []
            then (look ((look s.targetMap a).getD []) k).getD []
            else (look ((look s.targetMap a).getD []) k).getD [] ++ [e])).Nodup
          split
          · rw [hdepeq]
            exact h.depSet_nodup a k
          · next hc =>
            rw [hdepeq] at hc ⊢
            exact List.Nodup.append (h.depSet_nodup a k) (List.nodup_singleton e)
              (fun x hx hx2 => hc ((List.mem_singleton.mp hx2) ▸ hx))
        · exact hdmdepnd kd h2.1
      · exact h.depNodup td h1.1 kd hkd
    · rw [htm]
      intro td htd kd hkd x hx
      rcases (mem_ins h.tmKeys).mp htd with h1 | h1
      · rw [h1] at hkd ⊢
        rcases (mem_ins hdmnd).mp hkd with h2 | h2
        · rw [h2] at hx ⊢
          have hx' : x ∈ depSet s a k ∨ x = e := by
            by_cases hc : e ∈ (look ((look s.targetMap a).getD []) k).getD []
            · rw [if_pos hc] at hx
              rw [← hdepeq]
              exact Or.inl hx
            · rw [if_neg hc] at hx
              rcases List.mem_append.mp hx with hx | hx
              · rw [← hdepeq]
                exact Or.inl hx
              · exact Or.inr (List.mem_singleton.mp hx)
          rcases hx' with hx' | hx'
          · refine ⟨(hregstab x).mpr (h.depSet_registered hx'), ?_⟩
            exact hdepsOfMono x (a, k) ((h.mem_depSet_iff a k x).mp hx')
          · subst hx'
            refine ⟨(hregstab x).mpr hrege, ?_⟩
            rw [hdepsOfE]
            exact List.mem_append.mpr (Or.inr (List.mem_singleton.mpr rfl))
        · obtain ⟨hreg2, hpair⟩ := hdmfwd kd h2.1 x hx
          exact ⟨(hregstab x).mpr hreg2, hdepsOfMono x _ hpair⟩
      · obtain ⟨hreg2, hpair⟩ := h.depFwd td h1.1 kd hkd x hx
        exact ⟨(hregstab x).mpr hreg2, hdepsOfMono x _ hpair⟩
    · rw [heff]
      intro er her ak hak
      rcases (mem_updF h.effKeys).mp her with h1 | h1
      · exact hdsMono er.1 ak.1 ak.2 (h.depBwd er h1.1 ak hak)
      · obtain ⟨r, hr, her2⟩ := h1
        rw [her2] at hak ⊢
        rcases List.mem_append.mp hak with hak' | hak'
        · refine hdsMono e ak.1 ak.2 ?_
          exact h.depBwd (e, r) (mem_of_look_eq_some hr) ak hak'
        · have : ak = (a, k) := List.mem_singleton.mp hak'
          rw [this]
          show e ∈ depSet (track a k s) a k
          rw [hdsSelf]
          split
          · next hc => exact hc
          · exact List.mem_append.mpr (Or.inr (List.mem_singleton.mpr rfl))
    · rw [track_activeEffect, track_effectStack]
      exact h.aeTop
    · rw [track_effectStack]
      exact fun x hx => (hregstab x).mpr (h.stackReg x hx)
    · rw [track_queue]
      exact h.queueNodup
    · rw [track_queue]
      intro x hx
      obtain ⟨h1, h2⟩ := h.queueOk x hx
      exact ⟨(hregstab x).mpr h1, (hschedstab x).trans h2⟩
    · rw [heff, track_nextEffectId]
      intro er her
      obtain ⟨y, hy, hk⟩ := mem_updF_source her
      rw [← hk]
      exact h.effBound y hy
    · rw [track_computeds, track_nextAddr]
      exact h.compBound
    · rw [track_computeds]
      intro ce hce
      obtain ⟨h1, h2⟩ := h.compOk ce hce
      exact ⟨(hregstab _).mpr h1, (hschedstab _).trans h2⟩

theorem foldl_removeDep_keys (e : EffectId) :
    ∀ (prs : List (Addr × Key)) (tm : List (Addr × List (Key × List EffectId))),
    (prs.foldl (fun t ak => removeDep t ak.1 ak.2 e) tm).map Prod.fst = tm.map Prod.fst := by
  intro prs
  induction prs with
  | nil => intro tm; rfl
  | cons hd rest ih =>
    intro tm
    rw [List.foldl_cons, ih]
    unfold removeDep
    exact updF_keys _ _ _

theorem foldl_removeDep_innerKeys (e : EffectId) :
    ∀ (prs : List (Addr × Key)) (tm : List (Addr × List (Key × List EffectId))) (a : Addr),
    (look (prs.foldl (fun t ak => removeDep t ak.1 ak.2 e) tm) a).map (List.map Prod.fst) =
      (look tm a).map (List.map Prod.fst) := by
  intro prs
  induction prs with
  | nil => intro tm a; rfl
  | cons hd rest ih =>
    intro tm a
    rw [List.foldl_cons, ih]
    unfold removeDep
    by_cases ha : a = hd.1
    · rw [ha, look_updF_self]
      cases hl : look tm hd.1 with
      | none => rfl
      | some dm =>
        simp only [Option.map_some']
        rw [updF_keys]
    · rw [look_updF_ne _ _ _ _ ha]

/-- WF is preserved by `cleanup`. -/
theorem WF.wfCleanupOp {s : State} (h : WF s) (e : EffectId) : WF (cleanup e s) := by
  have hregstab : ∀ x, registered (cleanup e s) x ↔ registered s x :=
    fun x => (CS.csCleanupOp e s).sim.registered_iff x
  have hschedstab : ∀ x, schedOf (cleanup e s) x = schedOf s x :=
    fun x => (CS.csCleanupOp e s).sim.schedOf_eq x
  have hds : ∀ a k, depSet (cleanup e s) a k =
      (if (a, k) ∈ depsOf s e then (depSet s a k).erase e else depSet s a k) :=
    cleanup_depSet h.depSet_nodup e
  have hdOfE : depsOf (cleanup e s) e = [] := cleanup_depsOf_self e s
  have hdOfNe : ∀ x, x ≠ e → depsOf (cleanup e s) x = depsOf s x :=
    fun x hx => cleanup_depsOf_ne e s hx
  have htm : (cleanup e s).targetMap =
      (depsOf s e).foldl (fun t ak => removeDep t ak.1 ak.2 e) s.targetMap := rfl
  have heff : (cleanup e s).effects = updF s.effects e fun r => { r with deps := [] } := rfl
  have htmKeys : ((cleanup e s).targetMap.map Prod.fst).Nodup := by
    rw [htm, foldl_removeDep_keys]
    exact h.tmKeys
  have hInner : ∀ td ∈ (cleanup e s).targetMap,
      ∃ dm0, look s.targetMap td.1 = some dm0 ∧ td.2.map Prod.fst = dm0.map Prod.fst := by
    intro td htd
    have hlk := look_eq_some_of_mem htmKeys htd
    have := foldl_removeDep_innerKeys e (depsOf s e) s.targetMap td.1
    rw [← htm, hlk] at this
    cases hl0 : look s.targetMap td.1 with
    | none => rw [hl0] at this; simp at this
    | some dm0 =>
      rw [hl0] at this
      simp only [Option.map_some', Option.some.injEq] at this
      exact ⟨dm0, rfl, this⟩
  have hdmKeys : ∀ td ∈ (cleanup e s).targetMap, (td.2.map Prod.fst).Nodup := by
    intro td htd
    obtain ⟨dm0, hl0, hkeys⟩ := hInner td htd
    rw [hkeys]
    exact h.dmKeys (td.1, dm0) (mem_of_look_eq_some hl0)
  have hkdIsDepSet : ∀ td ∈ (cleanup e s).targetMap, ∀ kd ∈ td.2,
      kd.2 = depSet (cleanup e s) td.1 kd.1 := by
    intro td htd kd hkd
    have h1 := look_eq_some_of_mem htmKeys htd
    have h2 := look_eq_some_of_mem (hdmKeys td htd) hkd
    rw [depSet_eq_tmGet]
    unfold tmGet
    rw [h1]
    simp only [Option.some_bind]
    rw [h2]
    rfl
  refine ⟨htmKeys, hdmKeys, ?_, ?_, ?_, ?_, ?_, ?_, ?_, ?_, ?_, ?_, ?_, ?_⟩
  · rw [heff, updF_keys]
    exact h.effKeys
  · exact h.compKeys
  · intro td htd kd hkd
    rw [hkdIsDepSet td htd kd hkd, hds]
    split
    · exact (h.depSet_nodup td.1 kd.1).erase e
    · exact h.depSet_nodup td.1 kd.1
  · intro td htd kd hkd x hx
    rw [hkdIsDepSet td htd kd hkd, hds] at hx
    have hxne : x ∈ depSet s td.1 kd.1 ∧ x ≠ e := by
      by_cases hc : (td.1, kd.1) ∈ depsOf s e
      · rw [if_pos hc] at hx
        have := (h.depSet_nodup td.1 kd.1).mem_erase_iff.mp hx
        exact ⟨this.2, this.1⟩
      · rw [if_neg hc] at hx
        refine ⟨hx, fun hxe => ?_⟩
        rw [hxe] at hx
        exact hc ((h.mem_depSet_iff td.1 kd.1 e).mp hx)
    refine ⟨(hregstab x).mpr (h.depSet_registered hxne.1), ?_⟩
    rw [hdOfNe x hxne.2]
    exact (h.mem_depSet_iff td.1 kd.1 x).mp hxne.1
  · rw [heff]
    intro er her ak hak
    rcases (mem_updF h.effKeys).mp her with h1 | h1
    · have hmem := h.depBwd er h1.1 ak hak
      rw [hds]
      split
      · exact (List.mem_erase_of_ne h1.2).mpr hmem
      · exact hmem
    · obtain ⟨r, hr, her2⟩ := h1
      rw [her2] at hak
      simp at hak
  · exact h.aeTop
  · exact fun x hx => (hregstab x).mpr (h.stackReg x hx)
  · exact h.queueNodup
  · intro x hx
    obtain ⟨h1, h2⟩ := h.queueOk x hx
    exact ⟨(hregstab x).mpr h1, (hschedstab x).trans h2⟩
  · rw [heff]
    intro er her
    obtain ⟨y, hy, hk⟩ := mem_updF_source her
    rw [← hk]
    exact h.effBound y hy
  · exact h.compBound
  · intro ce hce
    obtain ⟨h1, h2⟩ := h.compOk ce hce
    exact ⟨(hregstab _).mpr h1, (hschedstab _).trans h2⟩

theorem look_append_left {κ β : Type} [DecidableEq κ] {l l2 : List (κ × β)} {a : κ} {b : β}
    (h : look l a = some b) : look (l ++ l2) a = some b := by
  induction l with
  | nil => simp [look] at h
  | cons hd t ih =>
    obtain ⟨x, y⟩ := hd
    by_cases hh : x = a
    · rw [look_cons_eq hh] at h
      rw [List.cons_append, look_cons_eq hh]
      exact h
    · rw [look_cons_ne hh] at h
      rw [List.cons_append, look_cons_ne hh]
      exact ih h

theorem look_append_right {κ β : Type} [DecidableEq κ] {l : List (κ × β)} (l2 : List (κ × β))
    {a : κ} (h : look l a = none) : look (l ++ l2) a = look l2 a := by
  induction l with
  | nil => rfl
  | cons hd t ih =>
    obtain ⟨x, y⟩ := hd
    by_cases hh : x = a
    · rw [look_cons_eq hh] at h
      simp at h
    · rw [look_cons_ne hh] at h
      rw [List.cons_append, look_cons_ne hh]
      exact ih h

theorem look_eq_none_of_not_mem {κ β : Type} [DecidableEq κ] {l : List (κ × β)} {a : κ}
    (h : a ∉ l.map Prod.fst) : look l a = none := by
  induction l with
  | nil => rfl
  | cons hd t ih =>
    obtain ⟨x, y⟩ := hd
    simp only [List.map_cons, List.mem_cons] at h
    push_neg at h
    rw [look_cons_ne (fun hh => h.1 hh.symm)]
    exact ih h.2

/-- WF after exiting a completed flush (clear queue, reset the flag). -/
theorem WF.flushExit {s : State} (h : WF s) :
    WF { s with queue := [], isFlushing := false } :=
  ⟨h.tmKeys, h.dmKeys, h.effKeys, h.compKeys, h.depNodup, h.depFwd, h.depBwd,
    h.aeTop, h.stackReg, List.nodup_nil, fun j hj => absurd hj (List.not_mem_nil j),
    h.effBound, h.compBound, h.compOk⟩



/-- WF after registering a fresh effect. -/
theorem WF.registerEffect {s : State} (h : WF s) (p : Prog) (lz : Bool) (sc : Option Addr) :
    WF (regEff s p lz sc) := by
  have hfresh : s.nextEffectId ∉ s.effects.map Prod.fst := by
    intro hmem
    obtain ⟨er, her, heq⟩ := List.mem_map.mp hmem
    have hb := h.effBound er her
    rw [heq] at hb
    exact lt_irrefl _ hb
  have hlook : ∀ x, registered s x →
      look (regEff s p lz sc).effects x = look s.effects x := by
    intro x hx
    unfold registered at hx
    cases hl : look s.effects x with
    | none => rw [hl] at hx; simp at hx
    | some r =>
      exact look_append_left hl
  have hreg : ∀ x, registered s x → registered (regEff s p lz sc) x := by
    intro x hx
    unfold registered
    rw [hlook x hx]
    exact hx
  have hdepsOf : ∀ x, registered s x → depsOf (regEff s p lz sc) x = depsOf s x := by
    intro x hx
    unfold depsOf
    rw [hlook x hx]
  have hsched : ∀ x, registered s x → schedOf (regEff s p lz sc) x = schedOf s x := by
    intro x hx
    unfold schedOf
    rw [hlook x hx]
  refine ⟨h.tmKeys, h.dmKeys, ?_, h.compKeys, h.depNodup, ?_, ?_, h.aeTop, ?_,
    h.queueNodup, ?_, ?_, h.compBound, ?_⟩
  · show ((s.effects ++ [(s.nextEffectId, _)]).map Prod.fst).Nodup
    rw [List.map_append]
    exact List.Nodup.append h.effKeys (List.nodup_singleton _)
      (fun x hx hx2 => by
        rw [List.map_singleton, List.mem_singleton] at hx2
        rw [hx2] at hx
        exact hfresh hx)
  · intro td htd kd hkd x hx
    obtain ⟨h1, h2⟩ := h.depFwd td htd kd hkd x hx
    exact ⟨hreg x h1, (hdepsOf x h1) ▸ h2⟩
  · intro er her ak hak
    rcases List.mem_append.mp her with h1 | h1
    · exact h.depBwd er h1 ak hak
    · rw [List.mem_singleton.mp h1] at hak
      simp at hak
  · intro x hx
    exact hreg x (h.stackReg x hx)
  · intro j hj
    obtain ⟨h1, h2⟩ := h.queueOk j hj
    exact ⟨hreg j h1, (hsched j h1).trans h2⟩
  · intro er her
    show er.1 < s.nextEffectId + 1
    rcases List.mem_append.mp her with h1 | h1
    · exact Nat.lt_succ_of_lt (h.effBound er h1)
    · rw [List.mem_singleton.mp h1]
      exact Nat.lt_succ_self _
  · intro ce hce
    obtain ⟨h1, h2⟩ := h.compOk ce hce
    exact ⟨hreg _ h1, (hsched _ h1).trans h2⟩

/-- WF after `computed(getter)` registers its internals. -/
theorem WF.registerComputed {s : State} (h : WF s) (g : Prog) : WF (regComp s g) := by
  have h1 : WF (regEff s g true (some s.nextAddr)) := h.registerEffect g true (some s.nextAddr)
  have hfreshc : s.nextAddr ∉ s.computeds.map Prod.fst := by
    intro hmem
    obtain ⟨ce, hce, heq⟩ := List.mem_map.mp hmem
    have hb := h.compBound ce hce
    rw [heq] at hb
    exact lt_irrefl _ hb
  have hfreshe : s.nextEffectId ∉ s.effects.map Prod.fst := by
    intro hmem
    obtain ⟨er, her, heq⟩ := List.mem_map.mp hmem
    have hb := h.effBound er her
    rw [heq] at hb
    exact lt_irrefl _ hb
  have hlooknew :
      look (regEff s g true (some s.nextAddr)).effects s.nextEffectId =
        some ⟨g, true, some s.nextAddr, []⟩ := by
    show look (s.effects ++ _) s.nextEffectId = _
    rw [look_append_right _ (look_eq_none_of_not_mem hfreshe)]
    exact look_cons_eq rfl
  refine ⟨h1.tmKeys, h1.dmKeys, h1.effKeys, ?_, h1.depNodup, h1.depFwd, h1.depBwd,
    h1.aeTop, h1.stackReg, h1.queueNodup, h1.queueOk, h1.effBound, ?_, ?_⟩
  · show ((s.computeds ++ [(s.nextAddr, _)]).map Prod.fst).Nodup
    rw [List.map_append]
    exact List.Nodup.append h.compKeys (List.nodup_singleton _)
      (fun x hx hx2 => by
        rw [List.map_singleton, List.mem_singleton] at hx2
        rw [hx2] at hx
        exact hfreshc hx)
  · intro ce hce
    show ce.1 < s.nextAddr + 1
    rcases List.mem_append.mp hce with hc | hc
    · exact Nat.lt_succ_of_lt (h.compBound ce hc)
    · rw [List.mem_singleton.mp hc]
      exact Nat.lt_succ_self _
  · intro ce hce
    rcases List.mem_append.mp hce with hc | hc
    · exact h1.compOk ce hc
    · rw [List.mem_singleton.mp hc]
      constructor
      · show (look (regEff s g true (some s.nextAddr)).effects s.nextEffectId).isSome
        rw [hlooknew]
        rfl
      · show ((look (regEff s g true (some s.nextAddr)).effects
            s.nextEffectId).map EffectRec.sched).getD none = _
        rw [hlooknew]
        rfl

theorem WF.wfReactiveGetOp {s : State} (h : WF s) (w : Wrapper) (k : Key) :
    WF (reactiveGet w k s).2 := by
  unfold reactiveGet
  cases heapGet s w.raw k with
  | num n => exact h.wfTrackOp w.raw k
  | undef => exact h.wfTrackOp w.raw k
  | objV a =>
    simp only [reactiveWrap]
    exact (h.wfTrackOp w.raw k).wfWrapBump _

/-! ## WF is preserved by every engine call -/

theorem wfAll : ∀ n : Nat,
    (∀ p s, WF s → WF (runProg n p s).2) ∧
    (∀ e s, WF s → WF (runEffect n e s).2) ∧
    (∀ c s, WF s → WF (computedGetValue n c s).2) ∧
    (∀ w k v s, WF s → WF (reactiveSet n w k v s).2) ∧
    (∀ a k s, WF s → WF (trigger n a k s).2) ∧
    (∀ a k l s, WF s → WF (dispatchList n a k l s).2) := by
  intro n
  induction n with
  | zero =>
    refine ⟨fun p s hw => hw, fun e s hw => hw, fun c s hw => hw, fun w k v s hw => hw,
      fun a k s hw => hw, fun a k l s hw => hw⟩
  | succ n ih =>
    obtain ⟨ihProg, ihEff, ihCgv, ihSet, ihTrig, ihDisp⟩ := ih
    have hdisp : ∀ a k l s, WF s → WF (dispatchList (n + 1) a k l s).2 := by
      intro a k l s hw
      cases l with
      | nil => exact hw
      | cons e rest =>
        have hw0 : WF (emit (.dispatchEv a k e) s) := hw.wfEmitOp _
        show WF (match look (emit (.dispatchEv a k e) s).effects e with
          | none => ((Except.error Err.missing : Except Err Unit), emit (.dispatchEv a k e) s)
          | some r =>
            match r.sched with
            | some c =>
              match trigger n c "value" (emit (.schedEv c)
                { emit (.dispatchEv a k e) s with
                  computeds := updF (emit (.dispatchEv a k e) s).computeds c
                    fun cr => { cr with dirty := true } }) with
              | (.ok _, s2) => dispatchList n a k rest s2
              | (.error err, s2) => (.error err, s2)
            | none => dispatchList n a k rest (queueJob e (emit (.dispatchEv a k e) s))).2
        cases hl : look (emit (.dispatchEv a k e) s).effects e with
        | none => exact hw0
        | some r =>
          obtain ⟨pg, lz, sc, dp⟩ := r
          show WF (match sc with
            | some c =>
              match trigger n c "value" (emit (.schedEv c)
                { emit (.dispatchEv a k e) s with
                  computeds := updF (emit (.dispatchEv a k e) s).computeds c
                    fun cr => { cr with dirty := true } }) with
              | (.ok _, s2) => dispatchList n a k rest s2
              | (.error err, s2) => (.error err, s2)
            | none => dispatchList n a k rest (queueJob e (emit (.dispatchEv a k e) s))).2
          cases sc with
          | some c =>
            show WF (match trigger n c "value" (emit (.schedEv c)
                { emit (.dispatchEv a k e) s with
                  computeds := updF (emit (.dispatchEv a k e) s).computeds c
                    fun cr => { cr with dirty := true } }) with
              | (.ok _, s2) => dispatchList n a k rest s2
              | (.error err, s2) => (.error err, s2)).2
            have hw2 : WF (emit (.schedEv c)
                { emit (.dispatchEv a k e) s with
                  computeds := updF (emit (.dispatchEv a k e) s).computeds c
                    fun cr => { cr with dirty := true } }) :=
              (hw0.wfUpdCompDirty c true).wfEmitOp _
            cases htr : trigger n c "value" (emit (.schedEv c)
                { emit (.dispatchEv a k e) s with
                  computeds := updF (emit (.dispatchEv a k e) s).computeds c
                    fun cr => { cr with dirty := true } }) with
            | mk r2 s2 =>
              have hw3 : WF s2 := by
                have := ihTrig c "value" (emit (.schedEv c)
                  { emit (.dispatchEv a k e) s with
                    computeds := updF (emit (.dispatchEv a k e) s).computeds c
                      fun cr => { cr with dirty := true } }) hw2
                rw [htr] at this
                exact this
              cases r2 with
              | ok u => exact ihDisp a k rest s2 hw3
              | error err => exact hw3
          | none =>
            show WF (dispatchList n a k rest (queueJob e (emit (.dispatchEv a k e) s))).2
            have hreg : registered (emit (.dispatchEv a k e) s) e := by
              unfold registered
              rw [hl]
              rfl
            have hsched : schedOf (emit (.dispatchEv a k e) s) e = none := by
              unfold schedOf
              rw [hl]
              rfl
            exact ihDisp a k rest _ (hw0.wfQueueJobOp hreg hsched)
    have htrig : ∀ a k s, WF s → WF (trigger (n + 1) a k s).2 := by
      intro a k s hw
      have hw0 : WF (emit (.triggerEv a k) s) := hw.wfEmitOp _
      show WF (match look (emit (.triggerEv a k) s).targetMap a with
        | none => ((Except.ok () : Except Err Unit), emit (.triggerEv a k) s)
        | some dm =>
          match look dm k with
          | none => (Except.ok (), emit (.triggerEv a k) s)
          | some dep => dispatchList n a k dep (emit (.triggerEv a k) s)).2
      cases h1 : look (emit (.triggerEv a k) s).targetMap a with
      | none => exact hw0
      | some dm =>
        show WF (match look dm k with
          | none => ((Except.ok () : Except Err Unit), emit (.triggerEv a k) s)
          | some dep => dispatchList n a k dep (emit (.triggerEv a k) s)).2
        cases h2 : look dm k with
        | none => exact hw0
        | some dep =>
          show WF (dispatchList n a k dep (emit (.triggerEv a k) s)).2
          exact ihDisp a k dep _ hw0
    refine ⟨?_, ?_, ?_, ?_, htrig, hdisp⟩
    · intro p s hw
      cases p with
      | skip => exact hw
      | seq p q =>
        show WF (match runProg n p s with
          | (.ok _, s1) => runProg n q s1
          | (.error err, s1) => (.error err, s1)).2
        cases hp : runProg n p s with
        | mk r1 s1 =>
          have h1 : WF s1 := by
            have := ihProg p s hw
            rw [hp] at this
            exact this
          cases r1 with
          | ok v => exact ihProg q s1 h1
          | error err => exact h1
      | readP a k =>
        show WF (match reactiveGet ⟨a, 0⟩ k s with
          | (v, s1) => ((Except.ok v : Except Err RVal), s1)).2
        cases hg : reactiveGet ⟨a, 0⟩ k s with
        | mk v s1 =>
          have := hw.wfReactiveGetOp ⟨a, 0⟩ k
          rw [hg] at this
          exact this
      | writeP a k v =>
        show WF (match reactiveSet n ⟨a, 0⟩ k v s with
          | (.ok _, s1) => ((Except.ok (RVal.prim v) : Except Err RVal), s1)
          | (.error err, s1) => (.error err, s1)).2
        cases hwr : reactiveSet n ⟨a, 0⟩ k v s with
        | mk r1 s1 =>
          have h1 : WF s1 := by
            have := ihSet ⟨a, 0⟩ k v s hw
            rw [hwr] at this
            exact this
          cases r1 with
          | ok u => exact h1
          | error err => exact h1
      | branch a k p q =>
        show WF (match reactiveGet ⟨a, 0⟩ k s with
          | (v, s1) => if truthy v then runProg n p s1 else runProg n q s1).2
        cases hg : reactiveGet ⟨a, 0⟩ k s with
        | mk v s1 =>
          have h1 : WF s1 := by
            have := hw.wfReactiveGetOp ⟨a, 0⟩ k
            rw [hg] at this
            exact this
          by_cases ht : truthy v
          · show WF ((if truthy v then runProg n p s1 else runProg n q s1)).2
            rw [if_pos ht]
            exact ihProg p s1 h1
          · show WF ((if truthy v then runProg n p s1 else runProg n q s1)).2
            rw [if_neg ht]
            exact ihProg q s1 h1
      | invokeP e => exact ihEff e s hw
      | readC c => exact ihCgv c s hw
      | failP => exact hw
    · intro e s hw
      show WF (match look s.effects e with
        | none => ((Except.error Err.missing : Except Err RVal), s)
        | some r =>
          match runProg n r.prog { cleanup e (emit (.runEv e) s) with
              activeEffect := some e,
              effectStack := e :: (cleanup e (emit (.runEv e) s)).effectStack } with
          | (.ok v, s3) => ((.ok v : Except Err RVal), { s3 with
              effectStack := s3.effectStack.tail,
              activeEffect := s3.effectStack.tail.head? })
          | (.error err, s3) => (.error err, s3)).2
      cases hl : look s.effects e with
      | none => exact hw
      | some r =>
        show WF (match runProg n r.prog { cleanup e (emit (.runEv e) s) with
              activeEffect := some e,
              effectStack := e :: (cleanup e (emit (.runEv e) s)).effectStack } with
          | (.ok v, s3) => ((.ok v : Except Err RVal), { s3 with
              effectStack := s3.effectStack.tail,
              activeEffect := s3.effectStack.tail.head? })
          | (.error err, s3) => (.error err, s3)).2
        have hreg0 : registered s e := by
          unfold registered
          rw [hl]
          rfl
        have hregc : registered (cleanup e (emit (.runEv e) s)) e :=
          ((CS.csCleanupOp e (emit (.runEv e) s)).sim.registered_iff e).mpr hreg0
        have hw2 : WF { cleanup e (emit (.runEv e) s) with
            activeEffect := some e,
            effectStack := e :: (cleanup e (emit (.runEv e) s)).effectStack } :=
          ((hw.wfEmitOp (.runEv e)).wfCleanupOp e).stackPush hregc
        cases hp : runProg n r.prog { cleanup e (emit (.runEv e) s) with
            activeEffect := some e,
            effectStack := e :: (cleanup e (emit (.runEv e) s)).effectStack } with
        | mk r1 s3 =>
          have hw3 : WF s3 := by
            have := ihProg r.prog { cleanup e (emit (.runEv e) s) with
              activeEffect := some e,
              effectStack := e :: (cleanup e (emit (.runEv e) s)).effectStack } hw2
            rw [hp] at this
            exact this
          cases r1 with
          | ok v => exact hw3.stackPop
          | error err => exact hw3
    · intro c s hw
      show WF (match look s.computeds c with
        | none => ((Except.error Err.missing : Except Err RVal), s)
        | some cr =>
          if cr.dirty then
            match runEffect n cr.eid (emit (.recompEv c) (emit (.creadEv c) s)) with
            | (.ok v, s1) => ((.ok v : Except Err RVal), track c "value" { s1 with
                computeds := updF s1.computeds c fun r => { r with cval := v, dirty := false } })
            | (.error err, s1) => (.error err, s1)
          else (.ok cr.cval, track c "value" (emit (.creadEv c) s))).2
      cases hl : look s.computeds c with
      | none => exact hw
      | some cr =>
        by_cases hd : cr.dirty
        · show WF ((if cr.dirty then
            match runEffect n cr.eid (emit (.recompEv c) (emit (.creadEv c) s)) with
            | (.ok v, s1) => ((.ok v : Except Err RVal), track c "value" { s1 with
                computeds := updF s1.computeds c fun r => { r with cval := v, dirty := false } })
            | (.error err, s1) => (.error err, s1)
          else (.ok cr.cval, track c "value" (emit (.creadEv c) s)))).2
          rw [if_pos hd]
          have hw1 : WF (emit (.recompEv c) (emit (.creadEv c) s)) :=
            (hw.wfEmitOp _).wfEmitOp _
          cases hr : runEffect n cr.eid (emit (.recompEv c) (emit (.creadEv c) s)) with
          | mk r1 s1 =>
            have hw2 : WF s1 := by
              have := ihEff cr.eid (emit (.recompEv c) (emit (.creadEv c) s)) hw1
              rw [hr] at this
              exact this
            cases r1 with
            | ok v => exact (hw2.wfUpdCompVal c v).wfTrackOp c "value"
            | error err => exact hw2
        · show WF ((if cr.dirty then
            match runEffect n cr.eid (emit (.recompEv c) (emit (.creadEv c) s)) with
            | (.ok v, s1) => ((.ok v : Except Err RVal), track c "value" { s1 with
                computeds := updF s1.computeds c fun r => { r with cval := v, dirty := false } })
            | (.error err, s1) => (.error err, s1)
          else (.ok cr.cval, track c "value" (emit (.creadEv c) s)))).2
          rw [if_neg hd]
          exact (hw.wfEmitOp _).wfTrackOp c "value"
    · intro w k v s hw
      show WF (if v = heapGet s w.raw k
        then ((Except.ok () : Except Err Unit), heapSet s w.raw k v)
        else trigger (n + 1) w.raw k (heapSet s w.raw k v)).2
      by_cases he : v = heapGet s w.raw k
      · rw [if_pos he]
        exact hw.wfHeapSetOp w.raw k v
      · rw [if_neg he]
        exact htrig w.raw k (heapSet s w.raw k v) (hw.wfHeapSetOp w.raw k v)

theorem wf_runProg (n : Nat) (p : Prog) {s : State} (hw : WF s) : WF (runProg n p s).2 :=
  (wfAll n).1 p s hw
theorem wf_runEffect (n : Nat) (e : EffectId) {s : State} (hw : WF s) : WF (runEffect n e s).2 :=
  (wfAll n).2.1 e s hw
theorem wf_cgv (n : Nat) (c : Addr) {s : State} (hw : WF s) : WF (computedGetValue n c s).2 :=
  (wfAll n).2.2.1 c s hw
theorem wf_reactiveSet (n : Nat) (w : Wrapper) (k : Key) (v : Value) {s : State} (hw : WF s) :
    WF (reactiveSet n w k v s).2 :=
  (wfAll n).2.2.2.1 w k v s hw
theorem wf_trigger (n : Nat) (a : Addr) (k : Key) {s : State} (hw : WF s) :
    WF (trigger n a k s).2 :=
  (wfAll n).2.2.2.2.1 a k s hw
theorem wf_dispatchList (n : Nat) (a : Addr) (k : Key) (l : List EffectId) {s : State}
    (hw : WF s) : WF (dispatchList n a k l s).2 :=
  (wfAll n).2.2.2.2.2 a k l s hw

theorem wf_flushGo : ∀ (n : Nat) (visited : List EffectId) {s : State}, WF s →
    WF (flushGo n visited s).2 := by
  intro n
  induction n with
  | zero => intro visited s hw; exact hw
  | succ n ih =>
    intro visited s hw
    show WF (match s.queue.find? (fun j => !(visited.contains j)) with
      | none => ((Except.ok () : Except Err Unit), { s with queue := [], isFlushing := false })
      | some j =>
        match runEffect n j (emit (.flushRunEv j) s) with
        | (.ok _, s1) => flushGo n (j :: visited) s1
        | (.error err, s1) => (.error err, s1)).2
    cases hf : s.queue.find? (fun j => !(visited.contains j)) with
    | none => exact hw.flushExit
    | some j =>
      show WF (match runEffect n j (emit (.flushRunEv j) s) with
        | (.ok _, s1) => flushGo n (j :: visited) s1
        | (.error err, s1) => (.error err, s1)).2
      cases hr : runEffect n j (emit (.flushRunEv j) s) with
      | mk r1 s1 =>
        have hw1 : WF s1 := by
          have := wf_runEffect n j (hw.wfEmitOp (.flushRunEv j))
          rw [hr] at this
          exact this
        cases r1 with
        | ok u => exact ih (j :: visited) hw1
        | error err => exact hw1

theorem wf_runAct (n : Nat) (act : Act) {s : State} (hw : WF s) : WF (runAct n act s).2 := by
  cases act with
  | writeA a k v => exact wf_reactiveSet n ⟨a, 0⟩ k v hw
  | readA a k =>
    show WF (match reactiveGet ⟨a, 0⟩ k s with
      | (_, s1) => ((Except.ok () : Except Err Unit), s1)).2
    cases hg : reactiveGet ⟨a, 0⟩ k s with
    | mk v s1 =>
      have := hw.wfReactiveGetOp ⟨a, 0⟩ k
      rw [hg] at this
      exact this
  | flushMicro =>
    show WF (if s.microtaskPending
      then flushGo n [] { s with microtaskPending := false }
      else ((Except.ok () : Except Err Unit), s)).2
    by_cases hp : s.microtaskPending
    · rw [if_pos hp]
      have hw1 : WF { s with microtaskPending := false } :=
        ⟨hw.tmKeys, hw.dmKeys, hw.effKeys, hw.compKeys, hw.depNodup, hw.depFwd, hw.depBwd,
          hw.aeTop, hw.stackReg, hw.queueNodup, hw.queueOk, hw.effBound, hw.compBound, hw.compOk⟩
      exact wf_flushGo n [] hw1
    · rw [if_neg hp]
      exact hw
  | invokeA e =>
    show WF (match runEffect n e s with
      | (.ok _, s1) => ((Except.ok () : Except Err Unit), s1)
      | (.error err, s1) => (.error err, s1)).2
    cases hr : runEffect n e s with
    | mk r1 s1 =>
      have hw1 : WF s1 := by
        have := wf_runEffect n e hw
        rw [hr] at this
        exact this
      cases r1 with
      | ok u => exact hw1
      | error err => exact hw1
  | readCA c =>
    show WF (match computedGetValue n c s with
      | (.ok _, s1) => ((Except.ok () : Except Err Unit), s1)
      | (.error err, s1) => (.error err, s1)).2
    cases hr : computedGetValue n c s with
    | mk r1 s1 =>
      have hw1 : WF s1 := by
        have := wf_cgv n c hw
        rw [hr] at this
        exact this
      cases r1 with
      | ok u => exact hw1
      | error err => exact hw1
  | mkEffectA p lz =>
    show WF (if lz then ((Except.ok () : Except Err Unit), regEff s p lz none)
      else
        match runEffect n s.nextEffectId (regEff s p lz none) with
        | (.ok _, s2) => ((Except.ok () : Except Err Unit), s2)
        | (.error err, s2) => (.error err, s2)).2
    have hw1 : WF (regEff s p lz none) := hw.registerEffect p lz none
    by_cases hlz : lz
    · rw [if_pos hlz]
      exact hw1
    · rw [if_neg hlz]
      cases hr : runEffect n s.nextEffectId (regEff s p lz none) with
      | mk r1 s2 =>
        have hw2 : WF s2 := by
          have := wf_runEffect n s.nextEffectId hw1
          rw [hr] at this
          exact this
        cases r1 with
        | ok u => exact hw2
        | error err => exact hw2
  | mkComputedA g => exact hw.registerComputed g

theorem wf_runScript (n : Nat) : ∀ (acts : List Act) {s : State}, WF s →
    WF (runScript n acts s) := by
  intro acts
  induction acts with
  | nil => intro s hw; exact hw
  | cons a rest ih =>
    intro s hw
    exact ih (wf_runAct n a hw)

/-! ## Frame facts for `trigger`: dispatch never mutates the dependency
graph, the effect registry, the heap, or the active-effect context -/


theorem newTrace_refl (s : State) : newTrace s s = [] := by
  unfold newTrace
  exact List.drop_length _

theorem newTrace_emit (ev : Ev) (s : State) : newTrace s (emit ev s) = [ev] := by
  unfold newTrace
  show (s.trace ++ [ev]).drop s.trace.length = [ev]
  exact List.drop_left _ _

theorem newTrace_eq_nil {s s' : State} (h : s'.trace = s.trace) : newTrace s s' = [] := by
  unfold newTrace
  rw [h]
  exact List.drop_length _

theorem TF.tfRefl (s : State) : TF s s :=
  ⟨Eq.refl _, Eq.refl _, Eq.refl _, Eq.refl _, Eq.refl _, List.prefix_refl _,
    fun x hx => absurd (newTrace_refl s ▸ hx) (List.not_mem_nil x)⟩

theorem TF.tfTrans {s1 s2 s3 : State} (h1 : TF s1 s2) (h2 : TF s2 s3) : TF s1 s3 := by
  refine ⟨h2.tm.trans h1.tm, h2.eff.trans h1.eff, h2.hp.trans h1.hp, h2.stk.trans h1.stk,
    h2.ae.trans h1.ae, h1.tr.trans h2.tr, ?_⟩
  intro x hx
  rw [newTrace_comp h1.tr h2.tr] at hx
  rcases List.mem_append.mp hx with hx | hx
  · exact h1.ev x hx
  · exact h2.ev x hx

theorem TF.tfEmitOp (ev : Ev) (hev : isDT ev = true) (s : State) : TF s (emit ev s) := by
  refine ⟨Eq.refl _, Eq.refl _, Eq.refl _, Eq.refl _, Eq.refl _, ⟨[ev], Eq.refl _⟩, ?_⟩
  intro x hx
  rw [newTrace_emit] at hx
  rw [List.mem_singleton.mp hx]
  exact hev

theorem TF.tfQueueJobOp (j : EffectId) (s : State) : TF s (queueJob j s) := by
  refine ⟨queueJob_targetMap j s, queueJob_effects j s, queueJob_heap j s,
    queueJob_effectStack j s, queueJob_activeEffect j s, ?_, ?_⟩
  · rw [queueJob_trace]
  · intro x hx
    rw [newTrace_eq_nil (queueJob_trace j s)] at hx
    exact absurd hx (List.not_mem_nil x)

theorem TF.tfUpdCompDirty (s : State) (c : Addr) (b : Bool) :
    TF s { s with computeds := updF s.computeds c fun cr => { cr with dirty := b } } := by
  refine ⟨Eq.refl _, Eq.refl _, Eq.refl _, Eq.refl _, Eq.refl _, List.prefix_refl _, ?_⟩
  intro x hx
  have hnil : newTrace s { s with
      computeds := updF s.computeds c fun cr => { cr with dirty := b } } = [] :=
    newTrace_eq_nil (Eq.refl s.trace)
  rw [hnil] at hx
  exact absurd hx (List.not_mem_nil x)

theorem tfAll : ∀ n : Nat,
    (∀ a k s, TF s (trigger n a k s).2) ∧
    (∀ a k l s, TF s (dispatchList n a k l s).2) := by
  intro n
  induction n with
  | zero => exact ⟨fun a k s => TF.tfRefl s, fun a k l s => TF.tfRefl s⟩
  | succ n ih =>
    obtain ⟨ihTrig, ihDisp⟩ := ih
    have hdisp : ∀ a k l s, TF s (dispatchList (n + 1) a k l s).2 := by
      intro a k l s
      cases l with
      | nil => exact TF.tfRefl s
      | cons e rest =>
        have hemit : TF s (emit (.dispatchEv a k e) s) := TF.tfEmitOp (.dispatchEv a k e) rfl s
        show TF s (match look (emit (.dispatchEv a k e) s).effects e with
          | none => ((Except.error Err.missing : Except Err Unit), emit (.dispatchEv a k e) s)
          | some r =>
            match r.sched with
            | some c =>
              match trigger n c "value" (emit (.schedEv c)
                { emit (.dispatchEv a k e) s with
                  computeds := updF (emit (.dispatchEv a k e) s).computeds c
                    fun cr => { cr with dirty := true } }) with
              | (.ok _, s2) => dispatchList n a k rest s2
              | (.error err, s2) => (.error err, s2)
            | none => dispatchList n a k rest (queueJob e (emit (.dispatchEv a k e) s))).2
        cases hl : look (emit (.dispatchEv a k e) s).effects e with
        | none => exact hemit
        | some r =>
          obtain ⟨pg, lz, sc, dp⟩ := r
          show TF s (match sc with
            | some c =>
              match trigger n c "value" (emit (.schedEv c)
                { emit (.dispatchEv a k e) s with
                  computeds := updF (emit (.dispatchEv a k e) s).computeds c
                    fun cr => { cr with dirty := true } }) with
              | (.ok _, s2) => dispatchList n a k rest s2
              | (.error err, s2) => (.error err, s2)
            | none => dispatchList n a k rest (queueJob e (emit (.dispatchEv a k e) s))).2
          cases sc with
          | some c =>
            show TF s (match trigger n c "value" (emit (.schedEv c)
                { emit (.dispatchEv a k e) s with
                  computeds := updF (emit (.dispatchEv a k e) s).computeds c
                    fun cr => { cr with dirty := true } }) with
              | (.ok _, s2) => dispatchList n a k rest s2
              | (.error err, s2) => (.error err, s2)).2
            have h2 : TF s (emit (.schedEv c)
                { emit (.dispatchEv a k e) s with
                  computeds := updF (emit (.dispatchEv a k e) s).computeds c
                    fun cr => { cr with dirty := true } }) :=
              (hemit.tfTrans (TF.tfUpdCompDirty (emit (.dispatchEv a k e) s) c true)).tfTrans
                (TF.tfEmitOp (.schedEv c) rfl _)
            cases htr : trigger n c "value" (emit (.schedEv c)
                { emit (.dispatchEv a k e) s with
                  computeds := updF (emit (.dispatchEv a k e) s).computeds c
                    fun cr => { cr with dirty := true } }) with
            | mk r2 s2 =>
              have h3 : TF s s2 := by
                have := ihTrig c "value" (emit (.schedEv c)
                  { emit (.dispatchEv a k e) s with
                    computeds := updF (emit (.dispatchEv a k e) s).computeds c
                      fun cr => { cr with dirty := true } })
                rw [htr] at this
                exact h2.tfTrans this
              cases r2 with
              | ok u => exact h3.tfTrans (ihDisp a k rest s2)
              | error err => exact h3
          | none =>
            show TF s (dispatchList n a k rest (queueJob e (emit (.dispatchEv a k e) s))).2
            exact (hemit.tfTrans (TF.tfQueueJobOp e _)).tfTrans (ihDisp a k rest _)
    have htrig : ∀ a k s, TF s (trigger (n + 1) a k s).2 := by
      intro a k s
      have hemit : TF s (emit (.triggerEv a k) s) := TF.tfEmitOp (.triggerEv a k) rfl s
      show TF s (match look (emit (.triggerEv a k) s).targetMap a with
        | none => ((Except.ok () : Except Err Unit), emit (.triggerEv a k) s)
        | some dm =>
          match look dm k with
          | none => (Except.ok (), emit (.triggerEv a k) s)
          | some dep => dispatchList n a k dep (emit (.triggerEv a k) s)).2
      cases h1 : look (emit (.triggerEv a k) s).targetMap a with
      | none => exact hemit
      | some dm =>
        show TF s (match look dm k with
          | none => ((Except.ok () : Except Err Unit), emit (.triggerEv a k) s)
          | some dep => dispatchList n a k dep (emit (.triggerEv a k) s)).2
        cases h2 : look dm k with
        | none => exact hemit
        | some dep =>
          show TF s (dispatchList n a k dep (emit (.triggerEv a k) s)).2
          exact hemit.tfTrans (ihDisp a k dep _)
    exact ⟨htrig, hdisp⟩

theorem tf_trigger (n : Nat) (a : Addr) (k : Key) (s : State) : TF s (trigger n a k s).2 :=
  (tfAll n).1 a k s
theorem tf_dispatchList (n : Nat) (a : Addr) (k : Key) (l : List EffectId) (s : State) :
    TF s (dispatchList n a k l s).2 :=
  (tfAll n).2 a k l s

/-- `reactiveSet` only changes the heap, the queue, computed dirty flags and
the trace; in particular it leaves the dependency graph, the effect registry
and the active-effect context alone. -/
theorem tf_reactiveSet_core (n : Nat) (w : Wrapper) (k : Key) (v : Value) (s : State) :
    (reactiveSet n w k v s).2.targetMap = s.targetMap ∧
    (reactiveSet n w k v s).2.effects = s.effects ∧
    (reactiveSet n w k v s).2.effectStack = s.effectStack ∧
    (reactiveSet n w k v s).2.activeEffect = s.activeEffect ∧
    s.trace <+: (reactiveSet n w k v s).2.trace ∧
    (∀ x ∈ newTrace s (reactiveSet n w k v s).2, isDT x = true) := by
  cases n with
  | zero =>
    exact ⟨rfl, rfl, rfl, rfl, List.prefix_refl _, fun x hx =>
      absurd ((newTrace_refl s) ▸ hx) (List.not_mem_nil x)⟩
  | succ n =>
    have heq : (reactiveSet (n + 1) w k v s).2 = (if v = heapGet s w.raw k
        then ((Except.ok () : Except Err Unit), heapSet s w.raw k v)
        else trigger (n + 1) w.raw k (heapSet s w.raw k v)).2 := rfl
    rw [heq]
    by_cases he : v = heapGet s w.raw k
    · rw [if_pos he]
      exact ⟨rfl, rfl, rfl, rfl, List.prefix_refl _, fun x hx =>
        absurd ((newTrace_eq_nil (Eq.refl _)) ▸ hx) (List.not_mem_nil x)⟩
    · rw [if_neg he]
      have htf := tf_trigger (n + 1) w.raw k (heapSet s w.raw k v)
      exact ⟨htf.tm, htf.eff, htf.stk, htf.ae, htf.tr, fun x hx => htf.ev x hx⟩

@[simp] theorem reactiveGet_effectStack (w : Wrapper) (k : Key) (s : State) :
    (reactiveGet w k s).2.effectStack = s.effectStack := by
  unfold reactiveGet
  cases heapGet s w.raw k <;> simp [reactiveWrap]

@[simp] theorem reactiveGet_activeEffect (w : Wrapper) (k : Key) (s : State) :
    (reactiveGet w k s).2.activeEffect = s.activeEffect := by
  unfold reactiveGet
  cases heapGet s w.raw k <;> simp [reactiveWrap]

/-! ## The active-effect context is restored by every successful run -/

theorem stackAll : ∀ n : Nat,
    (∀ p s v s', WF s → runProg n p s = (.ok v, s') →
      s'.effectStack = s.effectStack ∧ s'.activeEffect = s.activeEffect) ∧
    (∀ e s v s', WF s → runEffect n e s = (.ok v, s') →
      s'.effectStack = s.effectStack ∧ s'.activeEffect = s.effectStack.head?) ∧
    (∀ c s v s', WF s → computedGetValue n c s = (.ok v, s') →
      s'.effectStack = s.effectStack ∧ s'.activeEffect = s.activeEffect) := by
  intro n
  induction n with
  | zero =>
    refine ⟨fun p s v s' hw h => ?_, fun e s v s' hw h => ?_, fun c s v s' hw h => ?_⟩
    all_goals simp [runProg, runEffect, computedGetValue] at h
  | succ n ih =>
    obtain ⟨ihProg, ihEff, ihCgv⟩ := ih
    refine ⟨?_, ?_, ?_⟩
    · intro p s v s' hw h
      cases p with
      | skip =>
        have h' : ((Except.ok (RVal.prim .undef) : Except Err RVal), s) = (.ok v, s') := h
        have hs : s = s' := congrArg Prod.snd h'
        rw [← hs]
        exact ⟨rfl, rfl⟩
      | seq p q =>
        have h' : (match runProg n p s with
          | (.ok _, s1) => runProg n q s1
          | (.error err, s1) => ((.error err : Except Err RVal), s1)) = (.ok v, s') := h
        cases hp : runProg n p s with
        | mk r1 s1 =>
          rw [hp] at h'
          cases r1 with
          | ok u =>
            have h'' : runProg n q s1 = (.ok v, s') := h'
            have e1 := ihProg p s u s1 hw hp
            have hw1 : WF s1 := by
              have := wf_runProg n p hw
              rw [hp] at this
              exact this
            have e2 := ihProg q s1 v s' hw1 h''
            exact ⟨e2.1.trans e1.1, e2.2.trans e1.2⟩
          | error err => simp at h'
      | readP a k =>
        have h' : (match reactiveGet ⟨a, 0⟩ k s with
          | (u, s1) => ((Except.ok u : Except Err RVal), s1)) = (.ok v, s') := h
        cases hg : reactiveGet ⟨a, 0⟩ k s with
        | mk u s1 =>
          rw [hg] at h'
          have hs : s1 = s' := congrArg Prod.snd h'
          rw [← hs]
          constructor
          · have := reactiveGet_effectStack ⟨a, 0⟩ k s
            rw [hg] at this
            exact this
          · have := reactiveGet_activeEffect ⟨a, 0⟩ k s
            rw [hg] at this
            exact this
      | writeP a k vv =>
        have h' : (match reactiveSet n ⟨a, 0⟩ k vv s with
          | (.ok _, s1) => ((Except.ok (RVal.prim vv) : Except Err RVal), s1)
          | (.error err, s1) => (.error err, s1)) = (.ok v, s') := h
        cases hws : reactiveSet n ⟨a, 0⟩ k vv s with
        | mk r1 s1 =>
          rw [hws] at h'
          have hcore := tf_reactiveSet_core n ⟨a, 0⟩ k vv s
          rw [hws] at hcore
          cases r1 with
          | ok u =>
            have hs : s1 = s' := congrArg Prod.snd h'
            rw [← hs]
            exact ⟨hcore.2.2.1, hcore.2.2.2.1⟩
          | error err => simp at h'
      | branch a k p q =>
        have h' : (match reactiveGet ⟨a, 0⟩ k s with
          | (u, s1) => if truthy u then runProg n p s1 else runProg n q s1) = (.ok v, s') := h
        cases hg : reactiveGet ⟨a, 0⟩ k s with
        | mk u s1 =>
          rw [hg] at h'
          have hstk : s1.effectStack = s.effectStack := by
            have := reactiveGet_effectStack ⟨a, 0⟩ k s
            rw [hg] at this
            exact this
          have hact : s1.activeEffect = s.activeEffect := by
            have := reactiveGet_activeEffect ⟨a, 0⟩ k s
            rw [hg] at this
            exact this
          have hw1 : WF s1 := by
            have := hw.wfReactiveGetOp ⟨a, 0⟩ k
            rw [hg] at this
            exact this
          have h'' : (if truthy u then runProg n p s1 else runProg n q s1) = (.ok v, s') := h'
          by_cases ht : truthy u
          · rw [if_pos ht] at h''
            have e2 := ihProg p s1 v s' hw1 h''
            exact ⟨e2.1.trans hstk, e2.2.trans hact⟩
          · rw [if_neg ht] at h''
            have e2 := ihProg q s1 v s' hw1 h''
            exact ⟨e2.1.trans hstk, e2.2.trans hact⟩
      | invokeP e =>
        have h' : runEffect n e s = (.ok v, s') := h
        have e1 := ihEff e s v s' hw h'
        exact ⟨e1.1, e1.2.trans hw.aeTop.symm⟩
      | readC c =>
        have h' : computedGetValue n c s = (.ok v, s') := h
        exact ihCgv c s v s' hw h'
      | failP =>
        have h0 : ((Except.error Err.thrown : Except Err RVal), s) = (.ok v, s') := h
        exact absurd (congrArg Prod.fst h0) (by simp)
    · intro e s v s' hw h
      have h' : (match look s.effects e with
        | none => ((Except.error Err.missing : Except Err RVal), s)
        | some r =>
          match runProg n r.prog { cleanup e (emit (.runEv e) s) with
              activeEffect := some e,
              effectStack := e :: (cleanup e (emit (.runEv e) s)).effectStack } with
          | (.ok u, s3) => ((.ok u : Except Err RVal), { s3 with
              effectStack := s3.effectStack.tail,
              activeEffect := s3.effectStack.tail.head? })
          | (.error err, s3) => (.error err, s3)) = (.ok v, s') := h
      cases hl : look s.effects e with
      | none =>
        rw [hl] at h'
        have h0 : ((Except.error Err.missing : Except Err RVal), s) = (.ok v, s') := h'
        exact absurd (congrArg Prod.fst h0) (by simp)
      | some r =>
        rw [hl] at h'
        have h'' : (match runProg n r.prog { cleanup e (emit (.runEv e) s) with
              activeEffect := some e,
              effectStack := e :: (cleanup e (emit (.runEv e) s)).effectStack } with
          | (.ok u, s3) => ((.ok u : Except Err RVal), { s3 with
              effectStack := s3.effectStack.tail,
              activeEffect := s3.effectStack.tail.head? })
          | (.error err, s3) => (.error err, s3)) = (.ok v, s') := h'
        have hreg0 : registered s e := by
          unfold registered
          rw [hl]
          rfl
        have hregc : registered (cleanup e (emit (.runEv e) s)) e :=
          ((CS.csCleanupOp e (emit (.runEv e) s)).sim.registered_iff e).mpr hreg0
        have hw2 : WF { cleanup e (emit (.runEv e) s) with
            activeEffect := some e,
            effectStack := e :: (cleanup e (emit (.runEv e) s)).effectStack } :=
          ((hw.wfEmitOp (.runEv e)).wfCleanupOp e).stackPush hregc
        cases hp : runProg n r.prog { cleanup e (emit (.runEv e) s) with
            activeEffect := some e,
            effectStack := e :: (cleanup e (emit (.runEv e) s)).effectStack } with
        | mk r1 s3 =>
          rw [hp] at h''
          cases r1 with
          | ok u =>
            have e1 := ihProg r.prog _ u s3 hw2 hp
            have hstk3 : s3.effectStack = e :: s.effectStack := by
              rw [e1.1]
              show e :: (cleanup e (emit (.runEv e) s)).effectStack = e :: s.effectStack
              rw [cleanup_effectStack, emit_effectStack]
            have hs : ({ s3 with
                effectStack := s3.effectStack.tail,
                activeEffect := s3.effectStack.tail.head? } : State) = s' :=
              congrArg Prod.snd h''
            rw [← hs]
            constructor
            · show s3.effectStack.tail = s.effectStack
              rw [hstk3]
              rfl
            · show s3.effectStack.tail.head? = s.effectStack.head?
              rw [hstk3]
              rfl
          | error err => simp at h''
    · intro c s v s' hw h
      have h' : (match look s.computeds c with
        | none => ((Except.error Err.missing : Except Err RVal), s)
        | some cr =>
          if cr.dirty then
            match runEffect n cr.eid (emit (.recompEv c) (emit (.creadEv c) s)) with
            | (.ok u, s1) => ((.ok u : Except Err RVal), track c "value" { s1 with
                computeds := updF s1.computeds c fun r => { r with cval := u, dirty := false } })
            | (.error err, s1) => (.error err, s1)
          else (.ok cr.cval, track c "value" (emit (.creadEv c) s))) = (.ok v, s') := h
      cases hl : look s.computeds c with
      | none =>
        rw [hl] at h'
        have h0 : ((Except.error Err.missing : Except Err RVal), s) = (.ok v, s') := h'
        exact absurd (congrArg Prod.fst h0) (by simp)
      | some cr =>
        rw [hl] at h'
        have h2 : (if cr.dirty then
            match runEffect n cr.eid (emit (.recompEv c) (emit (.creadEv c) s)) with
            | (.ok u, s1) => ((.ok u : Except Err RVal), track c "value" { s1 with
                computeds := updF s1.computeds c fun r => { r with cval := u, dirty := false } })
            | (.error err, s1) => (.error err, s1)
          else (.ok cr.cval, track c "value" (emit (.creadEv c) s))) = (.ok v, s') := h'
        by_cases hd : cr.dirty
        · rw [if_pos hd] at h2
          cases hr : runEffect n cr.eid (emit (.recompEv c) (emit (.creadEv c) s)) with
          | mk r1 s1 =>
            rw [hr] at h2
            cases r1 with
            | ok u =>
              have e1 := ihEff cr.eid (emit (.recompEv c) (emit (.creadEv c) s)) u s1
                ((hw.wfEmitOp _).wfEmitOp _) hr
              have hs : track c "value" { s1 with
                  computeds := updF s1.computeds c
                    fun r => { r with cval := u, dirty := false } } = s' :=
                congrArg Prod.snd h2
              rw [← hs]
              constructor
              · rw [track_effectStack]
                exact e1.1
              · rw [track_activeEffect]
                show s1.activeEffect = s.activeEffect
                rw [e1.2, hw.aeTop]
                rfl
            | error err => simp at h2
        · rw [if_neg hd] at h2
          have hs : track c "value" (emit (.creadEv c) s) = s' := congrArg Prod.snd h2
          rw [← hs]
          constructor
          · rw [track_effectStack]
            rfl
          · rw [track_activeEffect]
            rfl

/-! Corollaries of the context-restoration induction. -/

theorem stack_runProg (n : Nat) (p : Prog) {s : State} {v : RVal} {s' : State}
    (hw : WF s) (h : runProg n p s = (.ok v, s')) :
    s'.effectStack = s.effectStack ∧ s'.activeEffect = s.activeEffect :=
  (stackAll n).1 p s v s' hw h

theorem stack_runEffect (n : Nat) (e : EffectId) {s : State} {v : RVal} {s' : State}
    (hw : WF s) (h : runEffect n e s = (.ok v, s')) :
    s'.effectStack = s.effectStack ∧ s'.activeEffect = s.effectStack.head? :=
  (stackAll n).2.1 e s v s' hw h

theorem stack_cgv (n : Nat) (c : Addr) {s : State} {v : RVal} {s' : State}
    (hw : WF s) (h : computedGetValue n c s = (.ok v, s')) :
    s'.effectStack = s.effectStack ∧ s'.activeEffect = s.activeEffect :=
  (stackAll n).2.2 c s v s' hw h

/-! ## Dependency bookkeeping deltas

Between two states, effect `e` gains exactly the dependencies recorded by its
own `trackEv` events: its `deps` list is extended by those pairs in order, and
its dependency-set memberships are the old ones plus those pairs. -/


theorem DepsDelta.ddRefl (e : EffectId) (s : State) : DepsDelta e s s := by
  refine ⟨List.prefix_refl _, ?_, fun a k => ?_⟩
  · rw [newTrace_refl]
    show depsOf s e = depsOf s e ++ []
    rw [List.append_nil]
  · rw [newTrace_refl]
    show e ∈ depSet s a k ↔ (e ∈ depSet s a k ∨ (a, k) ∈ ([] : List (Addr × Key)))
    simp

theorem DepsDelta.ddTrans {e : EffectId} {s1 s2 s3 : State}
    (h1 : DepsDelta e s1 s2) (h2 : DepsDelta e s2 s3) : DepsDelta e s1 s3 := by
  obtain ⟨tr1, d1, m1⟩ := h1
  obtain ⟨tr2, d2, m2⟩ := h2
  have hnt : newTrace s1 s3 = newTrace s1 s2 ++ newTrace s2 s3 := newTrace_comp tr1 tr2
  refine ⟨tr1.trans tr2, ?_, fun a k => ?_⟩
  · rw [hnt, trackedPairs_append, d2, d1, List.append_assoc]
  · rw [hnt, trackedPairs_append, m2 a k, m1 a k, List.mem_append]
    tauto

theorem DepsDelta.ofParts {e : EffectId} {s s' : State}
    (htm : s'.targetMap = s.targetMap) (heff : s'.effects = s.effects)
    (htr : s'.trace = s.trace) : DepsDelta e s s' := by
  have hnt : newTrace s s' = [] := newTrace_eq_nil htr
  refine ⟨by rw [htr], ?_, fun a k => ?_⟩
  · rw [hnt]
    show depsOf s' e = depsOf s e ++ []
    rw [List.append_nil]
    unfold depsOf
    rw [heff]
  · rw [hnt]
    show e ∈ depSet s' a k ↔ (e ∈ depSet s a k ∨ (a, k) ∈ ([] : List (Addr × Key)))
    unfold depSet
    rw [htm]
    simp

theorem DepsDelta.ofTF {e : EffectId} {s s' : State}
    (htm : s'.targetMap = s.targetMap) (heff : s'.effects = s.effects)
    (htr : s.trace <+: s'.trace) (hev : ∀ x ∈ newTrace s s', isDT x = true) :
    DepsDelta e s s' := by
  have hnt : trackedPairs e (newTrace s s') = [] := trackedPairs_eq_nil_of_all_isDT hev
  refine ⟨htr, ?_, fun a k => ?_⟩
  · rw [hnt, List.append_nil]
    unfold depsOf
    rw [heff]
  · rw [hnt]
    unfold depSet
    rw [htm]
    simp

theorem DepsDelta.ddEmitOp (e : EffectId) (ev : Ev)
    (hnt : trackedPairs e [ev] = []) (s : State) : DepsDelta e s (emit ev s) := by
  have h1 : newTrace s (emit ev s) = [ev] := newTrace_emit ev s
  refine ⟨⟨[ev], Eq.refl _⟩, ?_, fun a k => ?_⟩
  · rw [h1, hnt, List.append_nil]
    rfl
  · rw [h1, hnt]
    show e ∈ depSet s a k ↔ (e ∈ depSet s a k ∨ (a, k) ∈ ([] : List (Addr × Key)))
    simp


theorem DepsDelta.ddTrackOp {s : State} (hw : WF s) (e : EffectId) (a : Addr) (k : Key) :
    DepsDelta e s (track a k s) := by
  cases hae : s.activeEffect with
  | none =>
    rw [track_eq_of_none hae]
    exact DepsDelta.ddRefl e s
  | some e0 =>
    by_cases he : e = e0
    · subst he
      have hreg : registered s e := hw.active_registered hae
      have htr : (track a k s).trace = s.trace ++ [Ev.trackEv e a k] := by
        rw [track_eq_of_some hae]
        rfl
      have hnt : newTrace s (track a k s) = [Ev.trackEv e a k] := by
        unfold newTrace
        rw [htr]
        exact List.drop_left _ _
      have htp : trackedPairs e (newTrace s (track a k s)) = [(a, k)] := by
        rw [hnt]
        simp [trackedPairs]
      refine ⟨⟨[Ev.trackEv e a k], htr.symm⟩, ?_, fun a' k' => ?_⟩
      · rw [htp]
        exact track_depsOf_self hae hreg a k
      · rw [htp]
        by_cases hak : a' = a ∧ k' = k
        · obtain ⟨ha, hk⟩ := hak
          subst ha
          subst hk
          rw [track_depSet_self hae a' k']
          by_cases hm : e ∈ depSet s a' k'
          · rw [if_pos hm]
            simp [hm]
          · rw [if_neg hm]
            simp
        · rw [track_depSet_ne a k hak]
          constructor
          · exact Or.inl
          · intro hor
            cases hor with
            | inl h2 => exact h2
            | inr h2 =>
              exfalso
              apply hak
              have h3 := List.mem_singleton.mp h2
              exact ⟨congrArg Prod.fst h3, congrArg Prod.snd h3⟩
    · have he' : ¬ e0 = e := fun h2 => he h2.symm
      have htr : (track a k s).trace = s.trace ++ [Ev.trackEv e0 a k] := by
        rw [track_eq_of_some hae]
        rfl
      have hnt : newTrace s (track a k s) = [Ev.trackEv e0 a k] := by
        unfold newTrace
        rw [htr]
        exact List.drop_left _ _
      have htp : trackedPairs e (newTrace s (track a k s)) = [] := by
        rw [hnt]
        simp [trackedPairs, he']
      refine ⟨⟨[Ev.trackEv e0 a k], htr.symm⟩, ?_, fun a' k' => ?_⟩
      · rw [htp, List.append_nil]
        refine track_depsOf_ne a k (fun e1 h1 => ?_)
        rw [hae] at h1
        injection h1 with h2
        rw [← h2]
        exact he
      · rw [htp]
        by_cases hak : a' = a ∧ k' = k
        · obtain ⟨ha, hk⟩ := hak
          subst ha
          subst hk
          rw [track_depSet_self hae a' k']
          by_cases hm : e0 ∈ depSet s a' k'
          · rw [if_pos hm]
            simp
          · rw [if_neg hm]
            simp [List.mem_append, he]
        · rw [track_depSet_ne a k hak]
          simp

theorem DepsDelta.cleanupOther {s : State} (hw : WF s) {e e2 : EffectId}
    (hne : e ≠ e2) : DepsDelta e s (cleanup e2 s) := by
  have htr : (cleanup e2 s).trace = s.trace ++ [Ev.cleanupEv e2] := rfl
  have hnt : newTrace s (cleanup e2 s) = [Ev.cleanupEv e2] := by
    unfold newTrace
    rw [htr]
    exact List.drop_left _ _
  have htp : trackedPairs e (newTrace s (cleanup e2 s)) = [] := by
    rw [hnt]
    simp [trackedPairs]
  refine ⟨⟨[Ev.cleanupEv e2], htr.symm⟩, ?_, fun a k => ?_⟩
  · rw [htp, List.append_nil]
    exact cleanup_depsOf_ne e2 s hne
  · rw [htp]
    rw [cleanup_depSet (fun a k => hw.depSet_nodup a k) e2 a k]
    by_cases hm : (a, k) ∈ depsOf s e2
    · rw [if_pos hm]
      simp [List.mem_erase_of_ne hne]
    · rw [if_neg hm]
      simp

/-- After `cleanup e`, effect `e` sits in no dependency set at all. -/
theorem cleanup_not_mem_depSet {s : State} (hw : WF s) (e : EffectId) (a : Addr) (k : Key) :
    e ∉ depSet (cleanup e s) a k := by
  rw [cleanup_depSet (fun a k => hw.depSet_nodup a k) e a k]
  by_cases hm : (a, k) ∈ depsOf s e
  · rw [if_pos hm]
    intro hmem
    exact ((hw.depSet_nodup a k).mem_erase_iff.mp hmem).1 rfl
  · rw [if_neg hm]
    intro hmem
    exact hm ((hw.mem_depSet_iff a k e).mp hmem)

theorem DepsDelta.ddReactiveGetOp {s : State} (hw : WF s) (e : EffectId) (w : Wrapper)
    (k : Key) : DepsDelta e s (reactiveGet w k s).2 := by
  unfold reactiveGet
  cases heapGet s w.raw k
  case objV a =>
    exact (DepsDelta.ddTrackOp hw e w.raw k).ddTrans (DepsDelta.ofParts rfl rfl rfl)
  all_goals exact DepsDelta.ddTrackOp hw e w.raw k

theorem DepsDelta.reactiveSetOp (n : Nat) (w : Wrapper) (k : Key) (v : Value) (s : State)
    (e : EffectId) : DepsDelta e s (reactiveSet n w k v s).2 := by
  have h := tf_reactiveSet_core n w k v s
  exact DepsDelta.ofTF h.1 h.2.1 h.2.2.2.2.1 h.2.2.2.2.2

theorem countEv_zero_split {ev : Ev} {s1 s2 s3 : State} (h1 : s1.trace <+: s2.trace)
    (h2 : s2.trace <+: s3.trace) (h : countEv ev (newTrace s1 s3) = 0) :
    countEv ev (newTrace s1 s2) = 0 ∧ countEv ev (newTrace s2 s3) = 0 := by
  rw [newTrace_comp h1 h2, countEv_append] at h
  omega


/-- Dependency bookkeeping across every successful interpreter run: so long as
no reentrant `cleanup` of the observed effect occurs, its deps grow by exactly
its own tracked pairs. -/
theorem depsAll : ∀ n : Nat,
    (∀ p s v s' e, WF s → runProg n p s = (.ok v, s') →
      countEv (.cleanupEv e) (newTrace s s') = 0 → DepsDelta e s s') ∧
    (∀ e2 s v s' e, WF s → runEffect n e2 s = (.ok v, s') →
      countEv (.cleanupEv e) (newTrace s s') = 0 → DepsDelta e s s') ∧
    (∀ c s v s' e, WF s → computedGetValue n c s = (.ok v, s') →
      countEv (.cleanupEv e) (newTrace s s') = 0 → DepsDelta e s s') := by
  intro n
  induction n with
  | zero =>
    refine ⟨fun p s v s' e hw h hc => ?_, fun e2 s v s' e hw h hc => ?_,
      fun c s v s' e hw h hc => ?_⟩
    all_goals simp [runProg, runEffect, computedGetValue] at h
  | succ n ih =>
    obtain ⟨ihProg, ihEff, ihCgv⟩ := ih
    refine ⟨?_, ?_, ?_⟩
    · intro p s v s' e hw h hc
      cases p with
      | skip =>
        have h' : ((Except.ok (RVal.prim .undef) : Except Err RVal), s) = (.ok v, s') := h
        have hs : s = s' := congrArg Prod.snd h'
        rw [← hs]
        exact DepsDelta.ddRefl e s
      | seq p q =>
        have h' : (match runProg n p s with
          | (.ok _, s1) => runProg n q s1
          | (.error err, s1) => ((.error err : Except Err RVal), s1)) = (.ok v, s') := h
        cases hp : runProg n p s with
        | mk r1 s1 =>
          rw [hp] at h'
          cases r1 with
          | ok u =>
            have h'' : runProg n q s1 = (.ok v, s') := h'
            have hw1 : WF s1 := by
              have := wf_runProg n p hw
              rw [hp] at this
              exact this
            have tr1 : s.trace <+: s1.trace := by
              have := cs_runProg n p s
              rw [hp] at this
              exact this.sim.tr
            have tr2 : s1.trace <+: s'.trace := by
              have := cs_runProg n q s1
              rw [h''] at this
              exact this.sim.tr
            obtain ⟨c1, c2⟩ := countEv_zero_split tr1 tr2 hc
            exact (ihProg p s u s1 e hw hp c1).ddTrans (ihProg q s1 v s' e hw1 h'' c2)
          | error err => simp at h'
      | readP a k =>
        have h' : (match reactiveGet ⟨a, 0⟩ k s with
          | (u, s1) => ((Except.ok u : Except Err RVal), s1)) = (.ok v, s') := h
        cases hg : reactiveGet ⟨a, 0⟩ k s with
        | mk u s1 =>
          rw [hg] at h'
          have hs : s1 = s' := congrArg Prod.snd h'
          rw [← hs]
          have := DepsDelta.ddReactiveGetOp hw e ⟨a, 0⟩ k
          rw [hg] at this
          exact this
      | writeP a k vv =>
        have h' : (match reactiveSet n ⟨a, 0⟩ k vv s with
          | (.ok _, s1) => ((Except.ok (RVal.prim vv) : Except Err RVal), s1)
          | (.error err, s1) => (.error err, s1)) = (.ok v, s') := h
        cases hws : reactiveSet n ⟨a, 0⟩ k vv s with
        | mk r1 s1 =>
          rw [hws] at h'
          cases r1 with
          | ok u =>
            have hs : s1 = s' := congrArg Prod.snd h'
            rw [← hs]
            have := DepsDelta.reactiveSetOp n ⟨a, 0⟩ k vv s e
            rw [hws] at this
            exact this
          | error err => simp at h'
      | branch a k p q =>
        have h' : (match reactiveGet ⟨a, 0⟩ k s with
          | (u, s1) => if truthy u then runProg n p s1 else runProg n q s1) = (.ok v, s') := h
        cases hg : reactiveGet ⟨a, 0⟩ k s with
        | mk u s1 =>
          rw [hg] at h'
          have hw1 : WF s1 := by
            have := hw.wfReactiveGetOp ⟨a, 0⟩ k
            rw [hg] at this
            exact this
          have dg : DepsDelta e s s1 := by
            have := DepsDelta.ddReactiveGetOp hw e ⟨a, 0⟩ k
            rw [hg] at this
            exact this
          have tr1 : s.trace <+: s1.trace := by
            have := CS.csReactiveGetOp ⟨a, 0⟩ k s
            rw [hg] at this
            exact this.sim.tr
          have h'' : (if truthy u then runProg n p s1 else runProg n q s1) = (.ok v, s') := h'
          by_cases ht : truthy u
          · rw [if_pos ht] at h''
            have tr2 : s1.trace <+: s'.trace := by
              have := cs_runProg n p s1
              rw [h''] at this
              exact this.sim.tr
            obtain ⟨c1, c2⟩ := countEv_zero_split tr1 tr2 hc
            exact dg.ddTrans (ihProg p s1 v s' e hw1 h'' c2)
          · rw [if_neg ht] at h''
            have tr2 : s1.trace <+: s'.trace := by
              have := cs_runProg n q s1
              rw [h''] at this
              exact this.sim.tr
            obtain ⟨c1, c2⟩ := countEv_zero_split tr1 tr2 hc
            exact dg.ddTrans (ihProg q s1 v s' e hw1 h'' c2)
      | invokeP e0 =>
        have h' : runEffect n e0 s = (.ok v, s') := h
        exact ihEff e0 s v s' e hw h' hc
      | readC c0 =>
        have h' : computedGetValue n c0 s = (.ok v, s') := h
        exact ihCgv c0 s v s' e hw h' hc
      | failP =>
        have h0 : ((Except.error Err.thrown : Except Err RVal), s) = (.ok v, s') := h
        exact absurd (congrArg Prod.fst h0) (by simp)
    · intro e2 s v s' e hw h hc
      have h' : (match look s.effects e2 with
        | none => ((Except.error Err.missing : Except Err RVal), s)
        | some r =>
          match runProg n r.prog { cleanup e2 (emit (.runEv e2) s) with
              activeEffect := some e2,
              effectStack := e2 :: (cleanup e2 (emit (.runEv e2) s)).effectStack } with
          | (.ok u, s3) => ((.ok u : Except Err RVal), { s3 with
              effectStack := s3.effectStack.tail,
              activeEffect := s3.effectStack.tail.head? })
          | (.error err, s3) => (.error err, s3)) = (.ok v, s') := h
      cases hl : look s.effects e2 with
      | none =>
        rw [hl] at h'
        have h0 : ((Except.error Err.missing : Except Err RVal), s) = (.ok v, s') := h'
        exact absurd (congrArg Prod.fst h0) (by simp)
      | some r =>
        rw [hl] at h'
        have h'' : (match runProg n r.prog { cleanup e2 (emit (.runEv e2) s) with
              activeEffect := some e2,
              effectStack := e2 :: (cleanup e2 (emit (.runEv e2) s)).effectStack } with
          | (.ok u, s3) => ((.ok u : Except Err RVal), { s3 with
              effectStack := s3.effectStack.tail,
              activeEffect := s3.effectStack.tail.head? })
          | (.error err, s3) => (.error err, s3)) = (.ok v, s') := h'
        have hreg0 : registered s e2 := by
          unfold registered
          rw [hl]
          rfl
        have hregc : registered (cleanup e2 (emit (.runEv e2) s)) e2 :=
          ((CS.csCleanupOp e2 (emit (.runEv e2) s)).sim.registered_iff e2).mpr hreg0
        have hw2 : WF { cleanup e2 (emit (.runEv e2) s) with
            activeEffect := some e2,
            effectStack := e2 :: (cleanup e2 (emit (.runEv e2) s)).effectStack } :=
          ((hw.wfEmitOp (.runEv e2)).wfCleanupOp e2).stackPush hregc
        cases hp : runProg n r.prog { cleanup e2 (emit (.runEv e2) s) with
            activeEffect := some e2,
            effectStack := e2 :: (cleanup e2 (emit (.runEv e2) s)).effectStack } with
        | mk r1 s3 =>
          rw [hp] at h''
          cases r1 with
          | ok u =>
            have hs : ({ s3 with
                effectStack := s3.effectStack.tail,
                activeEffect := s3.effectStack.tail.head? } : State) = s' :=
              congrArg Prod.snd h''
            have htr2 : ({ cleanup e2 (emit (.runEv e2) s) with
                activeEffect := some e2,
                effectStack := e2 :: (cleanup e2 (emit (.runEv e2) s)).effectStack } : State).trace
                = s.trace ++ [Ev.runEv e2, Ev.cleanupEv e2] := by
              show (s.trace ++ [Ev.runEv e2]) ++ [Ev.cleanupEv e2] = _
              rw [List.append_assoc]
              rfl
            have htr23 : ({ cleanup e2 (emit (.runEv e2) s) with
                activeEffect := some e2,
                effectStack := e2 :: (cleanup e2 (emit (.runEv e2) s)).effectStack } : State).trace
                <+: s3.trace := by
              have := cs_runProg n r.prog { cleanup e2 (emit (.runEv e2) s) with
                activeEffect := some e2,
                effectStack := e2 :: (cleanup e2 (emit (.runEv e2) s)).effectStack }
              rw [hp] at this
              exact this.sim.tr
            have hstr : s'.trace = s3.trace := by
              rw [← hs]
            have hdelta : newTrace s s' = [Ev.runEv e2, Ev.cleanupEv e2] ++
                newTrace ({ cleanup e2 (emit (.runEv e2) s) with
                  activeEffect := some e2,
                  effectStack := e2 :: (cleanup e2 (emit (.runEv e2) s)).effectStack } : State)
                  s3 := by
              show s'.trace.drop s.trace.length = _
              rw [hstr, newTrace_eq htr23, htr2, List.append_assoc]
              exact List.drop_left _ _
            rw [hdelta, countEv_append] at hc
            have hne : e ≠ e2 := by
              intro hEq
              subst hEq
              have hcw : countEv (Ev.cleanupEv e) [Ev.runEv e, Ev.cleanupEv e] = 1 := by
                simp [countEv]
              omega
            have hcw : countEv (Ev.cleanupEv e) [Ev.runEv e2, Ev.cleanupEv e2] = 0 := by
              simp [countEv, hne]
            have hc23 : countEv (Ev.cleanupEv e)
                (newTrace ({ cleanup e2 (emit (.runEv e2) s) with
                  activeEffect := some e2,
                  effectStack := e2 :: (cleanup e2 (emit (.runEv e2) s)).effectStack } : State)
                  s3) = 0 := by
              omega
            have d01 : DepsDelta e s (emit (.runEv e2) s) :=
              DepsDelta.ddEmitOp e (.runEv e2) rfl s
            have d12 : DepsDelta e (emit (.runEv e2) s) (cleanup e2 (emit (.runEv e2) s)) :=
              DepsDelta.cleanupOther (hw.wfEmitOp (.runEv e2)) hne
            have d23 : DepsDelta e (cleanup e2 (emit (.runEv e2) s))
                ({ cleanup e2 (emit (.runEv e2) s) with
                  activeEffect := some e2,
                  effectStack := e2 :: (cleanup e2 (emit (.runEv e2) s)).effectStack } : State) :=
              DepsDelta.ofParts rfl rfl rfl
            have d34 := ihProg r.prog _ u s3 e hw2 hp hc23
            have d45 : DepsDelta e s3 s' := by
              rw [← hs]
              exact DepsDelta.ofParts rfl rfl rfl
            exact (((d01.ddTrans d12).ddTrans d23).ddTrans d34).ddTrans d45
          | error err => simp at h''
    · intro c s v s' e hw h hc
      have h' : (match look s.computeds c with
        | none => ((Except.error Err.missing : Except Err RVal), s)
        | some cr =>
          if cr.dirty then
            match runEffect n cr.eid (emit (.recompEv c) (emit (.creadEv c) s)) with
            | (.ok u, s1) => ((.ok u : Except Err RVal), track c "value" { s1 with
                computeds := updF s1.computeds c fun r => { r with cval := u, dirty := false } })
            | (.error err, s1) => (.error err, s1)
          else (.ok cr.cval, track c "value" (emit (.creadEv c) s))) = (.ok v, s') := h
      cases hl : look s.computeds c with
      | none =>
        rw [hl] at h'
        have h0 : ((Except.error Err.missing : Except Err RVal), s) = (.ok v, s') := h'
        exact absurd (congrArg Prod.fst h0) (by simp)
      | some cr =>
        rw [hl] at h'
        have h2 : (if cr.dirty then
            match runEffect n cr.eid (emit (.recompEv c) (emit (.creadEv c) s)) with
            | (.ok u, s1) => ((.ok u : Except Err RVal), track c "value" { s1 with
                computeds := updF s1.computeds c fun r => { r with cval := u, dirty := false } })
            | (.error err, s1) => (.error err, s1)
          else (.ok cr.cval, track c "value" (emit (.creadEv c) s))) = (.ok v, s') := h'
        by_cases hd : cr.dirty
        · rw [if_pos hd] at h2
          cases hr : runEffect n cr.eid (emit (.recompEv c) (emit (.creadEv c) s)) with
          | mk r1 s1 =>
            rw [hr] at h2
            cases r1 with
            | ok u =>
              have hs : track c "value" { s1 with
                  computeds := updF s1.computeds c
                    fun r => { r with cval := u, dirty := false } } = s' :=
                congrArg Prod.snd h2
              have hwA : WF (emit (.recompEv c) (emit (.creadEv c) s)) :=
                (hw.wfEmitOp (.creadEv c)).wfEmitOp (.recompEv c)
              have hw1 : WF s1 := by
                have := wf_runEffect n cr.eid hwA
                rw [hr] at this
                exact this
              have hwU : WF { s1 with
                  computeds := updF s1.computeds c
                    fun r => { r with cval := u, dirty := false } } :=
                hw1.wfUpdCompVal c u
              have trA : s.trace <+: (emit (.recompEv c) (emit (.creadEv c) s)).trace := by
                refine ⟨[Ev.creadEv c, Ev.recompEv c], ?_⟩
                show s.trace ++ [Ev.creadEv c, Ev.recompEv c]
                  = (s.trace ++ [Ev.creadEv c]) ++ [Ev.recompEv c]
                rw [List.append_assoc]
                rfl
              have trB : (emit (.recompEv c) (emit (.creadEv c) s)).trace <+: s1.trace := by
                have := cs_runEffect n cr.eid (emit (.recompEv c) (emit (.creadEv c) s))
                rw [hr] at this
                exact this.sim.tr
              have trC : s1.trace <+: s'.trace := by
                rw [← hs]
                exact (CS.csTrackOp c "value" { s1 with
                  computeds := updF s1.computeds c
                    fun r => { r with cval := u, dirty := false } }).sim.tr
              obtain ⟨cA, cBC⟩ := countEv_zero_split trA (trB.trans trC) hc
              obtain ⟨cB, cC⟩ := countEv_zero_split trB trC cBC
              have dA : DepsDelta e s (emit (.recompEv c) (emit (.creadEv c) s)) :=
                (DepsDelta.ddEmitOp e (.creadEv c) rfl s).ddTrans
                  (DepsDelta.ddEmitOp e (.recompEv c) rfl (emit (.creadEv c) s))
              have dB : DepsDelta e (emit (.recompEv c) (emit (.creadEv c) s)) s1 :=
                ihEff cr.eid (emit (.recompEv c) (emit (.creadEv c) s)) u s1 e hwA hr cB
              have dC : DepsDelta e s1 { s1 with
                  computeds := updF s1.computeds c
                    fun r => { r with cval := u, dirty := false } } :=
                DepsDelta.ofParts rfl rfl rfl
              have dD : DepsDelta e { s1 with
                  computeds := updF s1.computeds c
                    fun r => { r with cval := u, dirty := false } } s' := by
                rw [← hs]
                exact DepsDelta.ddTrackOp hwU e c "value"
              exact ((dA.ddTrans dB).ddTrans dC).ddTrans dD
            | error err => simp at h2
        · rw [if_neg hd] at h2
          have hs : track c "value" (emit (.creadEv c) s) = s' := congrArg Prod.snd h2
          rw [← hs]
          exact (DepsDelta.ddEmitOp e (.creadEv c) rfl s).ddTrans
            (DepsDelta.ddTrackOp (hw.wfEmitOp (.creadEv c)) e c "value")


/-- A completed, non-reentrant run of an effect leaves its deps list equal to
exactly the pairs it tracked during the run, and its dependency-set
memberships equal to exactly those pairs. -/
theorem runEffect_deps_exact (n : Nat) (e : EffectId) {s : State} {v : RVal} {s' : State}
    (hw : WF s) (h : runEffect n e s = (.ok v, s'))
    (hc : countEv (.cleanupEv e) (newTrace s s') = 1) :
    depsOf s' e = trackedPairs e (newTrace s s') ∧
    ∀ a k, (e ∈ depSet s' a k ↔ (a, k) ∈ trackedPairs e (newTrace s s')) := by
  cases n with
  | zero => simp [runEffect] at h
  | succ n =>
    have h' : (match look s.effects e with
      | none => ((Except.error Err.missing : Except Err RVal), s)
      | some r =>
        match runProg n r.prog { cleanup e (emit (.runEv e) s) with
            activeEffect := some e,
            effectStack := e :: (cleanup e (emit (.runEv e) s)).effectStack } with
        | (.ok u, s3) => ((.ok u : Except Err RVal), { s3 with
            effectStack := s3.effectStack.tail,
            activeEffect := s3.effectStack.tail.head? })
        | (.error err, s3) => (.error err, s3)) = (.ok v, s') := h
    cases hl : look s.effects e with
    | none =>
      rw [hl] at h'
      have h0 : ((Except.error Err.missing : Except Err RVal), s) = (.ok v, s') := h'
      exact absurd (congrArg Prod.fst h0) (by simp)
    | some r =>
      rw [hl] at h'
      have h'' : (match runProg n r.prog { cleanup e (emit (.runEv e) s) with
            activeEffect := some e,
            effectStack := e :: (cleanup e (emit (.runEv e) s)).effectStack } with
        | (.ok u, s3) => ((.ok u : Except Err RVal), { s3 with
            effectStack := s3.effectStack.tail,
            activeEffect := s3.effectStack.tail.head? })
        | (.error err, s3) => (.error err, s3)) = (.ok v, s') := h'
      have hreg0 : registered s e := by
        unfold registered
        rw [hl]
        rfl
      have hregc : registered (cleanup e (emit (.runEv e) s)) e :=
        ((CS.csCleanupOp e (emit (.runEv e) s)).sim.registered_iff e).mpr hreg0
      have hw2 : WF { cleanup e (emit (.runEv e) s) with
          activeEffect := some e,
          effectStack := e :: (cleanup e (emit (.runEv e) s)).effectStack } :=
        ((hw.wfEmitOp (.runEv e)).wfCleanupOp e).stackPush hregc
      cases hp : runProg n r.prog { cleanup e (emit (.runEv e) s) with
          activeEffect := some e,
          effectStack := e :: (cleanup e (emit (.runEv e) s)).effectStack } with
      | mk r1 s3 =>
        rw [hp] at h''
        cases r1 with
        | ok u =>
          have hs : ({ s3 with
              effectStack := s3.effectStack.tail,
              activeEffect := s3.effectStack.tail.head? } : State) = s' :=
            congrArg Prod.snd h''
          have htr2 : ({ cleanup e (emit (.runEv e) s) with
              activeEffect := some e,
              effectStack := e :: (cleanup e (emit (.runEv e) s)).effectStack } : State).trace
              = s.trace ++ [Ev.runEv e, Ev.cleanupEv e] := by
            show (s.trace ++ [Ev.runEv e]) ++ [Ev.cleanupEv e] = _
            rw [List.append_assoc]
            rfl
          have htr23 : ({ cleanup e (emit (.runEv e) s) with
              activeEffect := some e,
              effectStack := e :: (cleanup e (emit (.runEv e) s)).effectStack } : State).trace
              <+: s3.trace := by
            have := cs_runProg n r.prog { cleanup e (emit (.runEv e) s) with
              activeEffect := some e,
              effectStack := e :: (cleanup e (emit (.runEv e) s)).effectStack }
            rw [hp] at this
            exact this.sim.tr
          have hstr : s'.trace = s3.trace := by
            rw [← hs]
          have hdelta : newTrace s s' = [Ev.runEv e, Ev.cleanupEv e] ++
              newTrace ({ cleanup e (emit (.runEv e) s) with
                activeEffect := some e,
                effectStack := e :: (cleanup e (emit (.runEv e) s)).effectStack } : State)
                s3 := by
            show s'.trace.drop s.trace.length = _
            rw [hstr, newTrace_eq htr23, htr2, List.append_assoc]
            exact List.drop_left _ _
          have hcw : countEv (Ev.cleanupEv e) [Ev.runEv e, Ev.cleanupEv e] = 1 := by
            simp [countEv]
          have hc23 : countEv (Ev.cleanupEv e)
              (newTrace ({ cleanup e (emit (.runEv e) s) with
                activeEffect := some e,
                effectStack := e :: (cleanup e (emit (.runEv e) s)).effectStack } : State)
                s3) = 0 := by
            rw [hdelta, countEv_append, hcw] at hc
            omega
          have dd := (depsAll n).1 r.prog _ u s3 e hw2 hp hc23
          obtain ⟨ddtr, dddeps, ddmem⟩ := dd
          have hd2 : depsOf ({ cleanup e (emit (.runEv e) s) with
              activeEffect := some e,
              effectStack := e :: (cleanup e (emit (.runEv e) s)).effectStack } : State) e
              = [] := cleanup_depsOf_self e (emit (.runEv e) s)
          have hm2 : ∀ a k, e ∉ depSet ({ cleanup e (emit (.runEv e) s) with
              activeEffect := some e,
              effectStack := e :: (cleanup e (emit (.runEv e) s)).effectStack } : State) a k :=
            fun a k => cleanup_not_mem_depSet (hw.wfEmitOp (.runEv e)) e a k
          have htp : trackedPairs e (newTrace s s') =
              trackedPairs e (newTrace ({ cleanup e (emit (.runEv e) s) with
                activeEffect := some e,
                effectStack := e :: (cleanup e (emit (.runEv e) s)).effectStack } : State) s3) := by
            rw [hdelta, trackedPairs_append]
            rfl
          constructor
          · have hde : depsOf s' e = depsOf s3 e := by
              rw [← hs]
              rfl
            rw [hde, dddeps, hd2, htp]
            rfl
          · intro a k
            have hme : e ∈ depSet s' a k ↔ e ∈ depSet s3 a k := by
              rw [← hs]
              rfl
            rw [hme, ddmem a k, htp]
            constructor
            · intro hor
              cases hor with
              | inl h3 => exact absurd h3 (hm2 a k)
              | inr h3 => exact h3
            · exact Or.inr
        | error err => simp at h''


/-! ## Dispatch counting for a single trigger call -/

theorem countEv_nil (ev : Ev) : countEv ev [] = 0 := rfl

theorem countEv_singleton (x y : Ev) : countEv x [y] = if x = y then 1 else 0 := by
  by_cases h : x = y
  · subst h
    simp [countEv]
  · have h' : ¬ y = x := fun h2 => h h2.symm
    simp [countEv, List.count_cons, h, h']

theorem trigCountAll : ∀ n : Nat,
    (∀ a k e s u s2, WF s → trigger n a k s = (.ok u, s2) →
      countEv (.triggerEv a k) (newTrace s s2) = 1 →
      countEv (.dispatchEv a k e) (newTrace s s2) = (depSet s a k).count e) ∧
    (∀ a k e l s u s2, dispatchList n a k l s = (.ok u, s2) →
      countEv (.triggerEv a k) (newTrace s s2) = 0 →
      countEv (.dispatchEv a k e) (newTrace s s2) = l.count e) ∧
    (∀ a k e a2 k2 s r s2, trigger n a2 k2 s = (r, s2) →
      countEv (.triggerEv a k) (newTrace s s2) = 0 →
      countEv (.dispatchEv a k e) (newTrace s s2) = 0) ∧
    (∀ a k e a2 k2 l s r s2, ¬(a2 = a ∧ k2 = k) → dispatchList n a2 k2 l s = (r, s2) →
      countEv (.triggerEv a k) (newTrace s s2) = 0 →
      countEv (.dispatchEv a k e) (newTrace s s2) = 0) := by
  intro n
  induction n with
  | zero =>
    refine ⟨fun a k e s u s2 hw h hc => ?_, fun a k e l s u s2 h hc => ?_,
      fun a k e a2 k2 s r s2 h hc => ?_, fun a k e a2 k2 l s r s2 hne h hc => ?_⟩
    · simp [trigger] at h
    · simp [dispatchList] at h
    · have hs : s = s2 := congrArg Prod.snd h
      rw [← hs, newTrace_refl]
      rfl
    · have hs : s = s2 := congrArg Prod.snd h
      rw [← hs, newTrace_refl]
      rfl
  | succ n ih =>
    obtain ⟨ihTS, ihDS, ihTZ, ihDZ⟩ := ih
    have stepTrig : ∀ a2 k2 (s : State) r s2, trigger (n + 1) a2 k2 s = (r, s2) →
        (∀ a k e, countEv (.triggerEv a k) (newTrace s s2) = 0 →
          countEv (.dispatchEv a k e) (newTrace s s2) = 0) := by
      intro a2 k2 s r s2 h a k e hc
      have h' : (match look (emit (.triggerEv a2 k2) s).targetMap a2 with
        | none => ((Except.ok () : Except Err Unit), emit (.triggerEv a2 k2) s)
        | some dm =>
          match look dm k2 with
          | none => ((Except.ok () : Except Err Unit), emit (.triggerEv a2 k2) s)
          | some dep => dispatchList n a2 k2 dep (emit (.triggerEv a2 k2) s)) = (r, s2) := h
      have hne : ¬(a2 = a ∧ k2 = k) := by
        intro hak
        obtain ⟨ha, hk⟩ := hak
        subst ha
        subst hk
        have htr0 : s.trace <+: (emit (.triggerEv a2 k2) s).trace := ⟨[.triggerEv a2 k2], rfl⟩
        have htr1 : (emit (.triggerEv a2 k2) s).trace <+: s2.trace := by
          have hcs : CS (emit (.triggerEv a2 k2) s) s2 := by
            cases hl : look (emit (.triggerEv a2 k2) s).targetMap a2 with
            | none =>
              rw [hl] at h'
              have hs : (emit (.triggerEv a2 k2) s) = s2 := congrArg Prod.snd h'
              rw [← hs]
              exact CS.csRefl _
            | some dm =>
              rw [hl] at h'
              have h'' : (match look dm k2 with
                | none => ((Except.ok () : Except Err Unit), emit (.triggerEv a2 k2) s)
                | some dep => dispatchList n a2 k2 dep (emit (.triggerEv a2 k2) s)) = (r, s2) := h'
              cases hl2 : look dm k2 with
              | none =>
                rw [hl2] at h''
                have hs : (emit (.triggerEv a2 k2) s) = s2 := congrArg Prod.snd h''
                rw [← hs]
                exact CS.csRefl _
              | some dep =>
                rw [hl2] at h''
                have h3 : dispatchList n a2 k2 dep (emit (.triggerEv a2 k2) s) = (r, s2) := h''
                have := cs_dispatchList n a2 k2 dep (emit (.triggerEv a2 k2) s)
                rw [h3] at this
                exact this
          exact hcs.sim.tr
        have hsplit := newTrace_comp htr0 htr1
        rw [hsplit, countEv_append, newTrace_emit, countEv_singleton, if_pos rfl] at hc
        omega
      cases hl : look (emit (.triggerEv a2 k2) s).targetMap a2 with
      | none =>
        rw [hl] at h'
        have hs : (emit (.triggerEv a2 k2) s) = s2 := congrArg Prod.snd h'
        rw [← hs, newTrace_emit, countEv_singleton, if_neg]
        intro hfalse
        cases hfalse
      | some dm =>
        rw [hl] at h'
        have h'' : (match look dm k2 with
          | none => ((Except.ok () : Except Err Unit), emit (.triggerEv a2 k2) s)
          | some dep => dispatchList n a2 k2 dep (emit (.triggerEv a2 k2) s)) = (r, s2) := h'
        cases hl2 : look dm k2 with
        | none =>
          rw [hl2] at h''
          have hs : (emit (.triggerEv a2 k2) s) = s2 := congrArg Prod.snd h''
          rw [← hs, newTrace_emit, countEv_singleton, if_neg]
          intro hfalse
          cases hfalse
        | some dep =>
          rw [hl2] at h''
          have h3 : dispatchList n a2 k2 dep (emit (.triggerEv a2 k2) s) = (r, s2) := h''
          have htr0 : s.trace <+: (emit (.triggerEv a2 k2) s).trace := ⟨[.triggerEv a2 k2], rfl⟩
          have htr1 : (emit (.triggerEv a2 k2) s).trace <+: s2.trace := by
            have := cs_dispatchList n a2 k2 dep (emit (.triggerEv a2 k2) s)
            rw [h3] at this
            exact this.sim.tr
          have hsplit := newTrace_comp htr0 htr1
          rw [hsplit, countEv_append, newTrace_emit] at hc ⊢
          have hc1 : countEv (.triggerEv a k) (newTrace (emit (.triggerEv a2 k2) s) s2) = 0 := by
            omega
          rw [ihDZ a k e a2 k2 dep (emit (.triggerEv a2 k2) s) r s2 hne h3 hc1]
          rw [countEv_singleton, if_neg]
          intro hfalse
          cases hfalse
    refine ⟨?_, ?_, ?_, ?_⟩
    · intro a k e s u s2 hw h hc
      have h' : (match look (emit (.triggerEv a k) s).targetMap a with
        | none => ((Except.ok () : Except Err Unit), emit (.triggerEv a k) s)
        | some dm =>
          match look dm k with
          | none => ((Except.ok () : Except Err Unit), emit (.triggerEv a k) s)
          | some dep => dispatchList n a k dep (emit (.triggerEv a k) s)) = (.ok u, s2) := h
      cases hl : look (emit (.triggerEv a k) s).targetMap a with
      | none =>
        rw [hl] at h'
        have hs : (emit (.triggerEv a k) s) = s2 := congrArg Prod.snd h'
        have hdep : depSet s a k = [] := by
          unfold depSet
          have hl' : look s.targetMap a = none := hl
          rw [hl']
          rfl
        rw [← hs, newTrace_emit, hdep, countEv_singleton, if_neg]
        · rfl
        · intro hfalse
          cases hfalse
      | some dm =>
        rw [hl] at h'
        have h'' : (match look dm k with
          | none => ((Except.ok () : Except Err Unit), emit (.triggerEv a k) s)
          | some dep => dispatchList n a k dep (emit (.triggerEv a k) s)) = (.ok u, s2) := h'
        cases hl2 : look dm k with
        | none =>
          rw [hl2] at h''
          have hs : (emit (.triggerEv a k) s) = s2 := congrArg Prod.snd h''
          have hdep : depSet s a k = [] := by
            unfold depSet
            have hl' : look s.targetMap a = some dm := hl
            rw [hl']
            simp only [Option.some_bind]
            rw [hl2]
            rfl
          rw [← hs, newTrace_emit, hdep, countEv_singleton, if_neg]
          · rfl
          · intro hfalse
            cases hfalse
        | some dep =>
          rw [hl2] at h''
          have h3 : dispatchList n a k dep (emit (.triggerEv a k) s) = (.ok u, s2) := h''
          have hdep : depSet s a k = dep := by
            unfold depSet
            have hl' : look s.targetMap a = some dm := hl
            rw [hl']
            simp only [Option.some_bind]
            rw [hl2]
            rfl
          have htr0 : s.trace <+: (emit (.triggerEv a k) s).trace := ⟨[.triggerEv a k], rfl⟩
          have htr1 : (emit (.triggerEv a k) s).trace <+: s2.trace := by
            have := cs_dispatchList n a k dep (emit (.triggerEv a k) s)
            rw [h3] at this
            exact this.sim.tr
          have hsplit := newTrace_comp htr0 htr1
          rw [hsplit, countEv_append, newTrace_emit] at hc ⊢
          have hc1 : countEv (.triggerEv a k) (newTrace (emit (.triggerEv a k) s) s2) = 0 := by
            rw [countEv_singleton, if_pos rfl] at hc
            omega
          rw [ihDS a k e dep (emit (.triggerEv a k) s) u s2 h3 hc1, hdep]
          rw [countEv_singleton, if_neg (fun hf => Ev.noConfusion hf)]
          omega
    · intro a k e l s u s2 h hc
      cases l with
      | nil =>
        have hs : s = s2 := congrArg Prod.snd h
        rw [← hs, newTrace_refl]
        rfl
      | cons e1 rest =>
        have h' : (match look (emit (.dispatchEv a k e1) s).effects e1 with
          | none => ((Except.error Err.missing : Except Err Unit), emit (.dispatchEv a k e1) s)
          | some r =>
            match r.sched with
            | some c =>
              match trigger n c "value" (emit (.schedEv c) { emit (.dispatchEv a k e1) s with
                  computeds := updF (emit (.dispatchEv a k e1) s).computeds c
                    fun cr => { cr with dirty := true } }) with
              | (.ok _, s3) => dispatchList n a k rest s3
              | (.error err, s3) => ((.error err : Except Err Unit), s3)
            | none => dispatchList n a k rest (queueJob e1 (emit (.dispatchEv a k e1) s))) =
            (.ok u, s2) := h
        have hcd : countEv (Ev.dispatchEv a k e) [Ev.dispatchEv a k e1]
            = if e1 = e then 1 else 0 := by
          by_cases he : e1 = e
          · subst he
            simp [countEv]
          · have he' : ¬ e = e1 := fun hx => he hx.symm
            simp [countEv, List.count_cons, he, he']
        have hrest : (e1 :: rest).count e = rest.count e + (if e1 = e then 1 else 0) := by
          by_cases he : e1 = e
          · subst he
            simp [List.count_cons]
          · have he' : ¬ e = e1 := fun hx => he hx.symm
            simp [List.count_cons, he, he']
        cases hl : look (emit (.dispatchEv a k e1) s).effects e1 with
        | none =>
          rw [hl] at h'
          have h0 : ((Except.error Err.missing : Except Err Unit),
              emit (.dispatchEv a k e1) s) = (.ok u, s2) := h'
          exact absurd (congrArg Prod.fst h0) (by simp)
        | some rr =>
          rw [hl] at h'
          have h'' : (match rr.sched with
            | some c =>
              match trigger n c "value" (emit (.schedEv c) { emit (.dispatchEv a k e1) s with
                  computeds := updF (emit (.dispatchEv a k e1) s).computeds c
                    fun cr => { cr with dirty := true } }) with
              | (.ok _, s3) => dispatchList n a k rest s3
              | (.error err, s3) => ((.error err : Except Err Unit), s3)
            | none => dispatchList n a k rest (queueJob e1 (emit (.dispatchEv a k e1) s))) =
            (.ok u, s2) := h'
          cases hsc : rr.sched with
          | some c =>
            rw [hsc] at h''
            have h3 : (match trigger n c "value" (emit (.schedEv c)
                { emit (.dispatchEv a k e1) s with
                  computeds := updF (emit (.dispatchEv a k e1) s).computeds c
                    fun cr => { cr with dirty := true } }) with
              | (.ok _, s3) => dispatchList n a k rest s3
              | (.error err, s3) => ((.error err : Except Err Unit), s3)) = (.ok u, s2) := h''
            cases htr : trigger n c "value" (emit (.schedEv c)
                { emit (.dispatchEv a k e1) s with
                  computeds := updF (emit (.dispatchEv a k e1) s).computeds c
                    fun cr => { cr with dirty := true } }) with
            | mk rt s3 =>
              rw [htr] at h3
              cases rt with
              | ok u3 =>
                have h4 : dispatchList n a k rest s3 = (.ok u, s2) := h3
                have htrB : (emit (.schedEv c) { emit (.dispatchEv a k e1) s with
                    computeds := updF (emit (.dispatchEv a k e1) s).computeds c
                      fun cr => { cr with dirty := true } }).trace
                    = s.trace ++ [Ev.dispatchEv a k e1, Ev.schedEv c] := by
                  show (s.trace ++ [Ev.dispatchEv a k e1]) ++ [Ev.schedEv c] = _
                  rw [List.append_assoc]
                  rfl
                have prefB : s.trace <+: (emit (.schedEv c) { emit (.dispatchEv a k e1) s with
                    computeds := updF (emit (.dispatchEv a k e1) s).computeds c
                      fun cr => { cr with dirty := true } }).trace := by
                  rw [htrB]
                  exact List.prefix_append _ _
                have prefB3 : (emit (.schedEv c) { emit (.dispatchEv a k e1) s with
                    computeds := updF (emit (.dispatchEv a k e1) s).computeds c
                      fun cr => { cr with dirty := true } }).trace <+: s3.trace := by
                  have := cs_trigger n c "value" (emit (.schedEv c)
                    { emit (.dispatchEv a k e1) s with
                      computeds := updF (emit (.dispatchEv a k e1) s).computeds c
                        fun cr => { cr with dirty := true } })
                  rw [htr] at this
                  exact this.sim.tr
                have pref32 : s3.trace <+: s2.trace := by
                  have := cs_dispatchList n a k rest s3
                  rw [h4] at this
                  exact this.sim.tr
                have hdelta : newTrace s s2 = [Ev.dispatchEv a k e1, Ev.schedEv c] ++
                    (newTrace (emit (.schedEv c) { emit (.dispatchEv a k e1) s with
                      computeds := updF (emit (.dispatchEv a k e1) s).computeds c
                        fun cr => { cr with dirty := true } }) s3 ++ newTrace s3 s2) := by
                  rw [newTrace_comp prefB (prefB3.trans pref32), newTrace_comp prefB3 pref32]
                  congr 1
                  show (emit (.schedEv c) { emit (.dispatchEv a k e1) s with
                    computeds := updF (emit (.dispatchEv a k e1) s).computeds c
                      fun cr => { cr with dirty := true } }).trace.drop s.trace.length = _
                  rw [htrB]
                  exact List.drop_left _ _
                rw [hdelta, countEv_append, countEv_append] at hc ⊢
                have hcds : countEv (Ev.triggerEv a k)
                    [Ev.dispatchEv a k e1, Ev.schedEv c] = 0 := by
                  simp [countEv]
                have hct : countEv (Ev.triggerEv a k)
                    (newTrace (emit (.schedEv c) { emit (.dispatchEv a k e1) s with
                      computeds := updF (emit (.dispatchEv a k e1) s).computeds c
                        fun cr => { cr with dirty := true } }) s3) = 0 := by
                  omega
                have hcr : countEv (Ev.triggerEv a k) (newTrace s3 s2) = 0 := by
                  omega
                have hT := ihTZ a k e c "value" (emit (.schedEv c)
                  { emit (.dispatchEv a k e1) s with
                    computeds := updF (emit (.dispatchEv a k e1) s).computeds c
                      fun cr => { cr with dirty := true } }) (.ok u3) s3 htr hct
                have hR := ihDS a k e rest s3 u s2 h4 hcr
                have hcds2 : countEv (Ev.dispatchEv a k e)
                    [Ev.dispatchEv a k e1, Ev.schedEv c] = if e1 = e then 1 else 0 := by
                  by_cases he : e1 = e
                  · subst he
                    simp [countEv, List.count_cons]
                  · have he' : ¬ e = e1 := fun hx => he hx.symm
                    simp [countEv, List.count_cons, he, he']
                omega
              | error err =>
                have h0 : ((Except.error err : Except Err Unit), s3) = (.ok u, s2) := h3
                exact absurd (congrArg Prod.fst h0) (by simp)
          | none =>
            rw [hsc] at h''
            have h3 : dispatchList n a k rest
                (queueJob e1 (emit (.dispatchEv a k e1) s)) = (.ok u, s2) := h''
            have htrQ : (queueJob e1 (emit (.dispatchEv a k e1) s)).trace
                = s.trace ++ [Ev.dispatchEv a k e1] := by
              rw [queueJob_trace]
              rfl
            have prefQ : s.trace <+: (queueJob e1 (emit (.dispatchEv a k e1) s)).trace := by
              rw [htrQ]
              exact List.prefix_append _ _
            have pref32 : (queueJob e1 (emit (.dispatchEv a k e1) s)).trace <+: s2.trace := by
              have := cs_dispatchList n a k rest (queueJob e1 (emit (.dispatchEv a k e1) s))
              rw [h3] at this
              exact this.sim.tr
            have hdelta : newTrace s s2 = [Ev.dispatchEv a k e1] ++
                newTrace (queueJob e1 (emit (.dispatchEv a k e1) s)) s2 := by
              rw [newTrace_comp prefQ pref32]
              congr 1
              show (queueJob e1 (emit (.dispatchEv a k e1) s)).trace.drop s.trace.length = _
              rw [htrQ]
              exact List.drop_left _ _
            rw [hdelta, countEv_append] at hc ⊢
            have hcq : countEv (Ev.triggerEv a k) [Ev.dispatchEv a k e1] = 0 := by
              simp [countEv]
            have hct : countEv (Ev.triggerEv a k)
                (newTrace (queueJob e1 (emit (.dispatchEv a k e1) s)) s2) = 0 := by
              omega
            have hR := ihDS a k e rest (queueJob e1 (emit (.dispatchEv a k e1) s)) u s2 h3 hct
            omega
    · intro a k e a2 k2 s r s2 h hc
      exact stepTrig a2 k2 s r s2 h a k e hc
    · intro a k e a2 k2 l s r s2 hne h hc
      have hd0 : countEv (Ev.dispatchEv a k e) [Ev.dispatchEv a2 k2 (l.headD 0)] = 0 := by
        have hx : ¬ (Ev.dispatchEv a k e = Ev.dispatchEv a2 k2 (l.headD 0)) := by
          intro hx
          injection hx with h1 h2 h3
          exact hne ⟨h1.symm, h2.symm⟩
        rw [countEv_singleton, if_neg hx]
      cases l with
      | nil =>
        have hs : s = s2 := congrArg Prod.snd h
        rw [← hs, newTrace_refl]
        rfl
      | cons e1 rest =>
        have hne1 : countEv (Ev.dispatchEv a k e) [Ev.dispatchEv a2 k2 e1] = 0 := hd0
        have h' : (match look (emit (.dispatchEv a2 k2 e1) s).effects e1 with
          | none => ((Except.error Err.missing : Except Err Unit), emit (.dispatchEv a2 k2 e1) s)
          | some rr =>
            match rr.sched with
            | some c =>
              match trigger n c "value" (emit (.schedEv c) { emit (.dispatchEv a2 k2 e1) s with
                  computeds := updF (emit (.dispatchEv a2 k2 e1) s).computeds c
                    fun cr => { cr with dirty := true } }) with
              | (.ok _, s3) => dispatchList n a2 k2 rest s3
              | (.error err, s3) => ((.error err : Except Err Unit), s3)
            | none => dispatchList n a2 k2 rest (queueJob e1 (emit (.dispatchEv a2 k2 e1) s))) =
            (r, s2) := h
        cases hl : look (emit (.dispatchEv a2 k2 e1) s).effects e1 with
        | none =>
          rw [hl] at h'
          have hs : emit (.dispatchEv a2 k2 e1) s = s2 := congrArg Prod.snd h'
          rw [← hs, newTrace_emit]
          exact hne1
        | some rr =>
          rw [hl] at h'
          have h'' : (match rr.sched with
            | some c =>
              match trigger n c "value" (emit (.schedEv c) { emit (.dispatchEv a2 k2 e1) s with
                  computeds := updF (emit (.dispatchEv a2 k2 e1) s).computeds c
                    fun cr => { cr with dirty := true } }) with
              | (.ok _, s3) => dispatchList n a2 k2 rest s3
              | (.error err, s3) => ((.error err : Except Err Unit), s3)
            | none => dispatchList n a2 k2 rest (queueJob e1 (emit (.dispatchEv a2 k2 e1) s))) =
            (r, s2) := h'
          cases hsc : rr.sched with
          | some c =>
            rw [hsc] at h''
            have h3 : (match trigger n c "value" (emit (.schedEv c)
                { emit (.dispatchEv a2 k2 e1) s with
                  computeds := updF (emit (.dispatchEv a2 k2 e1) s).computeds c
                    fun cr => { cr with dirty := true } }) with
              | (.ok _, s3) => dispatchList n a2 k2 rest s3
              | (.error err, s3) => ((.error err : Except Err Unit), s3)) = (r, s2) := h''
            have htrB : (emit (.schedEv c) { emit (.dispatchEv a2 k2 e1) s with
                computeds := updF (emit (.dispatchEv a2 k2 e1) s).computeds c
                  fun cr => { cr with dirty := true } }).trace
                = s.trace ++ [Ev.dispatchEv a2 k2 e1, Ev.schedEv c] := by
              show (s.trace ++ [Ev.dispatchEv a2 k2 e1]) ++ [Ev.schedEv c] = _
              rw [List.append_assoc]
              rfl
            have prefB : s.trace <+: (emit (.schedEv c) { emit (.dispatchEv a2 k2 e1) s with
                computeds := updF (emit (.dispatchEv a2 k2 e1) s).computeds c
                  fun cr => { cr with dirty := true } }).trace := by
              rw [htrB]
              exact List.prefix_append _ _
            have hcds : countEv (Ev.dispatchEv a k e)
                [Ev.dispatchEv a2 k2 e1, Ev.schedEv c] = 0 := by
              have hx : ¬ (Ev.dispatchEv a k e = Ev.dispatchEv a2 k2 e1) := by
                intro hx
                injection hx with h1 h2 h3x
                exact hne ⟨h1.symm, h2.symm⟩
              simp [countEv, List.count_cons, hx]
            have hcts : countEv (Ev.triggerEv a k)
                [Ev.dispatchEv a2 k2 e1, Ev.schedEv c] = 0 := by
              simp [countEv]
            cases htr : trigger n c "value" (emit (.schedEv c)
                { emit (.dispatchEv a2 k2 e1) s with
                  computeds := updF (emit (.dispatchEv a2 k2 e1) s).computeds c
                    fun cr => { cr with dirty := true } }) with
            | mk rt s3 =>
              rw [htr] at h3
              have prefB3 : (emit (.schedEv c) { emit (.dispatchEv a2 k2 e1) s with
                  computeds := updF (emit (.dispatchEv a2 k2 e1) s).computeds c
                    fun cr => { cr with dirty := true } }).trace <+: s3.trace := by
                have := cs_trigger n c "value" (emit (.schedEv c)
                  { emit (.dispatchEv a2 k2 e1) s with
                    computeds := updF (emit (.dispatchEv a2 k2 e1) s).computeds c
                      fun cr => { cr with dirty := true } })
                rw [htr] at this
                exact this.sim.tr
              cases rt with
              | ok u3 =>
                have h4 : dispatchList n a2 k2 rest s3 = (r, s2) := h3
                have pref32 : s3.trace <+: s2.trace := by
                  have := cs_dispatchList n a2 k2 rest s3
                  rw [h4] at this
                  exact this.sim.tr
                have hdelta : newTrace s s2 = [Ev.dispatchEv a2 k2 e1, Ev.schedEv c] ++
                    (newTrace (emit (.schedEv c) { emit (.dispatchEv a2 k2 e1) s with
                      computeds := updF (emit (.dispatchEv a2 k2 e1) s).computeds c
                        fun cr => { cr with dirty := true } }) s3 ++ newTrace s3 s2) := by
                  rw [newTrace_comp prefB (prefB3.trans pref32), newTrace_comp prefB3 pref32]
                  congr 1
                  show (emit (.schedEv c) { emit (.dispatchEv a2 k2 e1) s with
                    computeds := updF (emit (.dispatchEv a2 k2 e1) s).computeds c
                      fun cr => { cr with dirty := true } }).trace.drop s.trace.length = _
                  rw [htrB]
                  exact List.drop_left _ _
                rw [hdelta, countEv_append, countEv_append] at hc ⊢
                have hct : countEv (Ev.triggerEv a k)
                    (newTrace (emit (.schedEv c) { emit (.dispatchEv a2 k2 e1) s with
                      computeds := updF (emit (.dispatchEv a2 k2 e1) s).computeds c
                        fun cr => { cr with dirty := true } }) s3) = 0 := by
                  omega
                have hcr : countEv (Ev.triggerEv a k) (newTrace s3 s2) = 0 := by
                  omega
                have hT := ihTZ a k e c "value" (emit (.schedEv c)
                  { emit (.dispatchEv a2 k2 e1) s with
                    computeds := updF (emit (.dispatchEv a2 k2 e1) s).computeds c
                      fun cr => { cr with dirty := true } }) (.ok u3) s3 htr hct
                have hR := ihDZ a k e a2 k2 rest s3 r s2 hne h4 hcr
                omega
              | error err =>
                have hs : s3 = s2 := congrArg Prod.snd h3
                have hdelta : newTrace s s2 = [Ev.dispatchEv a2 k2 e1, Ev.schedEv c] ++
                    newTrace (emit (.schedEv c) { emit (.dispatchEv a2 k2 e1) s with
                      computeds := updF (emit (.dispatchEv a2 k2 e1) s).computeds c
                        fun cr => { cr with dirty := true } }) s3 := by
                  rw [← hs]
                  rw [newTrace_comp prefB prefB3]
                  congr 1
                  show (emit (.schedEv c) { emit (.dispatchEv a2 k2 e1) s with
                    computeds := updF (emit (.dispatchEv a2 k2 e1) s).computeds c
                      fun cr => { cr with dirty := true } }).trace.drop s.trace.length = _
                  rw [htrB]
                  exact List.drop_left _ _
                rw [hdelta, countEv_append] at hc ⊢
                have hct : countEv (Ev.triggerEv a k)
                    (newTrace (emit (.schedEv c) { emit (.dispatchEv a2 k2 e1) s with
                      computeds := updF (emit (.dispatchEv a2 k2 e1) s).computeds c
                        fun cr => { cr with dirty := true } }) s3) = 0 := by
                  omega
                have hT := ihTZ a k e c "value" (emit (.schedEv c)
                  { emit (.dispatchEv a2 k2 e1) s with
                    computeds := updF (emit (.dispatchEv a2 k2 e1) s).computeds c
                      fun cr => { cr with dirty := true } }) (.error err) s3 htr hct
                omega
          | none =>
            rw [hsc] at h''
            have h3 : dispatchList n a2 k2 rest
                (queueJob e1 (emit (.dispatchEv a2 k2 e1) s)) = (r, s2) := h''
            have htrQ : (queueJob e1 (emit (.dispatchEv a2 k2 e1) s)).trace
                = s.trace ++ [Ev.dispatchEv a2 k2 e1] := by
              rw [queueJob_trace]
              rfl
            have prefQ : s.trace <+: (queueJob e1 (emit (.dispatchEv a2 k2 e1) s)).trace := by
              rw [htrQ]
              exact List.prefix_append _ _
            have pref32 : (queueJob e1 (emit (.dispatchEv a2 k2 e1) s)).trace <+: s2.trace := by
              have := cs_dispatchList n a2 k2 rest (queueJob e1 (emit (.dispatchEv a2 k2 e1) s))
              rw [h3] at this
              exact this.sim.tr
            have hdelta : newTrace s s2 = [Ev.dispatchEv a2 k2 e1] ++
                newTrace (queueJob e1 (emit (.dispatchEv a2 k2 e1) s)) s2 := by
              rw [newTrace_comp prefQ pref32]
              congr 1
              show (queueJob e1 (emit (.dispatchEv a2 k2 e1) s)).trace.drop s.trace.length = _
              rw [htrQ]
              exact List.drop_left _ _
            rw [hdelta, countEv_append] at hc ⊢
            have hct : countEv (Ev.triggerEv a k)
                (newTrace (queueJob e1 (emit (.dispatchEv a2 k2 e1) s)) s2) = 0 := by
              omega
            have hR := ihDZ a k e a2 k2 rest
              (queueJob e1 (emit (.dispatchEv a2 k2 e1) s)) r s2 hne h3 hct
            omega


/-! ## The computed dirty-bit transition discipline -/


theorem DirtyInv.diRefl (c : Addr) (s : State) : DirtyInv c s s := by
  refine ⟨List.prefix_refl _, fun hd _ => hd, fun hd _ => hd⟩

theorem DirtyInv.diTrans {c : Addr} {s1 s2 s3 : State}
    (h1 : DirtyInv c s1 s2) (h2 : DirtyInv c s2 s3) : DirtyInv c s1 s3 := by
  obtain ⟨tr1, f1, t1⟩ := h1
  obtain ⟨tr2, f2, t2⟩ := h2
  have hsplit : newTrace s1 s3 = newTrace s1 s2 ++ newTrace s2 s3 := newTrace_comp tr1 tr2
  refine ⟨tr1.trans tr2, fun hd hm => ?_, fun hd hm => ?_⟩
  · rw [hsplit] at hm
    exact f2 (f1 hd (fun hx => hm (List.mem_append_left _ hx)))
      (fun hx => hm (List.mem_append_right _ hx))
  · rw [hsplit] at hm
    exact t2 (t1 hd (fun hx => hm (List.mem_append_left _ hx)))
      (fun hx => hm (List.mem_append_right _ hx))

theorem DirtyInv.ofComp {c : Addr} {s s' : State} (htr : s.trace <+: s'.trace)
    (hcm : s'.computeds = s.computeds) : DirtyInv c s s' := by
  have he : dirtyOf s' c = dirtyOf s c := by
    unfold dirtyOf
    rw [hcm]
  exact ⟨htr, fun hd _ => he.trans hd, fun hd _ => he.trans hd⟩

/-- The scheduler step of the dispatch loop: mark `c1` dirty, then emit its
`schedEv`. -/
theorem DirtyInv.schedStep (c c1 : Addr) (s0 : State) :
    DirtyInv c s0 (emit (.schedEv c1) { s0 with
      computeds := updF s0.computeds c1 fun cr => { cr with dirty := true } }) := by
  have hnt : newTrace s0 (emit (.schedEv c1) { s0 with
      computeds := updF s0.computeds c1 fun cr => { cr with dirty := true } })
      = [Ev.schedEv c1] := by
    unfold newTrace
    show (s0.trace ++ [Ev.schedEv c1]).drop s0.trace.length = _
    exact List.drop_left _ _
  refine ⟨⟨[Ev.schedEv c1], rfl⟩, fun hd hm => ?_, fun hd hm => ?_⟩
  · rw [hnt] at hm
    have hcc : c ≠ c1 := by
      intro hx
      subst hx
      exact hm (List.mem_singleton.mpr rfl)
    show (look (updF s0.computeds c1 fun cr => { cr with dirty := true }) c).map
      CompRec.dirty = some false
    rw [look_updF_ne _ _ _ _ hcc]
    exact hd
  · by_cases hcc : c = c1
    · subst hcc
      show (look (updF s0.computeds c fun cr => { cr with dirty := true }) c).map
        CompRec.dirty = some true
      rw [look_updF_self]
      unfold dirtyOf at hd
      cases hl : look s0.computeds c with
      | none =>
        rw [hl] at hd
        simp at hd
      | some cr =>
        rfl
    · show (look (updF s0.computeds c1 fun cr => { cr with dirty := true }) c).map
        CompRec.dirty = some true
      rw [look_updF_ne _ _ _ _ hcc]
      exact hd

/-- The recompute-store step of a computed read, seen from a different
computed `c`. -/
theorem DirtyInv.updValOther {c c1 : Addr} (hne : c ≠ c1) (s1 : State) (u : RVal) :
    DirtyInv c s1 { s1 with
      computeds := updF s1.computeds c1 fun r => { r with cval := u, dirty := false } } := by
  have he : dirtyOf ({ s1 with
      computeds := updF s1.computeds c1
        fun r => { r with cval := u, dirty := false } } : State) c = dirtyOf s1 c := by
    show (look (updF s1.computeds c1 fun r => { r with cval := u, dirty := false }) c).map
      CompRec.dirty = _
    rw [look_updF_ne _ _ _ _ hne]
    rfl
  exact ⟨List.prefix_refl _, fun hd _ => he.trans hd, fun hd _ => he.trans hd⟩

theorem reactiveGet_computeds (w : Wrapper) (k : Key) (s : State) :
    (reactiveGet w k s).2.computeds = s.computeds := by
  unfold reactiveGet
  cases heapGet s w.raw k <;> simp [reactiveWrap]


theorem dirtyAll : ∀ n : Nat,
    (∀ p s c, DirtyInv c s (runProg n p s).2) ∧
    (∀ e s c, DirtyInv c s (runEffect n e s).2) ∧
    (∀ c1 s c, DirtyInv c s (computedGetValue n c1 s).2) ∧
    (∀ w k v s c, DirtyInv c s (reactiveSet n w k v s).2) ∧
    (∀ a k s c, DirtyInv c s (trigger n a k s).2) ∧
    (∀ a k l s c, DirtyInv c s (dispatchList n a k l s).2) := by
  intro n
  induction n with
  | zero =>
    refine ⟨fun p s c => ?_, fun e s c => ?_, fun c1 s c => ?_, fun w k v s c => ?_,
      fun a k s c => ?_, fun a k l s c => ?_⟩
    all_goals exact DirtyInv.diRefl c s
  | succ n ih =>
    obtain ⟨ihProg, ihEff, ihCgv, ihSet, ihTrig, ihDisp⟩ := ih
    have hdisp : ∀ a k l s c, DirtyInv c s (dispatchList (n + 1) a k l s).2 := by
      intro a k l s c
      cases l with
      | nil => exact DirtyInv.diRefl c s
      | cons e rest =>
        have hemit : DirtyInv c s (emit (.dispatchEv a k e) s) :=
          DirtyInv.ofComp ⟨[.dispatchEv a k e], rfl⟩ rfl
        show DirtyInv c s (match look (emit (.dispatchEv a k e) s).effects e with
          | none => ((Except.error Err.missing : Except Err Unit), emit (.dispatchEv a k e) s)
          | some r =>
            match r.sched with
            | some c2 =>
              match trigger n c2 "value" (emit (.schedEv c2)
                { emit (.dispatchEv a k e) s with
                  computeds := updF (emit (.dispatchEv a k e) s).computeds c2
                    fun cr => { cr with dirty := true } }) with
              | (.ok _, s2) => dispatchList n a k rest s2
              | (.error err, s2) => (.error err, s2)
            | none => dispatchList n a k rest (queueJob e (emit (.dispatchEv a k e) s))).2
        cases hl : look (emit (.dispatchEv a k e) s).effects e with
        | none => exact hemit
        | some r =>
          obtain ⟨pg, lz, sc, dp⟩ := r
          show DirtyInv c s (match sc with
            | some c2 =>
              match trigger n c2 "value" (emit (.schedEv c2)
                { emit (.dispatchEv a k e) s with
                  computeds := updF (emit (.dispatchEv a k e) s).computeds c2
                    fun cr => { cr with dirty := true } }) with
              | (.ok _, s2) => dispatchList n a k rest s2
              | (.error err, s2) => (.error err, s2)
            | none => dispatchList n a k rest (queueJob e (emit (.dispatchEv a k e) s))).2
          cases sc with
          | some c2 =>
            show DirtyInv c s (match trigger n c2 "value" (emit (.schedEv c2)
                { emit (.dispatchEv a k e) s with
                  computeds := updF (emit (.dispatchEv a k e) s).computeds c2
                    fun cr => { cr with dirty := true } }) with
              | (.ok _, s2) => dispatchList n a k rest s2
              | (.error err, s2) => (.error err, s2)).2
            have h2 : DirtyInv c s (emit (.schedEv c2)
                { emit (.dispatchEv a k e) s with
                  computeds := updF (emit (.dispatchEv a k e) s).computeds c2
                    fun cr => { cr with dirty := true } }) :=
              hemit.diTrans (DirtyInv.schedStep c c2 (emit (.dispatchEv a k e) s))
            cases htr : trigger n c2 "value" (emit (.schedEv c2)
                { emit (.dispatchEv a k e) s with
                  computeds := updF (emit (.dispatchEv a k e) s).computeds c2
                    fun cr => { cr with dirty := true } }) with
            | mk r2 s2 =>
              have h3 : DirtyInv c s s2 := by
                have := ihTrig c2 "value" (emit (.schedEv c2)
                  { emit (.dispatchEv a k e) s with
                    computeds := updF (emit (.dispatchEv a k e) s).computeds c2
                      fun cr => { cr with dirty := true } }) c
                rw [htr] at this
                exact h2.diTrans this
              cases r2 with
              | ok u => exact h3.diTrans (ihDisp a k rest s2 c)
              | error err => exact h3
          | none =>
            show DirtyInv c s (dispatchList n a k rest
              (queueJob e (emit (.dispatchEv a k e) s))).2
            have hq : DirtyInv c (emit (.dispatchEv a k e) s)
                (queueJob e (emit (.dispatchEv a k e) s)) :=
              DirtyInv.ofComp
                (by rw [queueJob_trace])
                (queueJob_computeds e _)
            exact (hemit.diTrans hq).diTrans (ihDisp a k rest _ c)
    have htrig : ∀ a k s c, DirtyInv c s (trigger (n + 1) a k s).2 := by
      intro a k s c
      have hemit : DirtyInv c s (emit (.triggerEv a k) s) :=
        DirtyInv.ofComp ⟨[.triggerEv a k], rfl⟩ rfl
      show DirtyInv c s (match look (emit (.triggerEv a k) s).targetMap a with
        | none => ((Except.ok () : Except Err Unit), emit (.triggerEv a k) s)
        | some dm =>
          match look dm k with
          | none => (Except.ok (), emit (.triggerEv a k) s)
          | some dep => dispatchList n a k dep (emit (.triggerEv a k) s)).2
      cases h1 : look (emit (.triggerEv a k) s).targetMap a with
      | none => exact hemit
      | some dm =>
        show DirtyInv c s (match look dm k with
          | none => ((Except.ok () : Except Err Unit), emit (.triggerEv a k) s)
          | some dep => dispatchList n a k dep (emit (.triggerEv a k) s)).2
        cases h2 : look dm k with
        | none => exact hemit
        | some dep =>
          show DirtyInv c s (dispatchList n a k dep (emit (.triggerEv a k) s)).2
          exact hemit.diTrans (ihDisp a k dep _ c)
    refine ⟨?_, ?_, ?_, ?_, htrig, hdisp⟩
    · intro p s c
      cases p with
      | skip => exact DirtyInv.diRefl c s
      | seq p q =>
        show DirtyInv c s (match runProg n p s with
          | (.ok _, s1) => runProg n q s1
          | (.error err, s1) => (.error err, s1)).2
        cases hp : runProg n p s with
        | mk r1 s1 =>
          have h1 : DirtyInv c s s1 := by
            have := ihProg p s c
            rw [hp] at this
            exact this
          cases r1 with
          | ok v => exact h1.diTrans (ihProg q s1 c)
          | error err => exact h1
      | readP a k =>
        show DirtyInv c s (match reactiveGet ⟨a, 0⟩ k s with
          | (v, s1) => ((Except.ok v : Except Err RVal), s1)).2
        cases hg : reactiveGet ⟨a, 0⟩ k s with
        | mk v s1 =>
          have this2 : DirtyInv c s (reactiveGet ⟨a, 0⟩ k s).2 :=
            DirtyInv.ofComp (CS.csReactiveGetOp ⟨a, 0⟩ k s).sim.tr
              (reactiveGet_computeds ⟨a, 0⟩ k s)
          rw [hg] at this2
          exact this2
      | writeP a k v =>
        show DirtyInv c s (match reactiveSet n ⟨a, 0⟩ k v s with
          | (.ok _, s1) => ((Except.ok (RVal.prim v) : Except Err RVal), s1)
          | (.error err, s1) => (.error err, s1)).2
        cases hw : reactiveSet n ⟨a, 0⟩ k v s with
        | mk r1 s1 =>
          have h1 : DirtyInv c s s1 := by
            have := ihSet ⟨a, 0⟩ k v s c
            rw [hw] at this
            exact this
          cases r1 with
          | ok u => exact h1
          | error err => exact h1
      | branch a k p q =>
        show DirtyInv c s (match reactiveGet ⟨a, 0⟩ k s with
          | (v, s1) => if truthy v then runProg n p s1 else runProg n q s1).2
        cases hg : reactiveGet ⟨a, 0⟩ k s with
        | mk v s1 =>
          have h1 : DirtyInv c s s1 := by
            have this2 : DirtyInv c s (reactiveGet ⟨a, 0⟩ k s).2 :=
              DirtyInv.ofComp (CS.csReactiveGetOp ⟨a, 0⟩ k s).sim.tr
                (reactiveGet_computeds ⟨a, 0⟩ k s)
            rw [hg] at this2
            exact this2
          by_cases ht : truthy v
          · show DirtyInv c s ((if truthy v then runProg n p s1 else runProg n q s1)).2
            rw [if_pos ht]
            exact h1.diTrans (ihProg p s1 c)
          · show DirtyInv c s ((if truthy v then runProg n p s1 else runProg n q s1)).2
            rw [if_neg ht]
            exact h1.diTrans (ihProg q s1 c)
      | invokeP e => exact ihEff e s c
      | readC c1 => exact ihCgv c1 s c
      | failP => exact DirtyInv.diRefl c s
    · intro e s c
      show DirtyInv c s (match look s.effects e with
        | none => ((Except.error Err.missing : Except Err RVal), s)
        | some r =>
          match runProg n r.prog { cleanup e (emit (.runEv e) s) with
              activeEffect := some e,
              effectStack := e :: (cleanup e (emit (.runEv e) s)).effectStack } with
          | (.ok v, s3) => (.ok v, { s3 with
              effectStack := s3.effectStack.tail,
              activeEffect := s3.effectStack.tail.head? })
          | (.error err, s3) => (.error err, s3)).2
      cases hl : look s.effects e with
      | none => exact DirtyInv.diRefl c s
      | some r =>
        show DirtyInv c s (match runProg n r.prog { cleanup e (emit (.runEv e) s) with
              activeEffect := some e,
              effectStack := e :: (cleanup e (emit (.runEv e) s)).effectStack } with
          | (.ok v, s3) => ((.ok v : Except Err RVal), { s3 with
              effectStack := s3.effectStack.tail,
              activeEffect := s3.effectStack.tail.head? })
          | (.error err, s3) => (.error err, s3)).2
        have ha : DirtyInv c s (emit (.runEv e) s) := DirtyInv.ofComp ⟨[.runEv e], rfl⟩ rfl
        have hb : DirtyInv c (emit (.runEv e) s) (cleanup e (emit (.runEv e) s)) :=
          DirtyInv.ofComp ⟨[.cleanupEv e], rfl⟩ (cleanup_computeds e _)
        have hcR : DirtyInv c (cleanup e (emit (.runEv e) s)) { cleanup e (emit (.runEv e) s) with
            activeEffect := some e,
            effectStack := e :: (cleanup e (emit (.runEv e) s)).effectStack } :=
          DirtyInv.ofComp (List.prefix_refl _) rfl
        have h2 : DirtyInv c s { cleanup e (emit (.runEv e) s) with
            activeEffect := some e,
            effectStack := e :: (cleanup e (emit (.runEv e) s)).effectStack } :=
          (ha.diTrans hb).diTrans hcR
        cases hp : runProg n r.prog { cleanup e (emit (.runEv e) s) with
            activeEffect := some e,
            effectStack := e :: (cleanup e (emit (.runEv e) s)).effectStack } with
        | mk r1 s3 =>
          have h3 : DirtyInv c s s3 := by
            have := ihProg r.prog { cleanup e (emit (.runEv e) s) with
              activeEffect := some e,
              effectStack := e :: (cleanup e (emit (.runEv e) s)).effectStack } c
            rw [hp] at this
            exact h2.diTrans this
          cases r1 with
          | ok v =>
            have hpop : DirtyInv c s3 { s3 with effectStack := s3.effectStack.tail, activeEffect := s3.effectStack.tail.head? } :=
              DirtyInv.ofComp (List.prefix_refl _) rfl
            exact h3.diTrans hpop
          | error err => exact h3
    · intro c1 s c
      show DirtyInv c s (match look s.computeds c1 with
        | none => ((Except.error Err.missing : Except Err RVal), s)
        | some cr =>
          if cr.dirty then
            match runEffect n cr.eid (emit (.recompEv c1) (emit (.creadEv c1) s)) with
            | (.ok v, s1) => (.ok v, track c1 "value" { s1 with
                computeds := updF s1.computeds c1
                  fun r => { r with cval := v, dirty := false } })
            | (.error err, s1) => (.error err, s1)
          else (.ok cr.cval, track c1 "value" (emit (.creadEv c1) s))).2
      cases hl : look s.computeds c1 with
      | none => exact DirtyInv.diRefl c s
      | some cr =>
        have h0 : DirtyInv c s (emit (.creadEv c1) s) :=
          DirtyInv.ofComp ⟨[.creadEv c1], rfl⟩ rfl
        by_cases hd : cr.dirty
        · show DirtyInv c s ((if cr.dirty then
            match runEffect n cr.eid (emit (.recompEv c1) (emit (.creadEv c1) s)) with
            | (.ok v, s1) => ((.ok v : Except Err RVal), track c1 "value" { s1 with
                computeds := updF s1.computeds c1
                  fun r => { r with cval := v, dirty := false } })
            | (.error err, s1) => (.error err, s1)
          else (.ok cr.cval, track c1 "value" (emit (.creadEv c1) s)))).2
          rw [if_pos hd]
          have h1 : DirtyInv c s (emit (.recompEv c1) (emit (.creadEv c1) s)) :=
            h0.diTrans (DirtyInv.ofComp ⟨[.recompEv c1], rfl⟩ rfl)
          cases hr : runEffect n cr.eid (emit (.recompEv c1) (emit (.creadEv c1) s)) with
          | mk r1 s1 =>
            have h2 : DirtyInv c s s1 := by
              have := ihEff cr.eid (emit (.recompEv c1) (emit (.creadEv c1) s)) c
              rw [hr] at this
              exact h1.diTrans this
            cases r1 with
            | ok v =>
              show DirtyInv c s (track c1 "value" { s1 with
                computeds := updF s1.computeds c1
                  fun r => { r with cval := v, dirty := false } })
              by_cases hcc : c = c1
              · subst hcc
                have prefRest : (emit (.creadEv c) s).trace <+:
                    (track c "value" { s1 with
                      computeds := updF s1.computeds c
                        fun r => { r with cval := v, dirty := false } }).trace := by
                  have p1 : (emit (.creadEv c) s).trace <+:
                      (emit (.recompEv c) (emit (.creadEv c) s)).trace := ⟨[.recompEv c], rfl⟩
                  have p2 : (emit (.recompEv c) (emit (.creadEv c) s)).trace <+: s1.trace := by
                    have := cs_runEffect n cr.eid (emit (.recompEv c) (emit (.creadEv c) s))
                    rw [hr] at this
                    exact this.sim.tr
                  have p3 : s1.trace <+: (track c "value" { s1 with
                      computeds := updF s1.computeds c
                        fun r => { r with cval := v, dirty := false } }).trace :=
                    (CS.csTrackOp c "value" { s1 with
                      computeds := updF s1.computeds c
                        fun r => { r with cval := v, dirty := false } }).sim.tr
                  exact (p1.trans p2).trans p3
                have hsome : (look s1.computeds c).isSome = (look s.computeds c).isSome := by
                  have hsim : Sim (emit (.recompEv c) (emit (.creadEv c) s)) s1 := by
                    have := cs_runEffect n cr.eid (emit (.recompEv c) (emit (.creadEv c) s))
                    rw [hr] at this
                    exact this.sim
                  have := hsim.dirty_isSome_eq c
                  unfold dirtyOf at this
                  rw [Option.isSome_map', Option.isSome_map'] at this
                  exact this
                have p0 : s.trace <+: (emit (.creadEv c) s).trace := ⟨[.creadEv c], rfl⟩
                refine ⟨p0.trans prefRest, fun hdf hm => ?_, fun hdt hm => ?_⟩
                · have hs1 : (look s1.computeds c).isSome = true := by
                    rw [hsome]
                    unfold dirtyOf at hdf
                    cases hx : look s.computeds c with
                    | none =>
                      rw [hx] at hdf
                      simp at hdf
                    | some y => rfl
                  cases hl1 : look s1.computeds c with
                  | none =>
                    rw [hl1] at hs1
                    simp at hs1
                  | some cr1 =>
                    show (look (track c "value" { s1 with
                      computeds := updF s1.computeds c
                        fun r => { r with cval := v, dirty := false } }).computeds c).map
                        CompRec.dirty = some false
                    rw [track_computeds]
                    show (look (updF s1.computeds c
                      fun r => { r with cval := v, dirty := false }) c).map
                      CompRec.dirty = some false
                    rw [look_updF_self, hl1]
                    rfl
                · exfalso
                  apply hm
                  rw [newTrace_comp p0 prefRest, newTrace_emit]
                  exact List.mem_append_left _ (List.mem_singleton.mpr rfl)
              · exact (h2.diTrans (DirtyInv.updValOther hcc s1 v)).diTrans
                  (DirtyInv.ofComp (CS.csTrackOp c1 "value" _).sim.tr (track_computeds c1 "value" _))
            | error err => exact h2
        · show DirtyInv c s ((if cr.dirty then
            match runEffect n cr.eid (emit (.recompEv c1) (emit (.creadEv c1) s)) with
            | (.ok v, s1) => ((.ok v : Except Err RVal), track c1 "value" { s1 with
                computeds := updF s1.computeds c1
                  fun r => { r with cval := v, dirty := false } })
            | (.error err, s1) => (.error err, s1)
          else (.ok cr.cval, track c1 "value" (emit (.creadEv c1) s)))).2
          rw [if_neg hd]
          exact h0.diTrans (DirtyInv.ofComp (CS.csTrackOp c1 "value" _).sim.tr
            (track_computeds c1 "value" _))
    · intro w k v s c
      show DirtyInv c s (if v = heapGet s w.raw k
        then ((Except.ok () : Except Err Unit), heapSet s w.raw k v)
        else trigger (n + 1) w.raw k (heapSet s w.raw k v)).2
      by_cases he : v = heapGet s w.raw k
      · rw [if_pos he]
        exact DirtyInv.ofComp (List.prefix_refl _) rfl
      · rw [if_neg he]
        exact (DirtyInv.ofComp (List.prefix_refl _) rfl).diTrans
          (htrig w.raw k (heapSet s w.raw k v) c)


theorem dirty_flushGo (n : Nat) : ∀ visited s c, DirtyInv c s (flushGo n visited s).2 := by
  induction n with
  | zero =>
    intro visited s c
    exact DirtyInv.diRefl c s
  | succ n ih =>
    intro visited s c
    show DirtyInv c s (match s.queue.find? (fun j => !(visited.contains j)) with
      | none => ((Except.ok () : Except Err Unit), { s with queue := [], isFlushing := false })
      | some j =>
        match runEffect n j (emit (.flushRunEv j) s) with
        | (.ok _, s1) => flushGo n (j :: visited) s1
        | (.error err, s1) => ((.error err : Except Err Unit), s1)).2
    cases hf : s.queue.find? (fun j => !(visited.contains j)) with
    | none =>
      show DirtyInv c s ({ s with queue := [], isFlushing := false } : State)
      exact DirtyInv.ofComp (List.prefix_refl _) rfl
    | some j =>
      show DirtyInv c s (match runEffect n j (emit (.flushRunEv j) s) with
        | (.ok _, s1) => flushGo n (j :: visited) s1
        | (.error err, s1) => ((.error err : Except Err Unit), s1)).2
      have h0 : DirtyInv c s (emit (.flushRunEv j) s) :=
        DirtyInv.ofComp ⟨[.flushRunEv j], rfl⟩ rfl
      cases hr : runEffect n j (emit (.flushRunEv j) s) with
      | mk r1 s1 =>
        have h1 : DirtyInv c s s1 := by
          have h2 := (dirtyAll n).2.1 j (emit (.flushRunEv j) s) c
          rw [hr] at h2
          exact h0.diTrans h2
        cases r1 with
        | ok u => exact h1.diTrans (ih (j :: visited) s1 c)
        | error err => exact h1

theorem dirty_runAct (n : Nat) (a : Act) (s : State) (c : Addr) :
    DirtyInv c s (runAct n a s).2 := by
  cases a with
  | writeA a0 k v => exact (dirtyAll n).2.2.2.1 ⟨a0, 0⟩ k v s c
  | readA a0 k =>
    show DirtyInv c s (match reactiveGet ⟨a0, 0⟩ k s with
      | (_, s1) => ((Except.ok () : Except Err Unit), s1)).2
    cases hg : reactiveGet ⟨a0, 0⟩ k s with
    | mk v s1 =>
      have h1 : DirtyInv c s (reactiveGet ⟨a0, 0⟩ k s).2 :=
        DirtyInv.ofComp (CS.csReactiveGetOp ⟨a0, 0⟩ k s).sim.tr
          (reactiveGet_computeds ⟨a0, 0⟩ k s)
      rw [hg] at h1
      exact h1
  | flushMicro =>
    show DirtyInv c s (if s.microtaskPending
      then flushGo n [] { s with microtaskPending := false }
      else ((Except.ok () : Except Err Unit), s)).2
    by_cases hp : s.microtaskPending
    · rw [if_pos hp]
      have h0 : DirtyInv c s ({ s with microtaskPending := false } : State) :=
        DirtyInv.ofComp (List.prefix_refl _) rfl
      exact h0.diTrans (dirty_flushGo n [] { s with microtaskPending := false } c)
    · rw [if_neg hp]
      exact DirtyInv.diRefl c s
  | invokeA e =>
    show DirtyInv c s (match runEffect n e s with
      | (.ok _, s1) => ((Except.ok () : Except Err Unit), s1)
      | (.error err, s1) => (.error err, s1)).2
    cases hr : runEffect n e s with
    | mk r1 s1 =>
      have h1 : DirtyInv c s s1 := by
        have h2 := (dirtyAll n).2.1 e s c
        rw [hr] at h2
        exact h2
      cases r1 with
      | ok u => exact h1
      | error err => exact h1
  | readCA c1 =>
    show DirtyInv c s (match computedGetValue n c1 s with
      | (.ok _, s1) => ((Except.ok () : Except Err Unit), s1)
      | (.error err, s1) => (.error err, s1)).2
    cases hr : computedGetValue n c1 s with
    | mk r1 s1 =>
      have h1 : DirtyInv c s s1 := by
        have h2 := (dirtyAll n).2.2.1 c1 s c
        rw [hr] at h2
        exact h2
      cases r1 with
      | ok u => exact h1
      | error err => exact h1
  | mkEffectA p lz =>
    show DirtyInv c s (if lz
      then ((Except.ok () : Except Err Unit), { s with
        effects := s.effects ++ [(s.nextEffectId, ⟨p, lz, none, []⟩)],
        nextEffectId := s.nextEffectId + 1 })
      else
        match runEffect n s.nextEffectId { s with
            effects := s.effects ++ [(s.nextEffectId, ⟨p, lz, none, []⟩)],
            nextEffectId := s.nextEffectId + 1 } with
        | (.ok _, s2) => ((Except.ok () : Except Err Unit), s2)
        | (.error err, s2) => (.error err, s2)).2
    have h0 : DirtyInv c s ({ s with
        effects := s.effects ++ [(s.nextEffectId, ⟨p, lz, none, []⟩)],
        nextEffectId := s.nextEffectId + 1 } : State) :=
      DirtyInv.ofComp (List.prefix_refl _) rfl
    by_cases hlz : lz
    · rw [if_pos hlz]
      exact h0
    · rw [if_neg hlz]
      cases hr : runEffect n s.nextEffectId { s with
          effects := s.effects ++ [(s.nextEffectId, ⟨p, lz, none, []⟩)],
          nextEffectId := s.nextEffectId + 1 } with
      | mk r1 s1 =>
        have h1 : DirtyInv c s s1 := by
          have h2 := (dirtyAll n).2.1 s.nextEffectId { s with
            effects := s.effects ++ [(s.nextEffectId, ⟨p, lz, none, []⟩)],
            nextEffectId := s.nextEffectId + 1 } c
          rw [hr] at h2
          exact h0.diTrans h2
        cases r1 with
        | ok u => exact h1
        | error err => exact h1
  | mkComputedA g =>
    refine ⟨List.prefix_refl _, fun hd _ => ?_, fun hd _ => ?_⟩
    · unfold dirtyOf at hd ⊢
      cases hx : look s.computeds c with
      | none =>
        rw [hx] at hd
        simp at hd
      | some y =>
        rw [hx] at hd
        show (look (s.computeds ++ [(s.nextAddr, ⟨.prim .undef, true, s.nextEffectId⟩)]) c).map
          CompRec.dirty = some false
        rw [look_append_left hx]
        exact hd
    · unfold dirtyOf at hd ⊢
      cases hx : look s.computeds c with
      | none =>
        rw [hx] at hd
        simp at hd
      | some y =>
        rw [hx] at hd
        show (look (s.computeds ++ [(s.nextAddr, ⟨.prim .undef, true, s.nextEffectId⟩)]) c).map
          CompRec.dirty = some true
        rw [look_append_left hx]
        exact hd

theorem dirty_runScript (n : Nat) : ∀ acts s c, DirtyInv c s (runScript n acts s) := by
  intro acts
  induction acts with
  | nil =>
    intro s c
    exact DirtyInv.diRefl c s
  | cons a rest ih =>
    intro s c
    exact (dirty_runAct n a s c).diTrans (ih (runAct n a s).2 c)


/-! ## Flush accounting -/

theorem countEv_le_countP (p : Ev → Bool) (ev : Ev) (hp : p ev = true) (tr : List Ev) :
    countEv ev tr ≤ tr.countP p := by
  unfold countEv
  induction tr with
  | nil => simp
  | cons x t ih =>
    rw [List.count_cons, List.countP_cons]
    simp only [beq_iff_eq]
    by_cases hx : x = ev
    · subst hx
      rw [if_pos rfl, if_pos hp]
      omega
    · rw [if_neg hx]
      by_cases hpx : p x = true
      · rw [if_pos hpx]
        omega
      · rw [if_neg hpx]
        omega

theorem countP_isFR_newTrace_zero {s s' : State} (htr : s.trace <+: s'.trace)
    (hfr : s'.trace.countP isFR = s.trace.countP isFR) :
    (newTrace s s').countP isFR = 0 := by
  have he : s'.trace = s.trace ++ newTrace s s' := newTrace_eq htr
  rw [he, List.countP_append] at hfr
  omega

/-- No interpreter-internal step ever emits a flush-loop event. -/
theorem countEv_flushRun_zero_of_cs {s s' : State} (h : CS s s') (j : EffectId) :
    countEv (.flushRunEv j) (newTrace s s') = 0 := by
  have h1 := countP_isFR_newTrace_zero h.sim.tr h.fr
  have h2 := countEv_le_countP isFR (.flushRunEv j) rfl (newTrace s s')
  omega

/-- A job already marked visited is never run again by the rest of the flush. -/
theorem flushGo_visited_zero (n : Nat) : ∀ visited s r s2 j,
    flushGo n visited s = (r, s2) → j ∈ visited →
    countEv (.flushRunEv j) (newTrace s s2) = 0 := by
  induction n with
  | zero =>
    intro visited s r s2 j h hm
    have hs : s = s2 := congrArg Prod.snd h
    rw [← hs, newTrace_refl]
    rfl
  | succ n ih =>
    intro visited s r s2 j h hm
    have h' : (match s.queue.find? (fun j => !(visited.contains j)) with
      | none => ((Except.ok () : Except Err Unit), { s with queue := [], isFlushing := false })
      | some j0 =>
        match runEffect n j0 (emit (.flushRunEv j0) s) with
        | (.ok _, s1) => flushGo n (j0 :: visited) s1
        | (.error err, s1) => ((.error err : Except Err Unit), s1)) = (r, s2) := h
    cases hf : s.queue.find? (fun j => !(visited.contains j)) with
    | none =>
      rw [hf] at h'
      have hs : ({ s with queue := [], isFlushing := false } : State) = s2 :=
        congrArg Prod.snd h'
      have hnil : newTrace s ({ s with queue := [], isFlushing := false } : State) = [] :=
        newTrace_eq_nil (Eq.refl s.trace)
      rw [← hs, hnil]
      rfl
    | some j0 =>
      rw [hf] at h'
      have hj0 : j0 ∉ visited := by
        have := List.find?_some hf
        simp at this
        exact this
      have hne : j ≠ j0 := fun hx => hj0 (hx ▸ hm)
      have hc1 : countEv (Ev.flushRunEv j) [Ev.flushRunEv j0] = 0 := by
        rw [countEv_singleton, if_neg]
        intro hx
        injection hx with hx2
        exact hne hx2
      have h'' : (match runEffect n j0 (emit (.flushRunEv j0) s) with
        | (.ok _, s1) => flushGo n (j0 :: visited) s1
        | (.error err, s1) => ((.error err : Except Err Unit), s1)) = (r, s2) := h'
      cases hr : runEffect n j0 (emit (.flushRunEv j0) s) with
      | mk r1 s1 =>
        rw [hr] at h''
        have pref0 : s.trace <+: (emit (.flushRunEv j0) s).trace := ⟨[.flushRunEv j0], rfl⟩
        have csR : CS (emit (.flushRunEv j0) s) s1 := by
          have := cs_runEffect n j0 (emit (.flushRunEv j0) s)
          rw [hr] at this
          exact this
        have hcr : countEv (Ev.flushRunEv j) (newTrace (emit (.flushRunEv j0) s) s1) = 0 :=
          countEv_flushRun_zero_of_cs csR j
        cases r1 with
        | ok u =>
          have h4 : flushGo n (j0 :: visited) s1 = (r, s2) := h''
          have pref1 : s1.trace <+: s2.trace := by
            have := dirty_flushGo n (j0 :: visited) s1 j0
            rw [h4] at this
            exact this.1
          have hrec : countEv (Ev.flushRunEv j) (newTrace s1 s2) = 0 :=
            ih (j0 :: visited) s1 r s2 j h4 (List.mem_cons_of_mem _ hm)
          rw [newTrace_comp pref0 (csR.sim.tr.trans pref1), countEv_append, newTrace_emit,
            newTrace_comp csR.sim.tr pref1, countEv_append]
          omega
        | error err =>
          have hs : s1 = s2 := congrArg Prod.snd h''
          rw [← hs]
          rw [newTrace_comp pref0 csR.sim.tr, countEv_append, newTrace_emit]
          omega

/-- Every job pending and unvisited when a flush step starts is run exactly
once by a completing flush. -/
theorem flushGo_pending_once (n : Nat) : ∀ visited s u s2 j,
    flushGo n visited s = (.ok u, s2) → j ∈ s.queue → j ∉ visited →
    countEv (.flushRunEv j) (newTrace s s2) = 1 := by
  induction n with
  | zero =>
    intro visited s u s2 j h hq hv
    simp [flushGo] at h
  | succ n ih =>
    intro visited s u s2 j h hq hv
    have h' : (match s.queue.find? (fun j => !(visited.contains j)) with
      | none => ((Except.ok () : Except Err Unit), { s with queue := [], isFlushing := false })
      | some j0 =>
        match runEffect n j0 (emit (.flushRunEv j0) s) with
        | (.ok _, s1) => flushGo n (j0 :: visited) s1
        | (.error err, s1) => ((.error err : Except Err Unit), s1)) = (.ok u, s2) := h
    cases hf : s.queue.find? (fun j => !(visited.contains j)) with
    | none =>
      exfalso
      have hall := List.find?_eq_none.mp hf j hq
      simp at hall
      exact hv hall
    | some j0 =>
      rw [hf] at h'
      have h'' : (match runEffect n j0 (emit (.flushRunEv j0) s) with
        | (.ok _, s1) => flushGo n (j0 :: visited) s1
        | (.error err, s1) => ((.error err : Except Err Unit), s1)) = (.ok u, s2) := h'
      cases hr : runEffect n j0 (emit (.flushRunEv j0) s) with
      | mk r1 s1 =>
        rw [hr] at h''
        have pref0 : s.trace <+: (emit (.flushRunEv j0) s).trace := ⟨[.flushRunEv j0], rfl⟩
        have csR : CS (emit (.flushRunEv j0) s) s1 := by
          have := cs_runEffect n j0 (emit (.flushRunEv j0) s)
          rw [hr] at this
          exact this
        have hcr : countEv (Ev.flushRunEv j) (newTrace (emit (.flushRunEv j0) s) s1) = 0 :=
          countEv_flushRun_zero_of_cs csR j
        cases r1 with
        | ok u1 =>
          have h4 : flushGo n (j0 :: visited) s1 = (.ok u, s2) := h''
          have pref1 : s1.trace <+: s2.trace := by
            have := dirty_flushGo n (j0 :: visited) s1 j0
            rw [h4] at this
            exact this.1
          by_cases hjj : j = j0
          · subst hjj
            have hc1 : countEv (Ev.flushRunEv j) [Ev.flushRunEv j] = 1 := by
              rw [countEv_singleton, if_pos rfl]
            have hrec : countEv (Ev.flushRunEv j) (newTrace s1 s2) = 0 :=
              flushGo_visited_zero n (j :: visited) s1 (.ok u) s2 j h4
                (List.mem_cons_self _ _)
            rw [newTrace_comp pref0 (csR.sim.tr.trans pref1), countEv_append, newTrace_emit,
              newTrace_comp csR.sim.tr pref1, countEv_append]
            omega
          · have hc1 : countEv (Ev.flushRunEv j) [Ev.flushRunEv j0] = 0 := by
              rw [countEv_singleton, if_neg]
              intro hx
              injection hx with hx2
              exact hjj hx2
            have hq1 : j ∈ s1.queue := by
              have hqp : (emit (.flushRunEv j0) s).queue <+: s1.queue := csR.q
              exact hqp.subset hq
            have hv1 : j ∉ j0 :: visited := by
              intro hx
              cases List.mem_cons.mp hx with
              | inl hx2 => exact hjj hx2
              | inr hx2 => exact hv hx2
            have hrec : countEv (Ev.flushRunEv j) (newTrace s1 s2) = 1 :=
              ih (j0 :: visited) s1 u s2 j h4 hq1 hv1
            rw [newTrace_comp pref0 (csR.sim.tr.trans pref1), countEv_append, newTrace_emit,
              newTrace_comp csR.sim.tr pref1, countEv_append]
            omega
        | error err =>
          have h0 : ((Except.error err : Except Err Unit), s1) = (.ok u, s2) := h''
          exact absurd (congrArg Prod.fst h0) (by simp)

/-! ## The wedged scheduler after a failed flush -/


theorem flushGo_error_wedged (n : Nat) : ∀ visited s err s2,
    flushGo n visited s = (.error err, s2) →
    s.isFlushing = true → s.microtaskPending = false → Wedged s2 := by
  induction n with
  | zero =>
    intro visited s err s2 h hf hp
    have hs : s = s2 := congrArg Prod.snd h
    rw [← hs]
    exact ⟨hf, hp⟩
  | succ n ih =>
    intro visited s err s2 h hf hp
    have h' : (match s.queue.find? (fun j => !(visited.contains j)) with
      | none => ((Except.ok () : Except Err Unit), { s with queue := [], isFlushing := false })
      | some j0 =>
        match runEffect n j0 (emit (.flushRunEv j0) s) with
        | (.ok _, s1) => flushGo n (j0 :: visited) s1
        | (.error e2, s1) => ((.error e2 : Except Err Unit), s1)) = (.error err, s2) := h
    cases hfind : s.queue.find? (fun j => !(visited.contains j)) with
    | none =>
      rw [hfind] at h'
      exact absurd (congrArg Prod.fst h') (by simp)
    | some j0 =>
      rw [hfind] at h'
      have h'' : (match runEffect n j0 (emit (.flushRunEv j0) s) with
        | (.ok _, s1) => flushGo n (j0 :: visited) s1
        | (.error e2, s1) => ((.error e2 : Except Err Unit), s1)) = (.error err, s2) := h'
      cases hr : runEffect n j0 (emit (.flushRunEv j0) s) with
      | mk r1 s1 =>
        rw [hr] at h''
        have csR : CS (emit (.flushRunEv j0) s) s1 := by
          have := cs_runEffect n j0 (emit (.flushRunEv j0) s)
          rw [hr] at this
          exact this
        have hf1 : s1.isFlushing = true := csR.sim.flMono hf
        have hp1 : s1.microtaskPending = false := by
          rw [csR.sim.pendStable hf]
          exact hp
        cases r1 with
        | ok u =>
          have h4 : flushGo n (j0 :: visited) s1 = (.error err, s2) := h''
          exact ih (j0 :: visited) s1 err s2 h4 hf1 hp1
        | error e2 =>
          have hs : s1 = s2 := congrArg Prod.snd h''
          rw [← hs]
          exact ⟨hf1, hp1⟩

/-- One event-loop turn preserves wedging and runs no flush job. -/
theorem wedged_runAct (n : Nat) (a : Act) {s : State} (hw : Wedged s) :
    Wedged (runAct n a s).2 ∧
    (runAct n a s).2.trace.countP isFR = s.trace.countP isFR := by
  obtain ⟨hf, hp⟩ := hw
  cases a with
  | writeA a0 k v =>
    have hcs := cs_reactiveSet n ⟨a0, 0⟩ k v s
    exact ⟨⟨hcs.sim.flMono hf, (hcs.sim.pendStable hf).trans hp⟩, hcs.fr⟩
  | readA a0 k =>
    show Wedged (match reactiveGet ⟨a0, 0⟩ k s with
      | (_, s1) => ((Except.ok () : Except Err Unit), s1)).2 ∧
      (match reactiveGet ⟨a0, 0⟩ k s with
        | (_, s1) => ((Except.ok () : Except Err Unit), s1)).2.trace.countP isFR
        = s.trace.countP isFR
    cases hg : reactiveGet ⟨a0, 0⟩ k s with
    | mk v s1 =>
      have hcs := CS.csReactiveGetOp ⟨a0, 0⟩ k s
      rw [hg] at hcs
      exact ⟨⟨hcs.sim.flMono hf, (hcs.sim.pendStable hf).trans hp⟩, hcs.fr⟩
  | flushMicro =>
    show Wedged (if s.microtaskPending
      then flushGo n [] { s with microtaskPending := false }
      else ((Except.ok () : Except Err Unit), s)).2 ∧
      (if s.microtaskPending
      then flushGo n [] { s with microtaskPending := false }
      else ((Except.ok () : Except Err Unit), s)).2.trace.countP isFR = s.trace.countP isFR
    rw [hp]
    exact ⟨⟨hf, hp⟩, rfl⟩
  | invokeA e =>
    show Wedged (match runEffect n e s with
      | (.ok _, s1) => ((Except.ok () : Except Err Unit), s1)
      | (.error err, s1) => (.error err, s1)).2 ∧
      (match runEffect n e s with
        | (.ok _, s1) => ((Except.ok () : Except Err Unit), s1)
        | (.error err, s1) => (.error err, s1)).2.trace.countP isFR = s.trace.countP isFR
    cases hr : runEffect n e s with
    | mk r1 s1 =>
      have hcs : CS s s1 := by
        have := cs_runEffect n e s
        rw [hr] at this
        exact this
      cases r1 with
      | ok u => exact ⟨⟨hcs.sim.flMono hf, (hcs.sim.pendStable hf).trans hp⟩, hcs.fr⟩
      | error err => exact ⟨⟨hcs.sim.flMono hf, (hcs.sim.pendStable hf).trans hp⟩, hcs.fr⟩
  | readCA c1 =>
    show Wedged (match computedGetValue n c1 s with
      | (.ok _, s1) => ((Except.ok () : Except Err Unit), s1)
      | (.error err, s1) => (.error err, s1)).2 ∧
      (match computedGetValue n c1 s with
        | (.ok _, s1) => ((Except.ok () : Except Err Unit), s1)
        | (.error err, s1) => (.error err, s1)).2.trace.countP isFR = s.trace.countP isFR
    cases hr : computedGetValue n c1 s with
    | mk r1 s1 =>
      have hcs : CS s s1 := by
        have := cs_cgv n c1 s
        rw [hr] at this
        exact this
      cases r1 with
      | ok u => exact ⟨⟨hcs.sim.flMono hf, (hcs.sim.pendStable hf).trans hp⟩, hcs.fr⟩
      | error err => exact ⟨⟨hcs.sim.flMono hf, (hcs.sim.pendStable hf).trans hp⟩, hcs.fr⟩
  | mkEffectA p lz =>
    show Wedged (if lz
      then ((Except.ok () : Except Err Unit), { s with
        effects := s.effects ++ [(s.nextEffectId, ⟨p, lz, none, []⟩)],
        nextEffectId := s.nextEffectId + 1 })
      else
        match runEffect n s.nextEffectId { s with
            effects := s.effects ++ [(s.nextEffectId, ⟨p, lz, none, []⟩)],
            nextEffectId := s.nextEffectId + 1 } with
        | (.ok _, s2) => ((Except.ok () : Except Err Unit), s2)
        | (.error err, s2) => (.error err, s2)).2 ∧
      (if lz
      then ((Except.ok () : Except Err Unit), { s with
        effects := s.effects ++ [(s.nextEffectId, ⟨p, lz, none, []⟩)],
        nextEffectId := s.nextEffectId + 1 })
      else
        match runEffect n s.nextEffectId { s with
            effects := s.effects ++ [(s.nextEffectId, ⟨p, lz, none, []⟩)],
            nextEffectId := s.nextEffectId + 1 } with
        | (.ok _, s2) => ((Except.ok () : Except Err Unit), s2)
        | (.error err, s2) => (.error err, s2)).2.trace.countP isFR = s.trace.countP isFR
    by_cases hlz : lz
    · rw [if_pos hlz]
      exact ⟨⟨hf, hp⟩, rfl⟩
    · rw [if_neg hlz]
      cases hr : runEffect n s.nextEffectId { s with
          effects := s.effects ++ [(s.nextEffectId, ⟨p, lz, none, []⟩)],
          nextEffectId := s.nextEffectId + 1 } with
      | mk r1 s1 =>
        have hcs : CS ({ s with
            effects := s.effects ++ [(s.nextEffectId, ⟨p, lz, none, []⟩)],
            nextEffectId := s.nextEffectId + 1 } : State) s1 := by
          have := cs_runEffect n s.nextEffectId { s with
            effects := s.effects ++ [(s.nextEffectId, ⟨p, lz, none, []⟩)],
            nextEffectId := s.nextEffectId + 1 }
          rw [hr] at this
          exact this
        cases r1 with
        | ok u => exact ⟨⟨hcs.sim.flMono hf, (hcs.sim.pendStable hf).trans hp⟩, hcs.fr⟩
        | error err => exact ⟨⟨hcs.sim.flMono hf, (hcs.sim.pendStable hf).trans hp⟩, hcs.fr⟩
  | mkComputedA g =>
    exact ⟨⟨hf, hp⟩, rfl⟩

/-- A wedged scheduler stays wedged forever, and no flush job ever runs
again, whatever the program does next. -/
theorem wedged_runScript (n : Nat) : ∀ acts (s : State), Wedged s →
    Wedged (runScript n acts s) ∧
    (runScript n acts s).trace.countP isFR = s.trace.countP isFR := by
  intro acts
  induction acts with
  | nil =>
    intro s hw
    exact ⟨hw, rfl⟩
  | cons a rest ih =>
    intro s hw
    have h1 := wedged_runAct n a hw
    have h2 := ih (runAct n a s).2 h1.1
    exact ⟨h2.1, h2.2.trans h1.2⟩


/-! ## Small facts feeding the claim theorems -/

theorem track_nextWrapperId (a : Addr) (k : Key) (s : State) :
    (track a k s).nextWrapperId = s.nextWrapperId := by
  unfold track
  cases s.activeEffect <;> rfl

theorem heapGet_heapSet_self (s : State) (a : Addr) (k : Key) (v : Value) :
    heapGet (heapSet s a k v) a k = v := by
  unfold heapGet heapSet
  show ((look (ins s.heap a (ins ((look s.heap a).getD []) k v)) a).bind
    fun fields => look fields k).getD Value.undef = v
  rw [look_ins_self]
  simp only [Option.some_bind]
  rw [look_ins_self]
  rfl

theorem countEv_zero_of_all_isDT {tr : List Ev} (h : ∀ x ∈ tr, isDT x = true)
    {ev : Ev} (hev : isDT ev = false) : countEv ev tr = 0 := by
  unfold countEv
  rw [List.count_eq_zero]
  intro hm
  rw [h ev hm] at hev
  exact Bool.noConfusion hev

theorem depSet_count_ite {s : State} (hw : WF s) (a : Addr) (k : Key) (e : EffectId) :
    (depSet s a k).count e = if e ∈ depSet s a k then 1 else 0 := by
  by_cases hm : e ∈ depSet s a k
  · rw [if_pos hm]
    exact List.count_eq_one_of_mem (hw.depSet_nodup a k) hm
  · rw [if_neg hm]
    exact List.count_eq_zero.mpr hm


/-! ## Concrete demonstration states -/











/-! ## Remaining facts about reactive reads -/

theorem reactiveGet_obj_fresh {s : State} {w : Wrapper} {k : Key} {a : Addr}
    (hobj : heapGet s w.raw k = .objV a) :
    (reactiveGet w k s).1 = .wrapped ⟨a, s.nextWrapperId⟩ ∧
    (reactiveGet w k s).2.nextWrapperId = s.nextWrapperId + 1 := by
  unfold reactiveGet
  rw [hobj]
  constructor
  · show RVal.wrapped ⟨a, (track w.raw k s).nextWrapperId⟩ = _
    rw [track_nextWrapperId]
  · show (track w.raw k s).nextWrapperId + 1 = _
    rw [track_nextWrapperId]

theorem reactiveGet_targetMap (w : Wrapper) (k : Key) (s : State) :
    (reactiveGet w k s).2.targetMap = (track w.raw k s).targetMap := by
  unfold reactiveGet
  cases heapGet s w.raw k <;> simp [reactiveWrap]

/-! ## The claims -/

/-- C7: an inner effect run started while an outer effect is active restores
the outer effect as the active one on return, so later reads in the outer run
are tracked against the outer effect. -/
theorem C7_inner_run_restores_outer (n : Nat) (ei eo : EffectId) {s : State} {v : RVal}
    {s' : State} (hw : WF s) (hae : s.activeEffect = some eo)
    (h : runEffect n ei s = (.ok v, s')) :
    s'.activeEffect = some eo ∧
    ∀ a k, eo ∈ depSet (track a k s') a k ∧
      depsOf (track a k s') eo = depsOf s' eo ++ [(a, k)] := by
  have hst := stack_runEffect n ei hw h
  have hae' : s'.activeEffect = some eo := by
    rw [hst.2, ← hw.aeTop]
    exact hae
  have hw' : WF s' := by
    have := wf_runEffect n ei hw
    rw [h] at this
    exact this
  refine ⟨hae', fun a k => ⟨?_, ?_⟩⟩
  · rw [track_depSet_self hae' a k]
    by_cases hm : eo ∈ depSet s' a k
    · rw [if_pos hm]
      exact hm
    · rw [if_neg hm]
      exact List.mem_append_right _ (List.mem_singleton.mpr rfl)
  · exact track_depsOf_self hae' (hw'.active_registered hae') a k

theorem C7_inner_run_restores_outer_witness :
    (runEffect 5 1 nestState).2.activeEffect = some 0 ∧
    0 ∈ depSet (track 1 "a" (runEffect 5 1 nestState).2) 1 "a" := by
  have hpair : runEffect 5 1 nestState
      = (.ok (.prim (.num 5)), (runEffect 5 1 nestState).2) := by
    have h1 : (runEffect 5 1 nestState).1 = .ok (.prim (.num 5)) := rfl
    rw [← h1]
  have h := C7_inner_run_restores_outer 5 1 0 (by decide) rfl hpair
  exact ⟨h.1, (h.2 1 "a").1⟩

/-- C8: a write through the wrapper that stores the value already present
calls no trigger and dispatches no effect; trigger is called exactly when the
new value differs. -/
theorem C8_noop_write_never_triggers (n : Nat) (w : Wrapper) (k : Key) (v : Value)
    (s : State) :
    (heapGet s w.raw k = v →
      reactiveSet (n + 1) w k v s = (.ok (), heapSet s w.raw k v) ∧
      newTrace s (reactiveSet (n + 1) w k v s).2 = [] ∧
      (∀ a2 k2 e, countEv (.dispatchEv a2 k2 e)
        (newTrace s (reactiveSet (n + 1) w k v s).2) = 0)) ∧
    (heapGet s w.raw k ≠ v →
      reactiveSet (n + 1) w k v s = trigger (n + 1) w.raw k (heapSet s w.raw k v)) := by
  constructor
  · intro he
    have heq : reactiveSet (n + 1) w k v s = (.ok (), heapSet s w.raw k v) := by
      show (if v = heapGet s w.raw k then ((Except.ok () : Except Err Unit), heapSet s w.raw k v)
        else trigger (n + 1) w.raw k (heapSet s w.raw k v)) = _
      rw [if_pos he.symm]
    have hnil : newTrace s (heapSet s w.raw k v) = [] := newTrace_eq_nil (Eq.refl s.trace)
    refine ⟨heq, ?_, fun a2 k2 e => ?_⟩
    · rw [heq]
      exact hnil
    · rw [heq]
      show countEv (.dispatchEv a2 k2 e) (newTrace s (heapSet s w.raw k v)) = 0
      rw [hnil]
      rfl
  · intro hne
    show (if v = heapGet s w.raw k then ((Except.ok () : Except Err Unit), heapSet s w.raw k v)
      else trigger (n + 1) w.raw k (heapSet s w.raw k v)) = _
    rw [if_neg (fun hx => hne hx.symm)]

theorem C8_noop_write_never_triggers_witness :
    reactiveSet 4 ⟨1, 0⟩ "a" (.num 10) demoState
      = (.ok (), heapSet demoState 1 "a" (.num 10)) ∧
    reactiveSet 4 ⟨1, 0⟩ "a" (.num 99) demoState
      = trigger 4 1 "a" (heapSet demoState 1 "a" (.num 99)) := by
  exact ⟨((C8_noop_write_never_triggers 3 ⟨1, 0⟩ "a" (.num 10) demoState).1 (by decide)).1,
    (C8_noop_write_never_triggers 3 ⟨1, 0⟩ "a" (.num 99) demoState).2 (by decide)⟩

/-- C9: a read of an object-typed property wraps the nested value in a fresh
wrapper each time (distinct identities on every read), while tracking and
triggering stay keyed on the raw target address, so subscriptions through one
wrapper are triggered by writes through another over the same raw target. -/
theorem C9_fresh_wrappers_raw_keyed_tracking (n : Nat) (w w2 : Wrapper) (k k2 : Key)
    (s : State) (a a2 : Addr) (v : Value) :
    (heapGet s w.raw k = .objV a →
      (reactiveGet w k s).1 = .wrapped ⟨a, s.nextWrapperId⟩ ∧
      (heapGet (reactiveGet w k s).2 w2.raw k2 = .objV a2 →
        (reactiveGet w2 k2 (reactiveGet w k s).2).1 = .wrapped ⟨a2, s.nextWrapperId + 1⟩ ∧
        (⟨a2, s.nextWrapperId + 1⟩ : Wrapper) ≠ ⟨a, s.nextWrapperId⟩)) ∧
    (∀ e, s.activeEffect = some e → e ∈ depSet (reactiveGet w k s).2 w.raw k) ∧
    (w2.raw = w.raw → heapGet s w.raw k ≠ v →
      reactiveSet (n + 1) w2 k v s = trigger (n + 1) w.raw k (heapSet s w.raw k v)) := by
  refine ⟨fun hobj => ?_, fun e hae => ?_, fun hraw hne => ?_⟩
  · have h1 := reactiveGet_obj_fresh hobj
    refine ⟨h1.1, fun hobj2 => ?_⟩
    have h2 := reactiveGet_obj_fresh hobj2
    constructor
    · rw [h2.1, h1.2]
    · intro hx
      have hpid := congrArg Wrapper.pid hx
      simp at hpid
  · have htm : depSet (reactiveGet w k s).2 w.raw k = depSet (track w.raw k s) w.raw k := by
      unfold depSet
      rw [reactiveGet_targetMap]
    rw [htm, track_depSet_self hae w.raw k]
    by_cases hm : e ∈ depSet s w.raw k
    · rw [if_pos hm]
      exact hm
    · rw [if_neg hm]
      exact List.mem_append_right _ (List.mem_singleton.mpr rfl)
  · show (if v = heapGet s w2.raw k then ((Except.ok () : Except Err Unit), heapSet s w2.raw k v)
      else trigger (n + 1) w2.raw k (heapSet s w2.raw k v)) = _
    rw [hraw]
    rw [if_neg (fun hx => hne hx.symm)]

theorem C9_fresh_wrappers_raw_keyed_tracking_witness :
    (reactiveGet ⟨1, 0⟩ "nested" demoState).1 = .wrapped ⟨2, demoState.nextWrapperId⟩ ∧
    (reactiveGet ⟨1, 0⟩ "nested" (reactiveGet ⟨1, 0⟩ "nested" demoState).2).1
      = .wrapped ⟨2, demoState.nextWrapperId + 1⟩ ∧
    (⟨2, demoState.nextWrapperId + 1⟩ : Wrapper) ≠ (⟨2, demoState.nextWrapperId⟩ : Wrapper) ∧
    reactiveSet 4 ⟨1, 7⟩ "a" (.num 99) demoState
      = trigger 4 1 "a" (heapSet demoState 1 "a" (.num 99)) := by
  have h := C9_fresh_wrappers_raw_keyed_tracking 3 ⟨1, 0⟩ ⟨1, 0⟩ "nested" "nested"
    demoState 2 2 (.num 99)
  have h3 := C9_fresh_wrappers_raw_keyed_tracking 3 ⟨1, 0⟩ ⟨1, 7⟩ "a" "a"
    demoState 2 2 (.num 99)
  have hp := h.1 (by decide)
  have hp2 := hp.2 (by decide)
  exact ⟨hp.1, hp2.1, hp2.2, h3.2.2 rfl (by decide)⟩

/-- C10: every write stores the new value into the raw target unconditionally,
before the old/new comparison; a no-op write changes nothing but the heap
cell. -/
theorem C10_store_unconditional_noop_frame (n : Nat) (w : Wrapper) (k : Key) (v : Value)
    (s : State) :
    (reactiveSet (n + 1) w k v s).2.heap = (heapSet s w.raw k v).heap ∧
    heapGet (reactiveSet (n + 1) w k v s).2 w.raw k = v ∧
    (heapGet s w.raw k = v →
      (reactiveSet (n + 1) w k v s).2 = heapSet s w.raw k v ∧
      (heapSet s w.raw k v).targetMap = s.targetMap ∧
      (heapSet s w.raw k v).effects = s.effects ∧
      (heapSet s w.raw k v).computeds = s.computeds ∧
      (heapSet s w.raw k v).queue = s.queue ∧
      (heapSet s w.raw k v).isFlushing = s.isFlushing ∧
      (heapSet s w.raw k v).microtaskPending = s.microtaskPending ∧
      (heapSet s w.raw k v).trace = s.trace ∧
      (heapSet s w.raw k v).activeEffect = s.activeEffect ∧
      (heapSet s w.raw k v).effectStack = s.effectStack) := by
  have hheap : (reactiveSet (n + 1) w k v s).2.heap = (heapSet s w.raw k v).heap := by
    show ((if v = heapGet s w.raw k then ((Except.ok () : Except Err Unit), heapSet s w.raw k v)
      else trigger (n + 1) w.raw k (heapSet s w.raw k v))).2.heap = _
    by_cases he : v = heapGet s w.raw k
    · rw [if_pos he]
    · rw [if_neg he]
      exact (tf_trigger (n + 1) w.raw k (heapSet s w.raw k v)).hp
  refine ⟨hheap, ?_, fun he => ?_⟩
  · show ((look (reactiveSet (n + 1) w k v s).2.heap w.raw).bind
      fun fields => look fields k).getD .undef = v
    rw [hheap]
    exact heapGet_heapSet_self s w.raw k v
  · refine ⟨?_, rfl, rfl, rfl, rfl, rfl, rfl, rfl, rfl, rfl⟩
    show ((if v = heapGet s w.raw k then ((Except.ok () : Except Err Unit), heapSet s w.raw k v)
      else trigger (n + 1) w.raw k (heapSet s w.raw k v))).2 = _
    rw [if_pos he.symm]

theorem C10_store_unconditional_noop_frame_witness :
    (reactiveSet 4 ⟨1, 0⟩ "a" (.num 10) demoState).2.heap
      = (heapSet demoState 1 "a" (.num 10)).heap ∧
    heapGet (reactiveSet 4 ⟨1, 0⟩ "a" (.num 10) demoState).2 1 "a" = .num 10 ∧
    (reactiveSet 4 ⟨1, 0⟩ "a" (.num 10) demoState).2 = heapSet demoState 1 "a" (.num 10) := by
  have h := C10_store_unconditional_noop_frame 3 ⟨1, 0⟩ "a" (.num 10) demoState
  exact ⟨h.1, h.2.1, (h.2.2 (by decide)).1⟩


/-- C1: after a completed non-reentrant run of an effect handle, its deps list
and dependency-set memberships are exactly the (target, key) pairs tracked
during that run — stale memberships from earlier runs are gone — and a later
trigger dispatches the effect exactly when it read that pair during the run. -/
theorem C1_deps_exactly_tracked (n : Nat) (e : EffectId) {s : State} {v : RVal} {s' : State}
    (hw : WF s) (h : runEffect n e s = (.ok v, s'))
    (hc : countEv (.cleanupEv e) (newTrace s s') = 1) :
    depsOf s' e = trackedPairs e (newTrace s s') ∧
    (∀ a k, e ∈ depSet s' a k ↔ (a, k) ∈ trackedPairs e (newTrace s s')) ∧
    (∀ m a k t2 s2, trigger m a k s' = (.ok t2, s2) →
      countEv (.triggerEv a k) (newTrace s' s2) = 1 →
      countEv (.dispatchEv a k e) (newTrace s' s2)
        = (if (a, k) ∈ trackedPairs e (newTrace s s') then 1 else 0)) := by
  have hm := runEffect_deps_exact n e hw h hc
  have hw' : WF s' := by
    have := wf_runEffect n e hw
    rw [h] at this
    exact this
  refine ⟨hm.1, hm.2, fun m a k t2 s2 htr hc1 => ?_⟩
  rw [(trigCountAll m).1 a k e s' t2 s2 hw' htr hc1, depSet_count_ite hw' a k e]
  by_cases hmem : e ∈ depSet s' a k
  · rw [if_pos hmem, if_pos ((hm.2 a k).mp hmem)]
  · rw [if_neg hmem, if_neg (fun hx => hmem ((hm.2 a k).mpr hx))]

theorem C1_deps_exactly_tracked_witness :
    depsOf (runEffect 5 0 branchState).2 0
      = trackedPairs 0 (newTrace branchState (runEffect 5 0 branchState).2) ∧
    ((0 : EffectId) ∈ depSet (runEffect 5 0 branchState).2 1 "a" ↔
      ((1 : Addr), ("a" : Key)) ∈ trackedPairs 0
        (newTrace branchState (runEffect 5 0 branchState).2)) := by
  have hpair : runEffect 5 0 branchState
      = (.ok (.prim (.num 10)), (runEffect 5 0 branchState).2) := by
    have h1 : (runEffect 5 0 branchState).1 = .ok (.prim (.num 10)) := rfl
    rw [← h1]
  have h := C1_deps_exactly_tracked 5 0 (by decide) hpair (by decide)
  exact ⟨h.1, h.2.1 1 "a"⟩

/-- C2: the scheduler queue never holds the same effect twice, so any burst of
synchronous writes enqueues a dependent effect at most once, and a completing
flush runs each pending job exactly once, not once per write. -/
theorem C2_queue_dedup_flush_once (n m : Nat) (acts : List Act) (s : State) (hw : WF s) :
    (runScript n acts s).queue.Nodup ∧
    (∀ j u s2, j ∈ (runScript n acts s).queue →
      flushGo m [] (runScript n acts s) = (.ok u, s2) →
      countEv (.flushRunEv j) (newTrace (runScript n acts s) s2) = 1) := by
  refine ⟨(wf_runScript n acts hw).queueNodup, fun j u s2 hq hf => ?_⟩
  exact flushGo_pending_once m [] (runScript n acts s) u s2 j hf hq (List.not_mem_nil j)

theorem C2_queue_dedup_flush_once_witness :
    (runScript 20 queueActs demoState).queue.Nodup ∧
    countEv (.flushRunEv 0)
      (newTrace (runScript 20 queueActs demoState)
        (flushGo 20 [] (runScript 20 queueActs demoState)).2) = 1 := by
  have h := C2_queue_dedup_flush_once 20 20 queueActs demoState (by decide)
  refine ⟨h.1, ?_⟩
  have hpair : flushGo 20 [] (runScript 20 queueActs demoState)
      = (.ok (), (flushGo 20 [] (runScript 20 queueActs demoState)).2) := by
    have h1 : (flushGo 20 [] (runScript 20 queueActs demoState)).1 = .ok () := rfl
    rw [← h1]
  exact h.2 0 () (flushGo 20 [] (runScript 20 queueActs demoState)).2 (by decide) hpair

/-- C6: a trigger call iterates a snapshot of the subscriber set taken before
dispatch: each subscriber present at snapshot time is delivered exactly once
within that call, whatever mutation dispatch causes; and with no dependency
set at (target, key) the call returns at once, changing nothing but the
trace. -/
theorem C6_snapshot_dispatch_exact (n m : Nat) (a : Addr) (k : Key) (s : State) (hw : WF s) :
    (∀ e u s2, trigger n a k s = (.ok u, s2) →
      countEv (.triggerEv a k) (newTrace s s2) = 1 →
      countEv (.dispatchEv a k e) (newTrace s s2)
        = (if e ∈ depSet s a k then 1 else 0)) ∧
    ((look s.targetMap a).bind (fun dm => look dm k) = none →
      trigger (m + 1) a k s = (.ok (), emit (.triggerEv a k) s)) := by
  refine ⟨fun e u s2 htr hc1 => ?_, fun hnone => ?_⟩
  · rw [(trigCountAll n).1 a k e s u s2 hw htr hc1]
    exact depSet_count_ite hw a k e
  · show (match look (emit (.triggerEv a k) s).targetMap a with
      | none => ((Except.ok () : Except Err Unit), emit (.triggerEv a k) s)
      | some dm =>
        match look dm k with
        | none => (.ok (), emit (.triggerEv a k) s)
        | some dep => dispatchList m a k dep (emit (.triggerEv a k) s)) = _
    cases hl : look s.targetMap a with
    | none =>
      have hl' : look (emit (.triggerEv a k) s).targetMap a = none := hl
      rw [hl']
    | some dm =>
      rw [hl] at hnone
      simp only [Option.some_bind] at hnone
      have hl' : look (emit (.triggerEv a k) s).targetMap a = some dm := hl
      rw [hl']
      show (match look dm k with
        | none => ((Except.ok () : Except Err Unit), emit (.triggerEv a k) s)
        | some dep => dispatchList m a k dep (emit (.triggerEv a k) s)) = _
      rw [hnone]

theorem C6_snapshot_dispatch_exact_witness :
    countEv (.dispatchEv 1 "cond" 0)
      (newTrace (runEffect 5 0 branchState).2
        (trigger 3 1 "cond" (runEffect 5 0 branchState).2).2)
      = (if (0 : EffectId) ∈ depSet (runEffect 5 0 branchState).2 1 "cond" then 1 else 0) ∧
    trigger 3 1 "zz" (runEffect 5 0 branchState).2
      = (.ok (), emit (.triggerEv 1 "zz") (runEffect 5 0 branchState).2) := by
  have h := C6_snapshot_dispatch_exact 3 2 1 "cond" (runEffect 5 0 branchState).2 (by decide)
  have h2 := C6_snapshot_dispatch_exact 3 2 1 "zz" (runEffect 5 0 branchState).2 (by decide)
  have hpair : trigger 3 1 "cond" (runEffect 5 0 branchState).2
      = (.ok (), (trigger 3 1 "cond" (runEffect 5 0 branchState).2).2) := by
    have h1 : (trigger 3 1 "cond" (runEffect 5 0 branchState).2).1 = .ok () := rfl
    rw [← h1]
  exact ⟨h.1 0 () (trigger 3 1 "cond" (runEffect 5 0 branchState).2).2 hpair (by decide),
    h2.2 (by decide)⟩


/-- C3: the code violates the claim. `effectFn` has no try/finally, so when
the user function throws, the pop and restore of the active-effect context
are skipped: after a failed run the failed effect is still on the stack and
still the active effect, corrupting all subsequent tracking. -/
theorem C3_failed_run_leaves_stale_active :
    (runEffect 5 0 failState).1 = .error .thrown ∧
    failState.activeEffect = none ∧
    failState.effectStack = [] ∧
    (runEffect 5 0 failState).2.activeEffect = some 0 ∧
    (runEffect 5 0 failState).2.effectStack = [0] := by
  refine ⟨rfl, rfl, rfl, by decide, by decide⟩

/-- C4 (counterexample to the claim as stated): in the wedge scenario job 1 is
pending when the flush starts, the flush fails on job 0, and job 1 is never
run — not in that flush, and not after a fresh write and another microtask
drain: its queue entry survives but no flush ever runs again. -/
theorem C4_counterexample_pending_job_never_runs :
    1 ∈ (runScript 20 wedgePrefixActs demoState).queue ∧
    countEv (.flushRunEv 1) (runScript 20 wedgeActs demoState).trace = 0 ∧
    (runScript 20 wedgeActs demoState).queue ≠ [] := by
  refine ⟨by decide, by decide, by decide⟩

/-- C4 (amended): a single failing job permanently prevents the remaining
queued jobs from running.  When the microtask flush fails, `isFlushing` is
never reset and no new microtask is ever requested, so the scheduler is
wedged: it stays wedged under every later action, and no flush-loop job event
is ever emitted again. -/
theorem C4_failed_flush_wedges_scheduler (n m : Nat) {s : State} {err : Err} {s2 : State}
    (hfl : s.isFlushing = true) (hpd : s.microtaskPending = true)
    (h : runAct n .flushMicro s = (.error err, s2)) (acts : List Act) :
    Wedged s2 ∧ Wedged (runScript m acts s2) ∧
    (runScript m acts s2).trace.countP isFR = s2.trace.countP isFR := by
  have h' : flushGo n [] { s with microtaskPending := false } = (.error err, s2) := by
    have h2 : (if s.microtaskPending then flushGo n [] { s with microtaskPending := false }
        else ((Except.ok () : Except Err Unit), s)) = (.error err, s2) := h
    rw [hpd] at h2
    exact h2
  have hwg : Wedged s2 :=
    flushGo_error_wedged n [] { s with microtaskPending := false } err s2 h' hfl rfl
  have h2 := wedged_runScript m acts s2 hwg
  exact ⟨hwg, h2.1, h2.2⟩

theorem C4_failed_flush_wedges_scheduler_witness :
    Wedged wedgedState ∧
    Wedged (runScript 20 [.writeA 1 "x" (.num 7), .flushMicro] wedgedState) ∧
    (runScript 20 [.writeA 1 "x" (.num 7), .flushMicro] wedgedState).trace.countP isFR
      = wedgedState.trace.countP isFR := by
  have hpair : runAct 20 .flushMicro (runScript 20 wedgePrefixActs demoState)
      = (.error .thrown, wedgedState) := by
    have h1 : (runAct 20 .flushMicro (runScript 20 wedgePrefixActs demoState)).1
        = .error .thrown := rfl
    rw [← h1]
    rfl
  have h := C4_failed_flush_wedges_scheduler 20 20 (by decide) (by decide) hpair
    [.writeA 1 "x" (.num 7), .flushMicro]
  exact ⟨h.1, h.2.1, h.2.2⟩

/-- C5: a computed starts dirty; it can leave the clean state only when its
invalidation scheduler fires, and leave the dirty state only when `.value` is
read; a plain write never recomputes it, and a `.value` read in the clean
state returns the cached value without running the getter. -/
theorem C5_computed_state_machine (n : Nat) (g : Prog) (acts : List Act) (c : Addr)
    (cr : CompRec) (s : State) (hw : WF s) :
    look (runAct n (.mkComputedA g) s).2.computeds s.nextAddr
      = some ⟨.prim .undef, true, s.nextEffectId⟩ ∧
    (dirtyOf s c = some false → Ev.schedEv c ∉ newTrace s (runScript n acts s) →
      dirtyOf (runScript n acts s) c = some false) ∧
    (dirtyOf s c = some true → Ev.creadEv c ∉ newTrace s (runScript n acts s) →
      dirtyOf (runScript n acts s) c = some true) ∧
    (∀ w k v, countEv (.recompEv c) (newTrace s (reactiveSet n w k v s).2) = 0) ∧
    (look s.computeds c = some cr → cr.dirty = false →
      computedGetValue (n + 1) c s = (.ok cr.cval, track c "value" (emit (.creadEv c) s))) := by
  refine ⟨?_, (dirty_runScript n acts s c).2.1, (dirty_runScript n acts s c).2.2,
    fun w k v => ?_, fun hl hd => ?_⟩
  · show look (s.computeds ++ [(s.nextAddr, ⟨.prim .undef, true, s.nextEffectId⟩)])
      s.nextAddr = _
    have hnone : look s.computeds s.nextAddr = none := by
      apply look_eq_none_of_not_mem
      intro hmem
      obtain ⟨ce, hce, hfst⟩ := List.mem_map.mp hmem
      have hb := hw.compBound ce hce
      rw [hfst] at hb
      exact lt_irrefl _ hb
    rw [look_append_right _ hnone, look_cons_eq]
    rfl
  · exact countEv_zero_of_all_isDT (tf_reactiveSet_core n w k v s).2.2.2.2.2 rfl
  · show (match look s.computeds c with
      | none => ((Except.error Err.missing : Except Err RVal), s)
      | some cr2 =>
        if cr2.dirty then
          match runEffect n cr2.eid (emit (.recompEv c) (emit (.creadEv c) s)) with
          | (.ok v, s1) => (.ok v, track c "value" { s1 with
              computeds := updF s1.computeds c fun r => { r with cval := v, dirty := false } })
          | (.error err, s1) => (.error err, s1)
        else (.ok cr2.cval, track c "value" (emit (.creadEv c) s)))
      = (.ok cr.cval, track c "value" (emit (.creadEv c) s))
    rw [hl]
    show (if cr.dirty then
        match runEffect n cr.eid (emit (.recompEv c) (emit (.creadEv c) s)) with
        | (.ok v, s1) => ((.ok v : Except Err RVal), track c "value" { s1 with
            computeds := updF s1.computeds c fun r => { r with cval := v, dirty := false } })
        | (.error err, s1) => (.error err, s1)
      else (.ok cr.cval, track c "value" (emit (.creadEv c) s))) = _
    rw [hd]
    simp

theorem C5_computed_state_machine_witness :
    look (runAct 5 (.mkComputedA (.readP 1 "a")) compCleanState).2.computeds
      compCleanState.nextAddr = some ⟨.prim .undef, true, compCleanState.nextEffectId⟩ ∧
    computedGetValue 6 10 compCleanState
      = (.ok (.prim (.num 10)), track 10 "value" (emit (.creadEv 10) compCleanState)) := by
  have h := C5_computed_state_machine 5 (.readP 1 "a") [] 10 ⟨.prim (.num 10), false, 0⟩
    compCleanState (by decide)
  exact ⟨h.1, h.2.2.2.2 (by decide) rfl⟩

end MiniVue
